import Mathlib

/-!
# prometheus-cardinality-exporter: the reconciliation engine

A shallow embedding of `cardinality/cardinality.go`, and the properties of the
reconciler, the instance coordinator and the cross-dimensional expander.

* Go's fixed arrays `[10]T` are `Array10 T`, lists of length exactly ten.
* `prometheus.Labels` (a Go `map[string]string`) is an association list kept
  sorted by key. Every label set the package builds is in this canonical form
  (`metricLabels_sorted`, `withIdentity_sorted`, `metricAndLabel_sorted`), and
  on canonical forms structural equality is equality of maps
  (`Labels.eq_of_get?_eq`), which is what `reflect.DeepEqual` decides. A nil map
  and an empty map are both the empty list: `reflect.DeepEqual` tells them
  apart, but the source uses its result only for a tracked map with
  `len(m) > 0`, which is equal to neither.
* Go maps are references. `updateMetricByPrometheusLabels` writes the identity
  labels into the maps it is handed, and those writes are visible through every
  array holding the same map. The embedding makes each such write explicit: the
  rewritten new list is what the second loop compares against, and the
  rewritten tracked array is returned as `trackedInPlace`. Distinct slots are
  taken to hold distinct map objects, as they do in every array this package
  builds.
* The gauge store, the HTTP client and the JSON decoder are outside the
  package. The store follows the contract of section 6 of the specification,
  with `GetMetricWith` failing on the label sets the store `rejects`; the client
  and the decoder are parameters.
* Counts are `uint64` and reach the gauge as `float64(count)`; the embedding
  records the count itself as the gauge value.
* Logging (`fmt.Println`, `log.Debug`) is left out.
-/

namespace Cardinality

/-! ## Fixed-capacity arrays -/

/-- Go's `[10]T`: a list of exactly ten slots. -/
def Array10 (α : Type) : Type := { l : List α // l.length = 10 }

instance {α : Type} [DecidableEq α] : DecidableEq (Array10 α) :=
  inferInstanceAs (DecidableEq { l : List α // l.length = 10 })

namespace Array10

/-- The zero value of `[10]T`: every slot holds the zero value `z` of `T`. -/
def zero {α : Type} (z : α) : Array10 α := ⟨List.replicate 10 z, by simp⟩

/-- The slots in index order, as ranged over by `for _, x := range a`. -/
def toList {α : Type} (a : Array10 α) : List α := a.val

/-- Assignment `a[i] = x`. -/
def set {α : Type} (a : Array10 α) (i : Nat) (x : α) : Array10 α :=
  ⟨a.val.set i x, by rw [List.length_set]; exact a.property⟩

/-- Build a `[10]T` from at most ten leading values, the rest being `z`. -/
def ofList {α : Type} (z : α) (l : List α) : Array10 α :=
  ⟨(l ++ List.replicate 10 z).take 10, by simp⟩

/-- The array copy of a `[10]T` with `f` applied to every slot. -/
def map {α β : Type} (f : α → β) (a : Array10 α) : Array10 β :=
  ⟨a.toList.map f, by rw [List.length_map]; exact a.property⟩

end Array10

/-! ## Label sets -/

/-- A `prometheus.Labels` value: a string-keyed map, kept sorted by key. -/
structure Labels where
  entries : List (String × String)
  deriving DecidableEq

namespace Labels

/-- The empty (or nil) map. -/
def empty : Labels := ⟨[]⟩

/-- Lexicographic order on code-point lists. -/
def codesLt : List Nat → List Nat → Bool
  | [], [] => false
  | [], _ :: _ => true
  | _ :: _, [] => false
  | a :: as, b :: bs => if a < b then true else if b < a then false else codesLt as bs

/-- The order in which keys are kept: lexicographic on code points. -/
def keyLt (a b : String) : Bool :=
  codesLt (a.toList.map Char.toNat) (b.toList.map Char.toNat)

/-- Insertion of `(k, v)` in a key-sorted entry list, replacing an entry for `k`. -/
def insertEntry (k v : String) : List (String × String) → List (String × String)
  | [] => [(k, v)]
  | (k', v') :: m =>
    if k = k' then (k, v) :: m
    else if keyLt k k' then (k, v) :: (k', v') :: m
    else (k', v') :: insertEntry k v m

/-- Go's `m[k] = v`. -/
def set (m : Labels) (k v : String) : Labels := ⟨insertEntry k v m.entries⟩

/-- Lookup in an entry list. -/
def lookupEntry (k : String) : List (String × String) → Option String
  | [] => none
  | (k', v) :: m => if k = k' then some v else lookupEntry k m

/-- Go's `v, ok := m[k]`. -/
def get? (m : Labels) (k : String) : Option String := lookupEntry k m.entries

/-- The keys of the map. -/
def keys (m : Labels) : List String := m.entries.map Prod.fst

/-- Go's `len(m)`. -/
def len (m : Labels) : Nat := m.entries.length

end Labels

/-! ## Snapshot model -/

/-- Go's `labelValuePair`. -/
structure LabelValuePair where
  Label : String
  Value : Nat
  deriving DecidableEq

/-- Go's `prometheusLabelValuePair`. -/
structure PrometheusLabelValuePair where
  Labels : Labels
  Value : Nat
  deriving DecidableEq

/-- Go's `TSDBData`. -/
structure TSDBData where
  SeriesCountByMetricName : Array10 LabelValuePair
  LabelValueCountByLabelName : Array10 LabelValuePair
  MemoryInBytesByLabelName : Array10 LabelValuePair
  SeriesCountByLabelValuePair : Array10 LabelValuePair

/-- Go's `TSDBStatus`. -/
structure TSDBStatus where
  Status : String
  Data : TSDBData

/-- The zero value of `labelValuePair`. -/
def LabelValuePair.zero : LabelValuePair := ⟨"", 0⟩

/-- The zero value of `prometheusLabelValuePair`. -/
def PrometheusLabelValuePair.zero : PrometheusLabelValuePair := ⟨Labels.empty, 0⟩

/-- The zero value of `TSDBStatus`, as made by `&TSDBStatus{}`. -/
def TSDBStatus.zero : TSDBStatus :=
  ⟨"", ⟨Array10.zero LabelValuePair.zero, Array10.zero LabelValuePair.zero,
        Array10.zero LabelValuePair.zero, Array10.zero LabelValuePair.zero⟩⟩

/-! ## Gauge values -/

/-- Round `n` to a multiple of `2 ^ shift`: to the nearest one, and on a tie
to the one whose quotient by `2 ^ shift` is even. -/
def roundToEven (shift n : Nat) : Nat :=
  let q := n / 2 ^ shift
  let r := n % 2 ^ shift
  if 2 * r < 2 ^ shift then q * 2 ^ shift
  else if 2 ^ shift < 2 * r then (q + 1) * 2 ^ shift
  else if q % 2 = 0 then q * 2 ^ shift
  else (q + 1) * 2 ^ shift

/-- The number of low bits a float64 cannot keep of `n`: the least `s`, from
`shift` on, with `n < 2 ^ (53 + s)`, looked for in `fuel` steps. -/
def droppedBits : Nat → Nat → Nat → Nat
  | 0, shift, _ => shift
  | fuel + 1, shift, n => if n < 2 ^ (53 + shift) then shift else droppedBits fuel (shift + 1) n

/-- A float64 whose value is a non-negative integer, held as that integer.
The gauges of this package hold no other values: they are created at zero and
set to the conversion of a `uint64`. -/
structure Float64 where
  val : Nat
  deriving DecidableEq

/-- Go's conversion `float64(v)` of a `uint64`: the nearest float64, which
keeps 53 significant bits, ties to even. A `uint64` has 64 bits, so at most 11
are dropped. -/
def float64 (v : Nat) : Float64 := ⟨roundToEven (droppedBits 11 0 v) v⟩

/-- A numeral as a float64 constant. -/
instance (n : Nat) : OfNat Float64 n := ⟨float64 n⟩

/-! ## The gauge store -/

/-- One request made to a `PrometheusGaugeVec`. -/
inductive StoreOp where
  | getMetricWith (labels : Labels)
  | set (labels : Labels) (value : Float64)
  | delete (labels : Labels)
  deriving DecidableEq

/-- Modelled from the spec: the gauge store behind the `PrometheusGaugeVec`
interface, an external collaborator with the contract of section 6
(get-or-create by label set, set value, idempotent delete by label set).
`rejects` says for which label sets `GetMetricWith` returns an error;
`metrics` are the series currently held, with their gauge values. -/
structure GaugeVec where
  rejects : Labels → Bool
  metrics : List (Labels × Float64)

namespace GaugeVec

/-- The value of the first series with label set `l` in a list of series. -/
def findValue (l : Labels) : List (Labels × Float64) → Option Float64
  | [] => none
  | e :: ms => if e.1 = l then some e.2 else findValue l ms

/-- The gauge value held for a label set, if the series is present. -/
def value? (g : GaugeVec) (l : Labels) : Option Float64 := findValue l g.metrics

/-- Whether a series with this label set is present. -/
def has (g : GaugeVec) (l : Labels) : Bool := (g.value? l).isSome

/-- Modelled from the spec: `getOrCreate(labels) -> GaugeHandle | Error`.
`none` is the error; otherwise the series exists afterwards, created with
value zero when it was absent. -/
def GetMetricWith (g : GaugeVec) (l : Labels) : Option GaugeVec :=
  if g.rejects l then none
  else if g.has l then some g
  else some { g with metrics := g.metrics ++ [(l, 0)] }

/-- Modelled from the spec: `GaugeHandle.set(value)` on the handle for `l`. -/
def Set (g : GaugeVec) (l : Labels) (v : Float64) : GaugeVec :=
  { g with metrics := g.metrics.map (fun e => if e.1 = l then (l, v) else e) }

/-- Modelled from the spec: `delete(labels)`, idempotent. -/
def Delete (g : GaugeVec) (l : Labels) : GaugeVec :=
  { g with metrics := g.metrics.filter (fun e => e.1 ≠ l) }

end GaugeVec

/-- The errors built by this package; the wrapped cause's text is left out. -/
inductive Error where
  | updatingLabelName (label : String)
  | updatingLabels (labels : Labels)
  | cantParseJson
  | cantUpdateMetrics (cause : Error)
  | fetchFailed
  deriving DecidableEq

/-- What a reconciler call did: the store afterwards, the requests it made in
order, and the two Go results `(newTrackedLabels, err)`. -/
structure Reconciled (κ : Type) where
  gauge : GaugeVec
  ops : List StoreOp
  tracked : Array10 κ
  err : Option Error

/-! ## `updateMetric` -/

/-- The map literal `prometheus.Labels{nameOfLabel: label, "scraped_instance":
..., "sharded_instance": ..., "instance_namespace": ...}`. -/
def metricLabels (nameOfLabel prometheusInstance shardedInstance namespace_ label : String) :
    Labels :=
  (((Labels.empty.set nameOfLabel label).set "scraped_instance" prometheusInstance).set
    "sharded_instance" shardedInstance).set "instance_namespace" namespace_

/-- State of the first loop of a reconciler. -/
structure SetLoop (κ : Type) where
  gauge : GaugeVec
  ops : List StoreOp
  newTracked : Array10 κ
  err : Option Error

/-- First loop of `updateMetric`, from slot `idx` on: stop at the first empty
name, get-or-create and set the gauge, record the name in slot `idx`. -/
def updateMetric.setLoop (mk : String → Labels) :
    List LabelValuePair → Nat → GaugeVec → List StoreOp → Array10 String → SetLoop String
  | [], _, g, ops, nt => ⟨g, ops, nt, none⟩
  | p :: rest, idx, g, ops, nt =>
    if p.Label = "" then ⟨g, ops, nt, none⟩
    else
      match g.GetMetricWith (mk p.Label) with
      | none =>
        ⟨g, ops ++ [StoreOp.getMetricWith (mk p.Label)], nt, some (Error.updatingLabelName p.Label)⟩
      | some g1 =>
        updateMetric.setLoop mk rest (idx + 1) (g1.Set (mk p.Label) (float64 p.Value))
          (ops ++ [StoreOp.getMetricWith (mk p.Label), StoreOp.set (mk p.Label) (float64 p.Value)])
          (nt.set idx p.Label)

/-- Inner loop of the second loop of `updateMetric`: `found`. -/
def updateMetric.found (newLabelsValues : List LabelValuePair) (oldLabel : String) : Bool :=
  newLabelsValues.any (fun newLabelVP => oldLabel = newLabelVP.Label)

/-- Second loop of `updateMetric`: delete every tracked name that is not found
in the new list and is not empty. -/
def updateMetric.deleteLoop (mk : String → Labels) (newLabelsValues : List LabelValuePair) :
    List String → GaugeVec → List StoreOp → GaugeVec × List StoreOp
  | [], g, ops => (g, ops)
  | oldLabel :: rest, g, ops =>
    if !updateMetric.found newLabelsValues oldLabel && oldLabel ≠ "" then
      updateMetric.deleteLoop mk newLabelsValues rest (g.Delete (mk oldLabel))
        (ops ++ [StoreOp.delete (mk oldLabel)])
    else updateMetric.deleteLoop mk newLabelsValues rest g ops

/-- Go's `(*PrometheusCardinalityMetric).updateMetric`. -/
def updateMetric (Metric : GaugeVec) (newLabelsValues : Array10 LabelValuePair)
    (trackedLabels : Array10 String)
    (prometheusInstance shardedInstance namespace_ nameOfLabel : String) : Reconciled String :=
  let mk := metricLabels nameOfLabel prometheusInstance shardedInstance namespace_
  let s := updateMetric.setLoop mk newLabelsValues.toList 0 Metric [] (Array10.zero "")
  match s.err with
  | some e => ⟨s.gauge, s.ops, trackedLabels, some e⟩
  | none =>
    let d := updateMetric.deleteLoop mk newLabelsValues.toList trackedLabels.toList s.gauge s.ops
    ⟨d.1, d.2, s.newTracked, none⟩

/-! ## `updateMetricByPrometheusLabels` -/

/-- The three writes `m["scraped_instance"] = prometheusInstance`,
`m["sharded_instance"] = shardedInstance`, `m["instance_namespace"] = namespace`. -/
def withIdentity (prometheusInstance shardedInstance namespace_ : String) (m : Labels) : Labels :=
  ((m.set "scraped_instance" prometheusInstance).set "sharded_instance" shardedInstance).set
    "instance_namespace" namespace_

/-- State of the first loop of `updateMetricByPrometheusLabels`; `seen` is the
new list as it reads once the loop has written into its maps. -/
structure LabelsSetLoop where
  gauge : GaugeVec
  ops : List StoreOp
  newTracked : Array10 Labels
  err : Option Error
  seen : List PrometheusLabelValuePair

/-- First loop of `updateMetricByPrometheusLabels`, from slot `idx` on; `done`
are the slots already passed, with their rewritten maps. -/
def updateMetricByPrometheusLabels.setLoop (ident : Labels → Labels) :
    List PrometheusLabelValuePair → Nat → GaugeVec → List StoreOp → Array10 Labels →
      List PrometheusLabelValuePair → LabelsSetLoop
  | [], _, g, ops, nt, done => ⟨g, ops, nt, none, done⟩
  | p :: rest, idx, g, ops, nt, done =>
    if p.Labels.len = 0 then ⟨g, ops, nt, none, done ++ p :: rest⟩
    else
      match g.GetMetricWith (ident p.Labels) with
      | none =>
        ⟨g, ops ++ [StoreOp.getMetricWith (ident p.Labels)], nt,
          some (Error.updatingLabels (ident p.Labels)), done ++ ⟨ident p.Labels, p.Value⟩ :: rest⟩
      | some g1 =>
        updateMetricByPrometheusLabels.setLoop ident rest (idx + 1)
          (g1.Set (ident p.Labels) (float64 p.Value))
          (ops ++ [StoreOp.getMetricWith (ident p.Labels), StoreOp.set (ident p.Labels) (float64 p.Value)])
          (nt.set idx (ident p.Labels)) (done ++ [⟨ident p.Labels, p.Value⟩])

/-- Inner loop of the second loop: `found`, by `reflect.DeepEqual`. -/
def updateMetricByPrometheusLabels.found (newLabelsValues : List PrometheusLabelValuePair)
    (oldLabel : Labels) : Bool :=
  newLabelsValues.any (fun newLabelVP => oldLabel = newLabelVP.Labels)

/-- Second loop of `updateMetricByPrometheusLabels`: every tracked label set
that is not found in the new list and is not empty gets the identity labels
written into it and is deleted. -/
def updateMetricByPrometheusLabels.deleteLoop (ident : Labels → Labels)
    (newLabelsValues : List PrometheusLabelValuePair) :
    List Labels → GaugeVec → List StoreOp → GaugeVec × List StoreOp
  | [], g, ops => (g, ops)
  | oldLabel :: rest, g, ops =>
    if !updateMetricByPrometheusLabels.found newLabelsValues oldLabel && oldLabel.len > 0 then
      updateMetricByPrometheusLabels.deleteLoop ident newLabelsValues rest
        (g.Delete (ident oldLabel)) (ops ++ [StoreOp.delete (ident oldLabel)])
    else updateMetricByPrometheusLabels.deleteLoop ident newLabelsValues rest g ops

/-- The tracked maps as they read after the second loop has written into them. -/
def updateMetricByPrometheusLabels.rewritten (ident : Labels → Labels)
    (newLabelsValues : List PrometheusLabelValuePair) (trackedLabels : Array10 Labels) :
    Array10 Labels :=
  ⟨trackedLabels.toList.map (fun oldLabel =>
      if !updateMetricByPrometheusLabels.found newLabelsValues oldLabel && oldLabel.len > 0
      then ident oldLabel else oldLabel),
    by rw [List.length_map]; exact trackedLabels.property⟩

/-- Result of `updateMetricByPrometheusLabels`: as `Reconciled`, with the
caller's tracked array as it reads after the call (`trackedInPlace`). -/
structure ReconciledLabels extends Reconciled Labels where
  trackedInPlace : Array10 Labels

/-- Go's `(*PrometheusCardinalityMetric).updateMetricByPrometheusLabels`. -/
def updateMetricByPrometheusLabels (Metric : GaugeVec)
    (newLabelsValues : Array10 PrometheusLabelValuePair) (trackedLabels : Array10 Labels)
    (prometheusInstance shardedInstance namespace_ : String) : ReconciledLabels :=
  let ident := withIdentity prometheusInstance shardedInstance namespace_
  let s := updateMetricByPrometheusLabels.setLoop ident newLabelsValues.toList 0 Metric []
    (Array10.zero Labels.empty) []
  match s.err with
  | some e => ⟨⟨s.gauge, s.ops, trackedLabels, some e⟩, trackedLabels⟩
  | none =>
    let d := updateMetricByPrometheusLabels.deleteLoop ident s.seen trackedLabels.toList
      s.gauge s.ops
    ⟨⟨d.1, d.2, s.newTracked, none⟩,
      updateMetricByPrometheusLabels.rewritten ident s.seen trackedLabels⟩

/-! ## The instance -/

/-- Go's `map[string][10]prometheus.Labels`; the nil map has no entries. -/
structure TrackingTable where
  entries : List (String × Array10 Labels)

namespace TrackingTable

/-- The nil map. -/
def nil : TrackingTable := ⟨[]⟩

/-- Go's `_, ok := t[k]`. -/
def has (t : TrackingTable) (k : String) : Bool := t.entries.any (fun e => e.1 = k)

/-- Go's `t[k]`: the entry, or the zero array when there is none. -/
def get (t : TrackingTable) (k : String) : Array10 Labels :=
  match t.entries.find? (fun e => e.1 = k) with
  | some e => e.2
  | none => Array10.zero Labels.empty

/-- Go's `t[k] = v`. -/
def set (t : TrackingTable) (k : String) (v : Array10 Labels) : TrackingTable :=
  if t.has k then ⟨t.entries.map (fun e => if e.1 = k then (k, v) else e)⟩
  else ⟨t.entries ++ [(k, v)]⟩

/-- The maps of entry `k` were written in place: the entry, if any, now reads `v`. -/
def rewrite (t : TrackingTable) (k : String) (v : Array10 Labels) : TrackingTable :=
  ⟨t.entries.map (fun e => if e.1 = k then (k, v) else e)⟩

end TrackingTable

/-- Go's `TrackedLabelNames`. -/
structure TrackedLabelNames where
  SeriesCountByMetricNameLabels : Array10 String
  LabelValueCountByLabelNameLabels : Array10 String
  MemoryInBytesByLabelNameLabels : Array10 String
  SeriesCountByLabelValuePairLabels : Array10 String
  SeriesCountByMetricNamePerLabelLabels : TrackingTable
  LabelValueCountByLabelNamePerMetricNameLabels : TrackingTable

/-- Go's `PrometheusCardinalityInstance`. -/
structure PrometheusCardinalityInstance where
  Namespace : String
  InstanceName : String
  InstanceAddress : String
  ShardedInstanceName : String
  AuthValue : String
  LatestTSDBStatus : TSDBStatus
  TrackedLabels : TrackedLabelNames

/-- One value per primary dimension, in the order `ExposeTSDBStatus` takes them. -/
structure PerDimension (α : Type) where
  seriesCountByMetricName : α
  labelValueCountByLabelName : α
  memoryInBytesByLabelName : α
  seriesCountByLabelValuePair : α
  deriving DecidableEq

/-- What `ExposeTSDBStatus` did: the instance and the four stores afterwards,
the requests made to each store, and the returned error. -/
structure Exposed where
  inst : PrometheusCardinalityInstance
  gauges : PerDimension GaugeVec
  ops : PerDimension (List StoreOp)
  err : Option Error

/-- Go's `(*PrometheusCardinalityInstance).ExposeTSDBStatus`. -/
def ExposeTSDBStatus (promInstance : PrometheusCardinalityInstance)
    (gauges : PerDimension GaugeVec) : Exposed :=
  let r1 := updateMetric gauges.seriesCountByMetricName
    promInstance.LatestTSDBStatus.Data.SeriesCountByMetricName
    promInstance.TrackedLabels.SeriesCountByMetricNameLabels
    promInstance.InstanceName promInstance.ShardedInstanceName promInstance.Namespace "metric"
  let p1 := { promInstance with
    TrackedLabels := { promInstance.TrackedLabels with SeriesCountByMetricNameLabels := r1.tracked } }
  let g1 := { gauges with seriesCountByMetricName := r1.gauge }
  match r1.err with
  | some e => ⟨p1, g1, ⟨r1.ops, [], [], []⟩, some e⟩
  | none =>
  let r2 := updateMetric gauges.labelValueCountByLabelName
    p1.LatestTSDBStatus.Data.LabelValueCountByLabelName
    p1.TrackedLabels.LabelValueCountByLabelNameLabels
    p1.InstanceName p1.ShardedInstanceName p1.Namespace "label"
  let p2 := { p1 with
    TrackedLabels := { p1.TrackedLabels with LabelValueCountByLabelNameLabels := r2.tracked } }
  let g2 := { g1 with labelValueCountByLabelName := r2.gauge }
  match r2.err with
  | some e => ⟨p2, g2, ⟨r1.ops, r2.ops, [], []⟩, some e⟩
  | none =>
  let r3 := updateMetric gauges.memoryInBytesByLabelName
    p2.LatestTSDBStatus.Data.MemoryInBytesByLabelName
    p2.TrackedLabels.MemoryInBytesByLabelNameLabels
    p2.InstanceName p2.ShardedInstanceName p2.Namespace "label"
  let p3 := { p2 with
    TrackedLabels := { p2.TrackedLabels with MemoryInBytesByLabelNameLabels := r3.tracked } }
  let g3 := { g2 with memoryInBytesByLabelName := r3.gauge }
  match r3.err with
  | some e => ⟨p3, g3, ⟨r1.ops, r2.ops, r3.ops, []⟩, some e⟩
  | none =>
  let r4 := updateMetric gauges.seriesCountByLabelValuePair
    p3.LatestTSDBStatus.Data.SeriesCountByLabelValuePair
    p3.TrackedLabels.SeriesCountByLabelValuePairLabels
    p3.InstanceName p3.ShardedInstanceName p3.Namespace "label_pair"
  let p4 := { p3 with
    TrackedLabels := { p3.TrackedLabels with SeriesCountByLabelValuePairLabels := r4.tracked } }
  let g4 := { g3 with seriesCountByLabelValuePair := r4.gauge }
  ⟨p4, g4, ⟨r1.ops, r2.ops, r3.ops, r4.ops⟩, r4.err⟩

/-! ## Fetching and the cross-dimensional expansion -/

/-- The part of `*http.Response` the package reads: the status code and the
body, `none` when reading the body fails. -/
structure Response where
  StatusCode : Int
  Body : Option String

/-- Modelled from the spec: the HTTP collaborator behind `PrometheusClient.Do`,
as a function of the request URL and the `Authorization` header (`""` when the
header is not set); `none` is a transport error. -/
def PrometheusClient : Type := String → String → Option Response

/-- Go's `(*PrometheusCardinalityInstance).fetchTSDBStatus`, with the query
already encoded; `none` stands for the `(nil, err)` results. The fetch is taken
as a body or an error from the moment the request exists: the path on which
`http.NewRequest` rejects the URL (an error returned before the client is
called, or the nil request dereferenced when `AuthValue` is set) is left out. -/
def fetchTSDBStatus (promInstance : PrometheusCardinalityInstance)
    (prometheusClient : PrometheusClient) (query : String) : Option String :=
  let apiURL := promInstance.InstanceAddress ++ "/api/v1/status/tsdb?" ++ query
  match prometheusClient apiURL promInstance.AuthValue with
  | none => none
  | some res =>
    let statusOK := decide (res.StatusCode ≥ 200) && decide (res.StatusCode < 300)
    if !statusOK then none else res.Body

/-- The world outside the package: the client an expansion step makes for
itself (`http.Client`), `url.ParseQuery` followed by `Values.Encode`, and the
decoder behind `json.Unmarshal` (from the body and the destination before the
call to the destination after it and whether an error is returned). -/
structure Env where
  httpClient : PrometheusClient
  encodeQuery : String → String
  decode : String → TSDBStatus → TSDBStatus × Bool

/-- Go's `json.Unmarshal(body, dst)`: a nil body is rejected before anything
is decoded. -/
def jsonUnmarshal (env : Env) (body : Option String) (dst : TSDBStatus) : TSDBStatus × Bool :=
  match body with
  | none => (dst, true)
  | some b => env.decode b dst

/-- Go's `(*PrometheusCardinalityInstance).PreFetchTSDBStatus`: the query is
nil, which encodes to the empty string, and the body is decoded into
`LatestTSDBStatus` itself. -/
def PreFetchTSDBStatus (env : Env) (promInstance : PrometheusCardinalityInstance)
    (prometheusClient : PrometheusClient) : PrometheusCardinalityInstance × Option Error :=
  match fetchTSDBStatus promInstance prometheusClient "" with
  | none => (promInstance, some Error.fetchFailed)
  | some body =>
    let parsed := jsonUnmarshal env (some body) promInstance.LatestTSDBStatus
    ({ promInstance with LatestTSDBStatus := parsed.1 },
      if parsed.2 then some Error.cantParseJson else none)

/-- What an expansion step did: the instance and the store afterwards, the
requests made to the store, the URLs fetched, and the returned error. -/
structure Expanded where
  inst : PrometheusCardinalityInstance
  gauge : GaugeVec
  ops : List StoreOp
  fetched : List String
  err : Option Error

/-- The map literal `prometheus.Labels{"metric": metric, "label": label}`. -/
def metricAndLabel (metric label : String) : Labels :=
  (Labels.empty.set "metric" metric).set "label" label

/-- Go's `(*PrometheusCardinalityInstance).exposeSeriesCountByMetricsNamePerLabel`. -/
def exposeSeriesCountByMetricsNamePerLabel (env : Env)
    (promInstance : PrometheusCardinalityInstance) (label : String) (metrics : GaugeVec) :
    Expanded :=
  let q := env.encodeQuery ("match[]=\x7b" ++ label ++ "!=\x22\x22\x7d")
  let url := promInstance.InstanceAddress ++ "/api/v1/status/tsdb?" ++ q
  let body := fetchTSDBStatus promInstance env.httpClient q
  let parsed := jsonUnmarshal env body TSDBStatus.zero
  if parsed.2 then ⟨promInstance, metrics, [], [url], some Error.cantParseJson⟩
  else
    let tsdbStatus := parsed.1
    let labelsValuePairs : Array10 PrometheusLabelValuePair :=
      tsdbStatus.Data.SeriesCountByMetricName.map (fun pair =>
        if pair.Label ≠ "" then ⟨metricAndLabel pair.Label label, pair.Value⟩
        else PrometheusLabelValuePair.zero)
    let table := promInstance.TrackedLabels.SeriesCountByMetricNamePerLabelLabels
    let table := if table.has label then table else table.set label (Array10.zero Labels.empty)
    let r := updateMetricByPrometheusLabels metrics labelsValuePairs (table.get label)
      promInstance.InstanceName promInstance.ShardedInstanceName promInstance.Namespace
    let table := table.set label r.tracked
    let p := { promInstance with
      TrackedLabels := { promInstance.TrackedLabels with
        SeriesCountByMetricNamePerLabelLabels := table } }
    ⟨p, r.gauge, r.ops, [url], r.err.map Error.cantUpdateMetrics⟩

/-- Go's `(*PrometheusCardinalityInstance).exposeLabelCountByLabelNameNamePerMetricName`.
The tracked array handed to the reconciler is read from
`SeriesCountByMetricNamePerLabelLabels`, and the maps of that entry are the ones
the reconciler writes into. -/
def exposeLabelCountByLabelNameNamePerMetricName (env : Env)
    (promInstance : PrometheusCardinalityInstance) (metricName : String) (metrics : GaugeVec) :
    Expanded :=
  let q := env.encodeQuery ("match[]=\x7b__name__=\x22" ++ metricName ++ "\x22\x7d")
  let url := promInstance.InstanceAddress ++ "/api/v1/status/tsdb?" ++ q
  let body := fetchTSDBStatus promInstance env.httpClient q
  let parsed := jsonUnmarshal env body TSDBStatus.zero
  if parsed.2 then ⟨promInstance, metrics, [], [url], some Error.cantParseJson⟩
  else
    let tsdbStatus := parsed.1
    let labelsValuePairs : Array10 PrometheusLabelValuePair :=
      tsdbStatus.Data.LabelValueCountByLabelName.map (fun pair =>
        if pair.Label ≠ "" then ⟨metricAndLabel metricName pair.Label, pair.Value⟩
        else PrometheusLabelValuePair.zero)
    let table := promInstance.TrackedLabels.LabelValueCountByLabelNamePerMetricNameLabels
    let table := if table.has metricName then table
      else table.set metricName (Array10.zero Labels.empty)
    let r := updateMetricByPrometheusLabels metrics labelsValuePairs
      (promInstance.TrackedLabels.SeriesCountByMetricNamePerLabelLabels.get metricName)
      promInstance.InstanceName promInstance.ShardedInstanceName promInstance.Namespace
    let table := table.set metricName r.tracked
    let p := { promInstance with
      TrackedLabels := { promInstance.TrackedLabels with
        SeriesCountByMetricNamePerLabelLabels :=
          promInstance.TrackedLabels.SeriesCountByMetricNamePerLabelLabels.rewrite metricName
            r.trackedInPlace
        LabelValueCountByLabelNamePerMetricNameLabels := table } }
    ⟨p, r.gauge, r.ops, [url], r.err.map Error.cantUpdateMetrics⟩

/-- The loop of an expansion operation over the slots of the primary
dimension: skip empty names, stop at the first failing step. -/
def expandLoop (step : PrometheusCardinalityInstance → String → GaugeVec → Expanded) :
    List LabelValuePair → PrometheusCardinalityInstance → GaugeVec → List StoreOp →
      List String → Expanded
  | [], p, g, ops, fetched => ⟨p, g, ops, fetched, none⟩
  | value :: rest, p, g, ops, fetched =>
    if value.Label = "" then expandLoop step rest p g ops fetched
    else
      let r := step p value.Label g
      match r.err with
      | some e => ⟨r.inst, r.gauge, ops ++ r.ops, fetched ++ r.fetched, some e⟩
      | none => expandLoop step rest r.inst r.gauge (ops ++ r.ops) (fetched ++ r.fetched)

/-- Go's `(*PrometheusCardinalityInstance).ExposeSeriesCountByMetricsNamePerLabels`. -/
def ExposeSeriesCountByMetricsNamePerLabels (env : Env)
    (promInstance : PrometheusCardinalityInstance) (metrics : GaugeVec) : Expanded :=
  expandLoop (exposeSeriesCountByMetricsNamePerLabel env)
    promInstance.LatestTSDBStatus.Data.LabelValueCountByLabelName.toList promInstance metrics [] []

/-- Go's `(*PrometheusCardinalityInstance).ExposeLabelCountByLabelNameNamePerMetricNames`. -/
def ExposeLabelCountByLabelNameNamePerMetricNames (env : Env)
    (promInstance : PrometheusCardinalityInstance) (metrics : GaugeVec) : Expanded :=
  expandLoop (exposeLabelCountByLabelNameNamePerMetricName env)
    promInstance.LatestTSDBStatus.Data.SeriesCountByMetricName.toList promInstance metrics [] []

/-! ## Vocabulary of the statements -/

/-- The entries are in strictly increasing key order: the canonical form of a map. -/
def Labels.Sorted (m : Labels) : Prop :=
  m.entries.Pairwise (fun a b => Labels.keyLt a.1 b.1 = true)

/-- The store a successful get-or-create leaves. -/
def GaugeVec.created (g : GaugeVec) (l : Labels) : GaugeVec :=
  if g.has l then g else { g with metrics := g.metrics ++ [(l, 0)] }

/-- Get-or-create followed by set, on a store that accepts the label set. -/
def GaugeVec.upsert (g : GaugeVec) (l : Labels) (v : Float64) : GaugeVec := (g.created l).Set l v

/-- The slots before the first empty name: the ones the first loop of
`updateMetric` passes. -/
def populated (l : List LabelValuePair) : List LabelValuePair :=
  l.takeWhile (fun p => p.Label ≠ "")

/-- The populated slots form a prefix: no empty name comes before a non-empty one. -/
def PopulatedPrefix (l : List LabelValuePair) : Prop :=
  ∀ p ∈ l.dropWhile (fun p => p.Label ≠ ""), p.Label = ""

instance (l : List LabelValuePair) : Decidable (PopulatedPrefix l) := by
  unfold PopulatedPrefix
  infer_instance

/-- The requests the first loop makes for the slots `ps`, none of them failing. -/
def setOps (mk : String → Labels) (ps : List LabelValuePair) : List StoreOp :=
  ps.flatMap (fun p => [StoreOp.getMetricWith (mk p.Label), StoreOp.set (mk p.Label) (float64 p.Value)])

/-- The store after get-or-create and set for the slots `ps` in order. -/
def runSets (mk : String → Labels) (g : GaugeVec) (ps : List LabelValuePair) : GaugeVec :=
  ps.foldl (fun g p => g.upsert (mk p.Label) (float64 p.Value)) g

/-- The names of `ps` written to slots `idx`, `idx + 1`, ... of `nt`. -/
def recordNames (nt : Array10 String) (idx : Nat) : List LabelValuePair → Array10 String
  | [] => nt
  | p :: ps => recordNames (nt.set idx p.Label) (idx + 1) ps

/-- The tracked names the second loop of `updateMetric` deletes, in order. -/
def staleNames (newLabelsValues : List LabelValuePair) (trackedLabels : List String) :
    List String :=
  trackedLabels.filter (fun oldLabel =>
    !updateMetric.found newLabelsValues oldLabel && oldLabel ≠ "")

/-- The store after deleting the label sets `ls` in order. -/
def runDeletes (g : GaugeVec) (ls : List Labels) : GaugeVec :=
  ls.foldl (fun g l => g.Delete l) g

/-- The `Delete` requests among a list of requests, as the label sets deleted. -/
def deletedLabels : List StoreOp → List Labels
  | [] => []
  | StoreOp.delete l :: ops => l :: deletedLabels ops
  | _ :: ops => deletedLabels ops

/-- The count of the last slot of `ps` whose name is `x`, if there is one. -/
def lastCount? (ps : List LabelValuePair) (x : String) : Option Nat :=
  ((ps.filter (fun p => p.Label = x)).getLast?).map (fun p => p.Value)

/-- The dimension label is none of the three identity labels. -/
def DimensionLabel (nameOfLabel : String) : Prop :=
  nameOfLabel ≠ "scraped_instance" ∧ nameOfLabel ≠ "sharded_instance" ∧
    nameOfLabel ≠ "instance_namespace"

instance (nameOfLabel : String) : Decidable (DimensionLabel nameOfLabel) := by
  unfold DimensionLabel
  infer_instance

/-- The names in the populated (non-empty-name) slots of a list. -/
def populatedNames (l : List LabelValuePair) : List String :=
  (l.filter (fun p => p.Label ≠ "")).map (fun p => p.Label)

/-- The list `a` with every slot at index `s` or later replaced by the empty sentinel. -/
def cutFrom (s : Nat) (a : Array10 LabelValuePair) : Array10 LabelValuePair :=
  Array10.ofList LabelValuePair.zero (a.toList.take s)

/-- The populated (non-empty-name) slots of a list, in order. -/
def populatedSlots (l : List LabelValuePair) : List LabelValuePair :=
  l.filter (fun p => p.Label ≠ "")

/-- The requests the first loop of `updateMetricByPrometheusLabels` makes for
the slots `ps`, none of them failing. -/
def labelSetOps (ident : Labels → Labels) (ps : List PrometheusLabelValuePair) : List StoreOp :=
  ps.flatMap (fun p =>
    [StoreOp.getMetricWith (ident p.Labels), StoreOp.set (ident p.Labels) (float64 p.Value)])

/-- The store after get-or-create and set for the label sets of `ps` in order. -/
def runLabelSets (ident : Labels → Labels) (g : GaugeVec)
    (ps : List PrometheusLabelValuePair) : GaugeVec :=
  ps.foldl (fun g p => g.upsert (ident p.Labels) (float64 p.Value)) g

/-- The rewritten label sets of `ps` written to slots `idx`, `idx + 1`, ... of `nt`. -/
def recordLabels (ident : Labels → Labels) (nt : Array10 Labels) (idx : Nat) :
    List PrometheusLabelValuePair → Array10 Labels
  | [] => nt
  | p :: ps => recordLabels ident (nt.set idx (ident p.Labels)) (idx + 1) ps

/-- The slots `ps` as they read once the first loop has written into their maps. -/
def identified (ident : Labels → Labels) (ps : List PrometheusLabelValuePair) :
    List PrometheusLabelValuePair :=
  ps.map (fun p => ⟨ident p.Labels, p.Value⟩)

/-- The slots before the first empty label set: the ones the first loop of
`updateMetricByPrometheusLabels` passes. -/
def populatedLabels (l : List PrometheusLabelValuePair) : List PrometheusLabelValuePair :=
  l.takeWhile (fun p => p.Labels.len ≠ 0)

/-- The tracked label sets the second loop of `updateMetricByPrometheusLabels`
deletes, in order and before the identity labels are written into them. -/
def staleLabels (newLabelsValues : List PrometheusLabelValuePair) (trackedLabels : List Labels) :
    List Labels :=
  trackedLabels.filter (fun oldLabel =>
    !updateMetricByPrometheusLabels.found newLabelsValues oldLabel && oldLabel.len > 0)

/-- The label set a request carries. -/
def StoreOp.labels : StoreOp → Labels
  | StoreOp.getMetricWith l => l
  | StoreOp.set l _ => l
  | StoreOp.delete l => l

/-- The three identity label names. -/
def identityLabels : List String := ["scraped_instance", "sharded_instance", "instance_namespace"]

/-- The dimension label names in use: `metric` and `label`, and `label_pair`
for series-count-by-label-value-pair. -/
def dimensionLabels : List String := ["metric", "label", "label_pair"]

/-- Every key of `L` is an identity label or one of `dims`, and at least one
key is one of `dims`. -/
def DimensionKeys (dims : List String) (L : Labels) : Prop :=
  (∀ k ∈ L.keys, k ∈ identityLabels ∨ k ∈ dims) ∧ (∃ k ∈ L.keys, k ∈ dims)

instance (dims : List String) (L : Labels) : Decidable (DimensionKeys dims L) := by
  unfold DimensionKeys
  infer_instance

/-- The shape of an exposed or deleted label set: the three identity labels
with the given values, and for the rest dimension labels among `dims`, at
least one of them. -/
def HasShape (dims : List String) (inst shard ns : String) (L : Labels) : Prop :=
  L.get? "scraped_instance" = some inst ∧ L.get? "sharded_instance" = some shard ∧
    L.get? "instance_namespace" = some ns ∧ DimensionKeys dims L

instance (dims : List String) (inst shard ns : String) (L : Labels) :
    Decidable (HasShape dims inst shard ns L) := by
  unfold HasShape
  infer_instance

/-- Every label set held in the table is empty or has dimension keys among `dims`. -/
def TrackingTable.WellFormed (dims : List String) (t : TrackingTable) : Prop :=
  ∀ e ∈ t.entries, ∀ L ∈ e.2.toList, L.len = 0 ∨ DimensionKeys dims L

/-- Both cross-dimensional tracking tables of the instance are well formed. -/
def TablesWellFormed (dims : List String) (p : PrometheusCardinalityInstance) : Prop :=
  p.TrackedLabels.SeriesCountByMetricNamePerLabelLabels.WellFormed dims ∧
    p.TrackedLabels.LabelValueCountByLabelNamePerMetricNameLabels.WellFormed dims

/-- All requests `ExposeTSDBStatus` made, over the four stores. -/
def Exposed.allOps (e : Exposed) : List StoreOp :=
  e.ops.seriesCountByMetricName ++ e.ops.labelValueCountByLabelName ++
    e.ops.memoryInBytesByLabelName ++ e.ops.seriesCountByLabelValuePair

/-- The four primary tracked sequences of an instance. -/
def primaryTracked (p : PrometheusCardinalityInstance) : PerDimension (Array10 String) :=
  ⟨p.TrackedLabels.SeriesCountByMetricNameLabels, p.TrackedLabels.LabelValueCountByLabelNameLabels,
    p.TrackedLabels.MemoryInBytesByLabelNameLabels,
    p.TrackedLabels.SeriesCountByLabelValuePairLabels⟩

/-- The reconcile of each primary dimension on the state before the call: its
own store, its own list of the latest snapshot, its own tracked sequence and
its label name. -/
def primaryReconciles (p : PrometheusCardinalityInstance) (gauges : PerDimension GaugeVec) :
    PerDimension (Reconciled String) :=
  ⟨updateMetric gauges.seriesCountByMetricName p.LatestTSDBStatus.Data.SeriesCountByMetricName
      p.TrackedLabels.SeriesCountByMetricNameLabels p.InstanceName p.ShardedInstanceName
      p.Namespace "metric",
    updateMetric gauges.labelValueCountByLabelName
      p.LatestTSDBStatus.Data.LabelValueCountByLabelName
      p.TrackedLabels.LabelValueCountByLabelNameLabels p.InstanceName p.ShardedInstanceName
      p.Namespace "label",
    updateMetric gauges.memoryInBytesByLabelName p.LatestTSDBStatus.Data.MemoryInBytesByLabelName
      p.TrackedLabels.MemoryInBytesByLabelNameLabels p.InstanceName p.ShardedInstanceName
      p.Namespace "label",
    updateMetric gauges.seriesCountByLabelValuePair
      p.LatestTSDBStatus.Data.SeriesCountByLabelValuePair
      p.TrackedLabels.SeriesCountByLabelValuePairLabels p.InstanceName p.ShardedInstanceName
      p.Namespace "label_pair"⟩

/-! ## Concrete inputs -/

/-- A top-10 list holding the given entries in its leading slots. -/
def topTen (l : List (String × Nat)) : Array10 LabelValuePair :=
  Array10.ofList LabelValuePair.zero (l.map (fun p => ⟨p.1, p.2⟩))

/-- A tracked sequence holding the given names in its leading slots. -/
def trackedOf (l : List String) : Array10 String := Array10.ofList "" l

/-- A store that accepts every label set and holds the given series. -/
def storeOf (ms : List (Labels × Float64)) : GaugeVec := ⟨fun _ => false, ms⟩

/-- A store that rejects the label sets satisfying `bad` and holds no series. -/
def storeRejecting (bad : Labels → Bool) : GaugeVec := ⟨bad, []⟩

/-- A list of label-set entries in the leading slots of a `[10]prometheusLabelValuePair`. -/
def topTenLabels (l : List (Labels × Nat)) : Array10 PrometheusLabelValuePair :=
  Array10.ofList PrometheusLabelValuePair.zero (l.map (fun p => ⟨p.1, p.2⟩))

/-- A tracked sequence holding the given label sets in its leading slots. -/
def trackedLabelsOf (l : List Labels) : Array10 Labels := Array10.ofList Labels.empty l

/-- A snapshot with the given leading entries of series-count-by-metric-name
and label-value-count-by-label-name, and the other two dimensions empty. -/
def dataOf (metrics labels : List (String × Nat)) : TSDBData :=
  ⟨topTen metrics, topTen labels, topTen [], topTen []⟩

/-- An instance with identity `i`, `s`, `n`, the given snapshot and nothing tracked. -/
def freshInstance (data : TSDBData) : PrometheusCardinalityInstance :=
  ⟨"n", "i", "http://prom", "s", "", ⟨"success", data⟩,
    ⟨trackedOf [], trackedOf [], trackedOf [], trackedOf [],
      TrackingTable.nil, TrackingTable.nil⟩⟩

/-- A world in which every secondary fetch answers 200 and decodes to `data`. -/
def envReturning (data : TSDBData) : Env :=
  ⟨fun _ _ => some ⟨200, some "body"⟩, fun q => q, fun _ _ => (⟨"success", data⟩, false)⟩

/-- An instance with identity `i`, `s`, `n`, the given snapshot and the given
names in the leading slots of its four primary tracked sequences. -/
def instanceTracking (data : TSDBData) (tracked : PerDimension (List String)) :
    PrometheusCardinalityInstance :=
  ⟨"n", "i", "http://prom", "s", "", ⟨"success", data⟩,
    ⟨trackedOf tracked.seriesCountByMetricName, trackedOf tracked.labelValueCountByLabelName,
      trackedOf tracked.memoryInBytesByLabelName, trackedOf tracked.seriesCountByLabelValuePair,
      TrackingTable.nil, TrackingTable.nil⟩⟩

/-- The instance with its latest snapshot replaced, as a successful fetch leaves it. -/
def withSnapshot (p : PrometheusCardinalityInstance) (data : TSDBData) :
    PrometheusCardinalityInstance :=
  { p with LatestTSDBStatus := ⟨"success", data⟩ }

/-- The index of the first empty-name slot of a list, its length when there is none. -/
def firstEmpty (l : List LabelValuePair) : Nat := l.findIdx (fun p => p.Label = "")


/-- The filter of the secondary query for a label name: `match[]={<label>!=""}`. -/
def labelFilter (label : String) : String := "match[]=\x7b" ++ label ++ "!=\x22\x22\x7d"

/-- The filter of the secondary query for a metric name: `match[]={__name__="<metricName>"}`. -/
def metricFilter (metricName : String) : String :=
  "match[]=\x7b__name__=\x22" ++ metricName ++ "\x22\x7d"

/-- The URL an expansion step requests for a filter. -/
def stepURL (env : Env) (p : PrometheusCardinalityInstance) (filter : String) : String :=
  p.InstanceAddress ++ "/api/v1/status/tsdb?" ++ env.encodeQuery filter

/-- The fetch of `query` fails: the client reports a transport error, or the
status is not 2xx, or the body cannot be read. -/
def FetchFails (client : PrometheusClient) (p : PrometheusCardinalityInstance)
    (query : String) : Prop :=
  match client (p.InstanceAddress ++ "/api/v1/status/tsdb?" ++ query) p.AuthValue with
  | none => True
  | some res => ¬ (200 ≤ res.StatusCode ∧ res.StatusCode < 300) ∨ res.Body = none

/-- What the two tracking tables hold for key `k`: whether there is an entry,
and the entry read (the zero array when there is none). -/
def tableEntries (p : PrometheusCardinalityInstance) (k : String) :
    (Bool × Array10 Labels) × (Bool × Array10 Labels) :=
  ((p.TrackedLabels.SeriesCountByMetricNamePerLabelLabels.has k,
      p.TrackedLabels.SeriesCountByMetricNamePerLabelLabels.get k),
    (p.TrackedLabels.LabelValueCountByLabelNamePerMetricNameLabels.has k,
      p.TrackedLabels.LabelValueCountByLabelNamePerMetricNameLabels.get k))


/-- A world in which every secondary fetch answers 503. -/
def envDown : Env :=
  ⟨fun _ _ => some ⟨503, some "unavailable"⟩, fun q => q, fun _ dst => (dst, false)⟩


/-- The new list `exposeSeriesCountByMetricsNamePerLabel` builds from a parsed
secondary snapshot: for every slot of series-count-by-metric-name with a
non-empty name, the label set of that metric and the label. -/
def seriesPerLabelPairs (tsdbStatus : TSDBStatus) (label : String) :
    Array10 PrometheusLabelValuePair :=
  tsdbStatus.Data.SeriesCountByMetricName.map (fun pair =>
    if pair.Label ≠ "" then ⟨metricAndLabel pair.Label label, pair.Value⟩
    else PrometheusLabelValuePair.zero)

/-- The new list `exposeLabelCountByLabelNameNamePerMetricName` builds from a
parsed secondary snapshot. -/
def labelsPerMetricPairs (tsdbStatus : TSDBStatus) (metricName : String) :
    Array10 PrometheusLabelValuePair :=
  tsdbStatus.Data.LabelValueCountByLabelName.map (fun pair =>
    if pair.Label ≠ "" then ⟨metricAndLabel metricName pair.Label, pair.Value⟩
    else PrometheusLabelValuePair.zero)

/-- The reconcile `exposeSeriesCountByMetricsNamePerLabel` makes once `body`
has been fetched and parsed. -/
def reconcilePerLabel (env : Env) (p : PrometheusCardinalityInstance) (label : String)
    (g : GaugeVec) (body : String) : ReconciledLabels :=
  updateMetricByPrometheusLabels g
    (seriesPerLabelPairs (env.decode body TSDBStatus.zero).1 label)
    (p.TrackedLabels.SeriesCountByMetricNamePerLabelLabels.get label)
    p.InstanceName p.ShardedInstanceName p.Namespace

/-- The reconcile `exposeLabelCountByLabelNameNamePerMetricName` makes once
`body` has been fetched and parsed; the tracked array is read from
`SeriesCountByMetricNamePerLabelLabels`, as in the source. -/
def reconcilePerMetric (env : Env) (p : PrometheusCardinalityInstance) (metricName : String)
    (g : GaugeVec) (body : String) : ReconciledLabels :=
  updateMetricByPrometheusLabels g
    (labelsPerMetricPairs (env.decode body TSDBStatus.zero).1 metricName)
    (p.TrackedLabels.SeriesCountByMetricNamePerLabelLabels.get metricName)
    p.InstanceName p.ShardedInstanceName p.Namespace


/-- A world in which the secondary fetch for label `name` meets a transport
error and every other fetch answers 200 and decodes to `data`. -/
def envDownFor (name : String) (data : TSDBData) : Env :=
  ⟨fun url _ =>
      if url = "http://prom/api/v1/status/tsdb?" ++ labelFilter name then none
      else some ⟨200, some "body"⟩,
    fun q => q, fun _ _ => (⟨"success", data⟩, false)⟩


/-- Every series present in the store for the dimension and identity of `mk`
has its name, a non-empty one, in the tracked sequence. -/
def TrackedCovers (mk : String → Labels) (g : GaugeVec) (tracked : Array10 String) : Prop :=
  ∀ x, g.has (mk x) = true → x ≠ "" ∧ x ∈ tracked.toList


/-- A well-formed JSON body whose only entry has a well-formed name and a
value that is a string, not an unsigned 64-bit integer:
`{"status":"success","data":{"seriesCountByMetricName":[{"name":"up","value":"many"}]}}`. -/
def badValueBody : String :=
  "\x7b\x22status\x22:\x22success\x22,\x22data\x22:\x7b\x22seriesCountByMetricName\x22:" ++
    "[\x7b\x22name\x22:\x22up\x22,\x22value\x22:\x22many\x22\x7d]\x7d\x7d"

/-- What `json.Unmarshal` does with `badValueBody` and a `*TSDBStatus`
destination, as encoding/json documents it: a value that does not fit its
field is skipped and decoding goes on, the error for the first such value is
returned at the end, and the elements of a Go array beyond the JSON array are
set to zero. So `status` is written, slot 0 of series-count-by-metric-name gets
the name `up` and keeps its value, slots 1 to 9 are zeroed, and the dimensions
absent from the body are left alone. Any other body is taken to be rejected
before a write. -/
def decodeBadValue (body : String) (dst : TSDBStatus) : TSDBStatus × Bool :=
  if body = badValueBody then
    (⟨"success", { dst.Data with
        SeriesCountByMetricName := Array10.ofList LabelValuePair.zero
          [⟨"up", (dst.Data.SeriesCountByMetricName.toList.headD LabelValuePair.zero).Value⟩] }⟩,
      true)
  else (dst, true)

/-- A world whose client answers 200 with `badValueBody` and whose decoder is
`decodeBadValue`. -/
def envBadValue : Env :=
  ⟨fun _ _ => some ⟨200, some badValueBody⟩, fun q => q, decodeBadValue⟩


/-- The entries of a cross-dimensional list, built afresh as two-key label
sets: for every `((metric, label), count)` the label set
`prometheus.Labels{"metric": metric, "label": label}` with its count. -/
def pairSets (pairs : List ((String × String) × Nat)) : List (Labels × Nat) :=
  pairs.map (fun a => (metricAndLabel a.1.1 a.1.2, a.2))


/-- An entry of `updateMetric`'s list as an entry of
`updateMetricByPrometheusLabels`'s: the one-key label set `{nameOfLabel: name}`,
and the empty label set for the empty name. -/
def asLabelSet (nameOfLabel : String) (p : LabelValuePair) : PrometheusLabelValuePair :=
  ⟨if p.Label = "" then Labels.empty else Labels.empty.set nameOfLabel p.Label, p.Value⟩

/-- Consecutive calls of `updateMetric`, one per list of `cycles`, each given
the tracked sequence the previous call returned: the store requests of all
calls, in order. -/
def updateMetricCycles (prometheusInstance shardedInstance namespace_ nameOfLabel : String) :
    List (Array10 LabelValuePair) → GaugeVec → Array10 String → List StoreOp
  | [], _, _ => []
  | new :: rest, g, tracked =>
    let r := updateMetric g new tracked prometheusInstance shardedInstance namespace_ nameOfLabel
    r.ops ++ updateMetricCycles prometheusInstance shardedInstance namespace_ nameOfLabel rest
      r.gauge r.tracked

/-- Consecutive calls of `updateMetricByPrometheusLabels` on the same lists,
each entry presented as `asLabelSet` builds it, each call given the tracked
sequence the previous call returned: the store requests of all calls, in
order. -/
def updateMetricByPrometheusLabelsCycles
    (prometheusInstance shardedInstance namespace_ nameOfLabel : String) :
    List (Array10 LabelValuePair) → GaugeVec → Array10 Labels → List StoreOp
  | [], _, _ => []
  | new :: rest, g, tracked =>
    let r := updateMetricByPrometheusLabels g (new.map (asLabelSet nameOfLabel)) tracked
      prometheusInstance shardedInstance namespace_
    r.ops ++ updateMetricByPrometheusLabelsCycles prometheusInstance shardedInstance namespace_
      nameOfLabel rest r.gauge r.tracked


/-! # Properties -/

theorem Labels.lookupEntry_insertEntry_self (k v : String) (m : List (String × String)) :
    Labels.lookupEntry k (Labels.insertEntry k v m) = some v := by
  induction m with
  | nil => simp [Labels.insertEntry, Labels.lookupEntry]
  | cons e m ih =>
    obtain ⟨k', v'⟩ := e
    unfold Labels.insertEntry
    by_cases h : k = k'
    · simp [h, Labels.lookupEntry]
    · by_cases h2 : Labels.keyLt k k' = true
      · simp [h, h2, Labels.lookupEntry]
      · simp [h, h2, Labels.lookupEntry, ih]

theorem Labels.lookupEntry_insertEntry_ne (k k2 v : String) (m : List (String × String))
    (hne : k2 ≠ k) :
    Labels.lookupEntry k2 (Labels.insertEntry k v m) = Labels.lookupEntry k2 m := by
  induction m with
  | nil => simp [Labels.insertEntry, Labels.lookupEntry, hne]
  | cons e m ih =>
    obtain ⟨k', v'⟩ := e
    unfold Labels.insertEntry
    by_cases h : k = k'
    · subst h
      simp [Labels.lookupEntry, hne]
    · by_cases h2 : Labels.keyLt k k' = true
      · simp [h, h2, Labels.lookupEntry, hne]
      · simp [h, h2, Labels.lookupEntry, ih]

theorem Labels.get?_set_self (m : Labels) (k v : String) : (m.set k v).get? k = some v :=
  Labels.lookupEntry_insertEntry_self k v m.entries

theorem Labels.get?_set_ne (m : Labels) (k k2 v : String) (hne : k2 ≠ k) :
    (m.set k v).get? k2 = m.get? k2 :=
  Labels.lookupEntry_insertEntry_ne k k2 v m.entries hne

theorem Labels.get?_set (m : Labels) (k k2 v : String) :
    (m.set k v).get? k2 = if k2 = k then some v else m.get? k2 := by
  by_cases h : k2 = k
  · subst h; simp [Labels.get?_set_self]
  · simp [h, Labels.get?_set_ne m k k2 v h]

theorem Labels.mem_keys_insertEntry (k v k2 : String) (m : List (String × String)) :
    k2 ∈ (Labels.insertEntry k v m).map Prod.fst ↔ k2 = k ∨ k2 ∈ m.map Prod.fst := by
  induction m with
  | nil => simp [Labels.insertEntry]
  | cons e m ih =>
    obtain ⟨k', v'⟩ := e
    unfold Labels.insertEntry
    by_cases h : k = k'
    · subst h
      simp
    · by_cases h2 : Labels.keyLt k k' = true
      · simp [h, h2]
      · have h3 : Labels.keyLt k k' = false := by simpa using h2
        rw [if_neg h, h3]
        simp only [Bool.false_eq_true, if_false, List.map_cons, List.mem_cons, ih]
        tauto

theorem Labels.mem_keys_set (m : Labels) (k v k2 : String) :
    k2 ∈ (m.set k v).keys ↔ k2 = k ∨ k2 ∈ m.keys :=
  Labels.mem_keys_insertEntry k v k2 m.entries

theorem Labels.len_set_pos (m : Labels) (k v : String) : 0 < (m.set k v).len := by
  obtain ⟨es⟩ := m
  cases es with
  | nil => simp [Labels.set, Labels.len, Labels.insertEntry]
  | cons e es =>
    obtain ⟨k', v'⟩ := e
    simp only [Labels.set, Labels.len, Labels.insertEntry]
    split_ifs <;> simp

/-! ## Canonical form of label sets -/

theorem Labels.codesLt_irrefl (a : List Nat) : Labels.codesLt a a = false := by
  induction a with
  | nil => rfl
  | cons x a ih => simp [Labels.codesLt, ih]

theorem Labels.codesLt_trans : ∀ (a b c : List Nat),
    Labels.codesLt a b = true → Labels.codesLt b c = true → Labels.codesLt a c = true := by
  intro a
  induction a with
  | nil =>
    intro b c hab hbc
    cases b with
    | nil => simp [Labels.codesLt] at hab
    | cons y b =>
      cases c with
      | nil => simp [Labels.codesLt] at hbc
      | cons z c => rfl
  | cons x a ih =>
    intro b c hab hbc
    cases b with
    | nil => simp [Labels.codesLt] at hab
    | cons y b =>
      cases c with
      | nil => simp [Labels.codesLt] at hbc
      | cons z c =>
        simp only [Labels.codesLt] at hab hbc ⊢
        by_cases hxy : x < y
        · by_cases hyz : y < z
          · simp [show x < z by omega]
          · by_cases hzy : z < y
            · simp [hyz, hzy] at hbc
            · simp [show x < z by omega]
        · by_cases hyx : y < x
          · simp [hxy, hyx] at hab
          · have hxy2 : x = y := by omega
            subst hxy2
            simp only [hxy, if_false] at hab
            by_cases hxz : x < z
            · simp [hxz]
            · by_cases hzx : z < x
              · simp [hxz, hzx] at hbc
              · simp only [hxz, hzx, if_false] at hbc ⊢
                exact ih b c hab hbc

theorem Labels.codesLt_total : ∀ (a b : List Nat),
    Labels.codesLt a b = false → a ≠ b → Labels.codesLt b a = true := by
  intro a
  induction a with
  | nil =>
    intro b hab hne
    cases b with
    | nil => exact absurd rfl hne
    | cons y b => simp [Labels.codesLt] at hab
  | cons x a ih =>
    intro b hab hne
    cases b with
    | nil => rfl
    | cons y b =>
      simp only [Labels.codesLt] at hab ⊢
      by_cases hxy : x < y
      · simp [hxy] at hab
      · by_cases hyx : y < x
        · simp [hyx]
        · have hxy2 : x = y := by omega
          subst hxy2
          simp only [hxy, if_false] at hab ⊢
          exact ih b hab (fun h => hne (by rw [h]))

theorem Labels.codes_injective (a b : String)
    (h : a.toList.map Char.toNat = b.toList.map Char.toNat) : a = b := by
  have hinj : Function.Injective Char.toNat := by
    intro c d hcd
    have := congrArg Char.ofNat hcd
    simpa [Char.ofNat_toNat] using this
  have := List.map_injective_iff.mpr hinj h
  exact String.ext this

theorem Labels.keyLt_irrefl (a : String) : Labels.keyLt a a = false :=
  Labels.codesLt_irrefl _

theorem Labels.keyLt_trans (a b c : String) (hab : Labels.keyLt a b = true)
    (hbc : Labels.keyLt b c = true) : Labels.keyLt a c = true :=
  Labels.codesLt_trans _ _ _ hab hbc

theorem Labels.keyLt_total (a b : String) (hab : Labels.keyLt a b = false) (hne : a ≠ b) :
    Labels.keyLt b a = true :=
  Labels.codesLt_total _ _ hab (fun h => hne (Labels.codes_injective a b h))

theorem Labels.keyLt_asymm (a b : String) (hab : Labels.keyLt a b = true) :
    Labels.keyLt b a = false := by
  by_contra h
  have h2 : Labels.keyLt b a = true := by simpa using h
  have := Labels.keyLt_trans a b a hab h2
  rw [Labels.keyLt_irrefl] at this
  cases this

theorem Labels.empty_sorted : Labels.empty.Sorted := List.Pairwise.nil

theorem Labels.insertEntry_sorted (k v : String) (m : List (String × String))
    (hm : m.Pairwise (fun a b => Labels.keyLt a.1 b.1 = true)) :
    (Labels.insertEntry k v m).Pairwise (fun a b => Labels.keyLt a.1 b.1 = true) ∧
      ∀ e ∈ Labels.insertEntry k v m, e.1 = k ∨ e ∈ m := by
  induction m with
  | nil => simp [Labels.insertEntry]
  | cons e m ih =>
    obtain ⟨k', v'⟩ := e
    rw [List.pairwise_cons] at hm
    obtain ⟨hhead, htail⟩ := hm
    unfold Labels.insertEntry
    by_cases h : k = k'
    · subst h
      rw [if_pos rfl]
      refine ⟨List.pairwise_cons.mpr ⟨hhead, htail⟩, ?_⟩
      intro e he
      rcases List.mem_cons.mp he with h1 | h1
      · left; rw [h1]
      · right; exact List.mem_cons_of_mem _ h1
    · rw [if_neg h]
      by_cases h2 : Labels.keyLt k k' = true
      · rw [if_pos h2]
        refine ⟨?_, ?_⟩
        · refine List.pairwise_cons.mpr ⟨?_, List.pairwise_cons.mpr ⟨hhead, htail⟩⟩
          intro e he
          rcases List.mem_cons.mp he with h1 | h1
          · rw [h1]; exact h2
          · exact Labels.keyLt_trans _ _ _ h2 (hhead e h1)
        · intro e he
          rcases List.mem_cons.mp he with h1 | h1
          · left; rw [h1]
          · right; exact h1
      · rw [if_neg h2]
        obtain ⟨ih1, ih2⟩ := ih htail
        have h3 : Labels.keyLt k' k = true :=
          Labels.keyLt_total k k' (by simpa using h2) h
        refine ⟨List.pairwise_cons.mpr ⟨?_, ih1⟩, ?_⟩
        · intro e he
          rcases ih2 e he with h1 | h1
          · rw [h1]; exact h3
          · exact hhead e h1
        · intro e he
          rcases List.mem_cons.mp he with h1 | h1
          · right; rw [h1]; exact List.mem_cons_self _ _
          · rcases ih2 e h1 with h4 | h4
            · left; exact h4
            · right; exact List.mem_cons_of_mem _ h4

/-- Writing a key keeps the canonical form. -/
theorem Labels.set_sorted (m : Labels) (k v : String) (hm : m.Sorted) : (m.set k v).Sorted :=
  (Labels.insertEntry_sorted k v m.entries hm).1

theorem Labels.lookupEntry_eq_some_mem (k v : String) (m : List (String × String))
    (h : Labels.lookupEntry k m = some v) : (k, v) ∈ m := by
  induction m with
  | nil => simp [Labels.lookupEntry] at h
  | cons e m ih =>
    simp only [Labels.lookupEntry] at h
    by_cases hk : k = e.1
    · rw [if_pos hk] at h
      have hv : e.2 = v := Option.some.inj h
      have : e = (k, v) := by rw [hk, ← hv]
      rw [this]; exact List.mem_cons_self _ _
    · rw [if_neg hk] at h
      exact List.mem_cons_of_mem _ (ih h)

/-- Two maps in canonical form that agree on every key are equal: on such
maps structural equality is equality of maps. -/
theorem Labels.eq_of_get?_eq (a b : Labels) (ha : a.Sorted) (hb : b.Sorted)
    (h : ∀ k, a.get? k = b.get? k) : a = b := by
  obtain ⟨as⟩ := a
  obtain ⟨bs⟩ := b
  simp only [Labels.Sorted, Labels.get?] at ha hb h
  congr 1
  induction as generalizing bs with
  | nil =>
    cases bs with
    | nil => rfl
    | cons e bs =>
      have := h e.1
      simp [Labels.lookupEntry] at this
  | cons e as ih =>
    cases bs with
    | nil =>
      have := h e.1
      simp [Labels.lookupEntry] at this
    | cons f bs =>
      rw [List.pairwise_cons] at ha hb
      have hkey : e.1 = f.1 := by
        by_contra hne
        have h1 := h e.1
        simp only [Labels.lookupEntry, if_true, hne, if_false] at h1
        have h2 := h f.1
        have hne2 : ¬ f.1 = e.1 := fun hh => hne hh.symm
        simp only [Labels.lookupEntry, if_true, hne2, if_false] at h2
        have m1 := Labels.lookupEntry_eq_some_mem _ _ _ h1.symm
        have m2 := Labels.lookupEntry_eq_some_mem _ _ _ h2
        have l1 := hb.1 _ m1
        have l2 := ha.1 _ m2
        rw [Labels.keyLt_asymm _ _ l1] at l2
        cases l2
      have hval : e.2 = f.2 := by
        have h1 := h e.1
        simp only [Labels.lookupEntry, if_true, hkey] at h1
        exact Option.some.inj h1
      have hef : e = f := Prod.ext hkey hval
      subst hef
      congr 1
      apply ih ha.2 bs hb.2
      intro k
      by_cases hk : k = e.1
      · subst hk
        have n1 : Labels.lookupEntry e.1 as = none := by
          cases hl : Labels.lookupEntry e.1 as with
          | none => rfl
          | some v =>
            have := ha.1 _ (Labels.lookupEntry_eq_some_mem _ _ _ hl)
            rw [Labels.keyLt_irrefl] at this
            cases this
        have n2 : Labels.lookupEntry e.1 bs = none := by
          cases hl : Labels.lookupEntry e.1 bs with
          | none => rfl
          | some v =>
            have := hb.1 _ (Labels.lookupEntry_eq_some_mem _ _ _ hl)
            rw [Labels.keyLt_irrefl] at this
            cases this
        rw [n1, n2]
      · have := h k
        simpa only [Labels.lookupEntry, hk, if_false] using this

theorem withIdentity_sorted (inst shard ns : String) (m : Labels) (hm : m.Sorted) :
    (withIdentity inst shard ns m).Sorted :=
  Labels.set_sorted _ _ _ (Labels.set_sorted _ _ _ (Labels.set_sorted _ _ _ hm))

theorem metricLabels_sorted (name inst shard ns x : String) :
    (metricLabels name inst shard ns x).Sorted :=
  withIdentity_sorted inst shard ns _ (Labels.set_sorted _ _ _ Labels.empty_sorted)

theorem metricAndLabel_sorted (metric label : String) : (metricAndLabel metric label).Sorted :=
  Labels.set_sorted _ _ _ (Labels.set_sorted _ _ _ Labels.empty_sorted)

/-! ### Conversion to float64 -/

theorem float64_of_le (c : Nat) (h : c ≤ 2 ^ 53) : float64 c = ⟨c⟩ := by
  rcases Nat.lt_or_eq_of_le h with hlt | heq
  · have hd : droppedBits 11 0 c = 0 := by
      unfold droppedBits
      rw [if_pos (by simpa using hlt)]
    simp [float64, hd, roundToEven, Nat.mod_one]
  · subst heq
    decide

/-! ### The store -/

theorem GaugeVec.findValue_map_set (l l' : Labels) (v : Float64) (ms : List (Labels × Float64)) :
    GaugeVec.findValue l' (ms.map (fun e => if e.1 = l then (l, v) else e)) =
      if l' = l then (GaugeVec.findValue l ms).map (fun _ => v) else GaugeVec.findValue l' ms := by
  induction ms with
  | nil => simp [GaugeVec.findValue]
  | cons e ms ih =>
    simp only [List.map_cons, GaugeVec.findValue]
    by_cases hk : e.1 = l
    · simp only [hk, if_true]
      by_cases hl : l' = l
      · simp [hl]
      · have hl2 : ¬ l = l' := fun h => hl h.symm
        simp only [hl, if_false, hl2] at ih ⊢
        exact ih
    · simp only [hk, if_false]
      by_cases hl : l' = l
      · subst hl
        simp only [if_true, hk, if_false] at ih ⊢
        exact ih
      · simp only [hl, if_false] at ih ⊢
        rw [ih]

theorem GaugeVec.findValue_filter (l l' : Labels) (ms : List (Labels × Float64)) :
    GaugeVec.findValue l' (ms.filter (fun e => e.1 ≠ l)) =
      if l' = l then none else GaugeVec.findValue l' ms := by
  induction ms with
  | nil => simp [GaugeVec.findValue]
  | cons e ms ih =>
    by_cases hk : e.1 = l
    · have hf : (e :: ms).filter (fun e => e.1 ≠ l) = ms.filter (fun e => e.1 ≠ l) := by
        simp [List.filter_cons, hk]
      rw [hf, ih]
      by_cases hl : l' = l
      · simp [hl]
      · have hl2 : ¬ e.1 = l' := fun h => hl (h.symm.trans hk)
        simp [hl, GaugeVec.findValue, hl2]
    · have hf : (e :: ms).filter (fun e => e.1 ≠ l) = e :: ms.filter (fun e => e.1 ≠ l) := by
        simp [List.filter_cons, hk]
      rw [hf]
      simp only [GaugeVec.findValue, ih]
      by_cases hl : l' = l
      · subst hl
        simp [hk]
      · simp [hl]

theorem GaugeVec.findValue_append (l l' : Labels) (v : Float64) (ms : List (Labels × Float64)) :
    GaugeVec.findValue l' (ms ++ [(l, v)]) =
      match GaugeVec.findValue l' ms with
      | some w => some w
      | none => if l = l' then some v else none := by
  induction ms with
  | nil => simp [GaugeVec.findValue]
  | cons e ms ih =>
    by_cases hkl : e.1 = l'
    · simp [GaugeVec.findValue, hkl]
    · simp [GaugeVec.findValue, hkl, ih]

theorem GaugeVec.value?_Set (g : GaugeVec) (l l' : Labels) (v : Float64) :
    (g.Set l v).value? l' = if l' = l then (g.value? l).map (fun _ => v) else g.value? l' :=
  GaugeVec.findValue_map_set l l' v g.metrics

theorem GaugeVec.value?_Delete (g : GaugeVec) (l l' : Labels) :
    (g.Delete l).value? l' = if l' = l then none else g.value? l' :=
  GaugeVec.findValue_filter l l' g.metrics

theorem GaugeVec.rejects_Set (g : GaugeVec) (l : Labels) (v : Float64) :
    (g.Set l v).rejects = g.rejects := rfl

theorem GaugeVec.rejects_Delete (g : GaugeVec) (l : Labels) :
    (g.Delete l).rejects = g.rejects := rfl

theorem GaugeVec.GetMetricWith_eq_none (g : GaugeVec) (l : Labels) :
    g.GetMetricWith l = none ↔ g.rejects l = true := by
  unfold GaugeVec.GetMetricWith
  split_ifs <;> simp_all

theorem GaugeVec.GetMetricWith_of_accepts (g : GaugeVec) (l : Labels)
    (h : g.rejects l = false) : g.GetMetricWith l = some (g.created l) := by
  unfold GaugeVec.GetMetricWith GaugeVec.created
  simp only [h, Bool.false_eq_true, if_false]
  split_ifs <;> rfl

theorem GaugeVec.rejects_created (g : GaugeVec) (l : Labels) :
    (g.created l).rejects = g.rejects := by
  unfold GaugeVec.created
  split_ifs <;> rfl

theorem GaugeVec.value?_created (g : GaugeVec) (l l' : Labels) :
    (g.created l).value? l' =
      if l' = l then some ((g.value? l).getD 0) else g.value? l' := by
  unfold GaugeVec.created
  by_cases hh : g.has l = true
  · simp only [hh, if_true]
    by_cases hl : l' = l
    · subst hl
      simp only [if_true]
      unfold GaugeVec.has at hh
      obtain ⟨w, hw⟩ := Option.isSome_iff_exists.mp hh
      simp [hw]
    · simp [hl]
  · rw [if_neg hh]
    have hnone : g.value? l = none := by
      unfold GaugeVec.has at hh
      simpa using hh
    simp only [GaugeVec.value?] at hnone ⊢
    rw [GaugeVec.findValue_append]
    by_cases hl : l' = l
    · subst hl
      simp [hnone]
    · have hl2 : ¬ l = l' := fun h => hl h.symm
      cases hf : GaugeVec.findValue l' g.metrics <;> simp [hl, hl2]

theorem GaugeVec.value?_upsert (g : GaugeVec) (l l' : Labels) (v : Float64) :
    (g.upsert l v).value? l' = if l' = l then some v else g.value? l' := by
  unfold GaugeVec.upsert
  rw [GaugeVec.value?_Set]
  by_cases hl : l' = l
  · subst hl; simp [GaugeVec.value?_created]
  · simp [hl, GaugeVec.value?_created]

theorem GaugeVec.rejects_upsert (g : GaugeVec) (l : Labels) (v : Float64) :
    (g.upsert l v).rejects = g.rejects := by
  unfold GaugeVec.upsert
  rw [GaugeVec.rejects_Set, GaugeVec.rejects_created]

/-! ### The loops of `updateMetric` -/

theorem updateMetric.setLoop_append (mk : String → Labels) (pre rest : List LabelValuePair) :
    ∀ (idx : Nat) (g : GaugeVec) (ops : List StoreOp) (nt : Array10 String),
      (∀ p ∈ pre, p.Label ≠ "" ∧ g.rejects (mk p.Label) = false) →
      updateMetric.setLoop mk (pre ++ rest) idx g ops nt =
        updateMetric.setLoop mk rest (idx + pre.length) (runSets mk g pre)
          (ops ++ setOps mk pre) (recordNames nt idx pre) := by
  induction pre with
  | nil => intro idx g ops nt _; simp [runSets, setOps, recordNames]
  | cons p pre ih =>
    intro idx g ops nt h
    have hp := h p (List.mem_cons_self _ _)
    have hrest : ∀ q ∈ pre, q.Label ≠ "" ∧
        (g.upsert (mk p.Label) (float64 p.Value)).rejects (mk q.Label) = false := by
      intro q hq
      rw [GaugeVec.rejects_upsert]
      exact h q (List.mem_cons_of_mem _ hq)
    simp only [List.cons_append, updateMetric.setLoop, hp.1, if_false,
      GaugeVec.GetMetricWith_of_accepts g _ hp.2, List.append_eq]
    have := ih (idx + 1) (g.upsert (mk p.Label) (float64 p.Value))
      (ops ++ [StoreOp.getMetricWith (mk p.Label), StoreOp.set (mk p.Label) (float64 p.Value)])
      (nt.set idx p.Label) hrest
    simp only [GaugeVec.upsert] at this ⊢
    rw [this]
    simp [runSets, setOps, recordNames, GaugeVec.upsert, Nat.add_assoc, Nat.add_comm 1]

theorem updateMetric.deleteLoop_eq (mk : String → Labels) (new : List LabelValuePair)
    (tracked : List String) :
    ∀ (g : GaugeVec) (ops : List StoreOp),
      updateMetric.deleteLoop mk new tracked g ops =
        (runDeletes g ((staleNames new tracked).map mk),
          ops ++ (staleNames new tracked).map (fun x => StoreOp.delete (mk x))) := by
  induction tracked with
  | nil => intro g ops; simp [updateMetric.deleteLoop, staleNames, runDeletes]
  | cons old tracked ih =>
    intro g ops
    unfold updateMetric.deleteLoop
    by_cases h : (!updateMetric.found new old && decide (old ≠ "")) = true
    · rw [if_pos h, ih]
      have hs : staleNames new (old :: tracked) = old :: staleNames new tracked := by
        simp only [staleNames, List.filter_cons, h, if_true]
      simp [hs, runDeletes]
    · rw [if_neg h, ih]
      have hs : staleNames new (old :: tracked) = staleNames new tracked := by
        simp only [staleNames, List.filter_cons, h, if_false]
        simp
      rw [hs]

theorem populated_append_dropWhile (l : List LabelValuePair) :
    populated l ++ l.dropWhile (fun p => p.Label ≠ "") = l := by
  unfold populated
  exact List.takeWhile_append_dropWhile _ l

theorem populated_label_ne (l : List LabelValuePair) :
    ∀ p ∈ populated l, p.Label ≠ "" := by
  intro p hp
  have := List.mem_takeWhile_imp hp
  simpa using this

theorem updateMetric.setLoop_dropWhile (mk : String → Labels) (l : List LabelValuePair)
    (idx : Nat) (g : GaugeVec) (ops : List StoreOp) (nt : Array10 String) :
    updateMetric.setLoop mk (l.dropWhile (fun p => p.Label ≠ "")) idx g ops nt =
      ⟨g, ops, nt, none⟩ := by
  induction l with
  | nil => simp [updateMetric.setLoop]
  | cons p l ih =>
    by_cases hp : p.Label = ""
    · have : (p :: l).dropWhile (fun p => p.Label ≠ "") = p :: l := by
        simp [List.dropWhile_cons, hp]
      rw [this]
      simp [updateMetric.setLoop, hp]
    · have : (p :: l).dropWhile (fun p => p.Label ≠ "") =
          l.dropWhile (fun p => p.Label ≠ "") := by
        simp [List.dropWhile_cons, hp]
      rw [this, ih]

/-- The result of `updateMetric` when no get-or-create of a populated slot fails. -/
theorem updateMetric_of_accepts (Metric : GaugeVec) (new : Array10 LabelValuePair)
    (tracked : Array10 String) (inst shard ns name : String)
    (h : ∀ p ∈ populated new.toList,
      Metric.rejects (metricLabels name inst shard ns p.Label) = false) :
    updateMetric Metric new tracked inst shard ns name =
      ⟨runDeletes (runSets (metricLabels name inst shard ns) Metric (populated new.toList))
          ((staleNames new.toList tracked.toList).map (metricLabels name inst shard ns)),
        setOps (metricLabels name inst shard ns) (populated new.toList) ++
          (staleNames new.toList tracked.toList).map
            (fun x => StoreOp.delete (metricLabels name inst shard ns x)),
        recordNames (Array10.zero "") 0 (populated new.toList), none⟩ := by
  have hsplit := populated_append_dropWhile new.toList
  have hloop := updateMetric.setLoop_append (metricLabels name inst shard ns)
    (populated new.toList) (new.toList.dropWhile (fun p => p.Label ≠ "")) 0 Metric []
    (Array10.zero "") (fun p hp => ⟨populated_label_ne _ p hp, h p hp⟩)
  rw [hsplit, updateMetric.setLoop_dropWhile] at hloop
  unfold updateMetric
  simp only [hloop, updateMetric.deleteLoop_eq, List.nil_append]

/-- The result of `updateMetric` when the get-or-create of the populated slot
after `pre` is the first to fail. -/
theorem updateMetric_of_rejects (Metric : GaugeVec) (new : Array10 LabelValuePair)
    (tracked : Array10 String) (inst shard ns name : String)
    (pre post : List LabelValuePair) (p : LabelValuePair)
    (hsplit : new.toList = pre ++ p :: post)
    (hpre : ∀ q ∈ pre, q.Label ≠ "" ∧
      Metric.rejects (metricLabels name inst shard ns q.Label) = false)
    (hp : p.Label ≠ "")
    (hrej : Metric.rejects (metricLabels name inst shard ns p.Label) = true) :
    updateMetric Metric new tracked inst shard ns name =
      ⟨runSets (metricLabels name inst shard ns) Metric pre,
        setOps (metricLabels name inst shard ns) pre ++
          [StoreOp.getMetricWith (metricLabels name inst shard ns p.Label)],
        tracked, some (Error.updatingLabelName p.Label)⟩ := by
  have hloop := updateMetric.setLoop_append (metricLabels name inst shard ns)
    pre (p :: post) 0 Metric [] (Array10.zero "") hpre
  have hrej2 : (runSets (metricLabels name inst shard ns) Metric pre).GetMetricWith
      (metricLabels name inst shard ns p.Label) = none := by
    rw [GaugeVec.GetMetricWith_eq_none]
    have hr : ∀ (ps : List LabelValuePair) (g : GaugeVec),
        (runSets (metricLabels name inst shard ns) g ps).rejects = g.rejects := by
      intro ps
      induction ps with
      | nil => intro g; rfl
      | cons q ps ih => intro g; simp only [runSets, List.foldl_cons] at ih ⊢; rw [ih, GaugeVec.rejects_upsert]
    rw [hr]; exact hrej
  unfold updateMetric
  simp only [hsplit, hloop, updateMetric.setLoop, hp, if_false, hrej2, List.nil_append]

theorem metricLabels_get?_name (name inst shard ns x : String) (h : DimensionLabel name) :
    (metricLabels name inst shard ns x).get? name = some x := by
  obtain ⟨h1, h2, h3⟩ := h
  unfold metricLabels
  rw [Labels.get?_set_ne _ _ _ _ h3, Labels.get?_set_ne _ _ _ _ h2,
    Labels.get?_set_ne _ _ _ _ h1, Labels.get?_set_self]

theorem metricLabels_injective (name inst shard ns : String) (h : DimensionLabel name)
    (x y : String) :
    metricLabels name inst shard ns x = metricLabels name inst shard ns y ↔ x = y := by
  constructor
  · intro hxy
    have hx := metricLabels_get?_name name inst shard ns x h
    rw [hxy, metricLabels_get?_name name inst shard ns y h] at hx
    exact (Option.some.inj hx).symm
  · intro hxy; rw [hxy]

theorem value?_runDeletes (ls : List Labels) :
    ∀ (g : GaugeVec) (l : Labels),
      (runDeletes g ls).value? l = if l ∈ ls then none else g.value? l := by
  induction ls with
  | nil => intro g l; simp [runDeletes]
  | cons d ls ih =>
    intro g l
    simp only [runDeletes, List.foldl_cons] at ih ⊢
    rw [ih, GaugeVec.value?_Delete]
    by_cases h1 : l ∈ ls
    · simp [h1]
    · by_cases h2 : l = d
      · simp [h2]
      · simp [h1, h2]

theorem runSets_append (mk : String → Labels) (g : GaugeVec) (ps qs : List LabelValuePair) :
    runSets mk g (ps ++ qs) = runSets mk (runSets mk g ps) qs := by
  simp [runSets, List.foldl_append]

theorem value?_runSets (mk : String → Labels) (g : GaugeVec) (ps : List LabelValuePair)
    (l : Labels) :
    (runSets mk g ps).value? l =
      match (ps.filter (fun p => mk p.Label = l)).getLast? with
      | some p => some (float64 p.Value)
      | none => g.value? l := by
  induction ps using List.reverseRecOn with
  | nil => simp [runSets]
  | append_singleton ps p ih =>
    rw [runSets_append]
    have h1 : runSets mk (runSets mk g ps) [p] = (runSets mk g ps).upsert (mk p.Label) (float64 p.Value) := rfl
    rw [h1, GaugeVec.value?_upsert, List.filter_append]
    by_cases hp : mk p.Label = l
    · subst hp
      simp [List.filter_cons]
    · have hp2 : ¬ l = mk p.Label := fun h => hp h.symm
      simp only [hp2, if_false, ih]
      simp [List.filter_cons, hp]

theorem rejects_runSets (mk : String → Labels) (ps : List LabelValuePair) :
    ∀ g : GaugeVec, (runSets mk g ps).rejects = g.rejects := by
  induction ps with
  | nil => intro g; rfl
  | cons q ps ih =>
    intro g
    simp only [runSets, List.foldl_cons] at ih ⊢
    rw [ih, GaugeVec.rejects_upsert]

theorem populated_eq_filter (l : List LabelValuePair) (h : PopulatedPrefix l) :
    populated l = l.filter (fun p => p.Label ≠ "") := by
  have hsplit := populated_append_dropWhile l
  have h1 : (populated l).filter (fun p => p.Label ≠ "") = populated l := by
    rw [List.filter_eq_self]
    intro p hp
    simpa using populated_label_ne l p hp
  have h2 : (l.dropWhile (fun p => p.Label ≠ "")).filter (fun p => p.Label ≠ "") = [] := by
    rw [List.filter_eq_nil_iff]
    intro p hp
    simpa using h p hp
  calc populated l = (populated l).filter (fun p => p.Label ≠ "") ++
        (l.dropWhile (fun p => p.Label ≠ "")).filter (fun p => p.Label ≠ "") := by
        rw [h1, h2, List.append_nil]
    _ = (populated l ++ l.dropWhile (fun p => p.Label ≠ "")).filter (fun p => p.Label ≠ "") := by
        rw [List.filter_append]
    _ = l.filter (fun p => p.Label ≠ "") := by rw [hsplit]

theorem updateMetric.found_iff (l : List LabelValuePair) (x : String) :
    updateMetric.found l x = true ↔ ∃ p ∈ l, p.Label = x := by
  unfold updateMetric.found
  rw [List.any_eq_true]
  constructor
  · rintro ⟨p, hp, h⟩; exact ⟨p, hp, by simpa using (of_decide_eq_true h).symm⟩
  · rintro ⟨p, hp, h⟩; exact ⟨p, hp, by simpa using h.symm⟩

theorem mem_staleNames (new : List LabelValuePair) (tracked : List String) (x : String) :
    x ∈ staleNames new tracked ↔ x ∈ tracked ∧ x ≠ "" ∧ ¬ ∃ p ∈ new, p.Label = x := by
  unfold staleNames
  rw [List.mem_filter, Bool.and_eq_true, Bool.not_eq_true', ← Bool.not_eq_true,
    updateMetric.found_iff]
  simp only [decide_eq_true_eq]
  tauto

theorem mem_populatedNames (l : List LabelValuePair) (x : String) :
    x ∈ populatedNames l ↔ x ≠ "" ∧ ∃ p ∈ l, p.Label = x := by
  unfold populatedNames
  simp only [List.mem_map, List.mem_filter, decide_eq_true_eq]
  constructor
  · rintro ⟨p, ⟨hp, hne⟩, rfl⟩; exact ⟨hne, p, hp, rfl⟩
  · rintro ⟨hne, p, hp, rfl⟩; exact ⟨p, ⟨hp, hne⟩, rfl⟩

theorem lastCount?_eq_none (l : List LabelValuePair) (x : String) :
    lastCount? l x = none ↔ ¬ ∃ p ∈ l, p.Label = x := by
  unfold lastCount?
  rw [Option.map_eq_none', List.getLast?_eq_none_iff, List.filter_eq_nil_iff]
  simp

theorem filter_label_populated (l : List LabelValuePair) (h : PopulatedPrefix l) (x : String)
    (hx : x ≠ "") :
    (populated l).filter (fun p => p.Label = x) = l.filter (fun p => p.Label = x) := by
  rw [populated_eq_filter l h, List.filter_filter]
  congr 1
  funext p
  by_cases hp : p.Label = x
  · subst hp; simp [hx]
  · simp [hp]

/-- After a successful `updateMetric` on a list whose populated slots form a
prefix, started from a store holding exactly the tracked names, the gauge of
every non-empty name is the float64 conversion of the count of its last slot,
absent when it has none. -/
theorem updateMetric_value? (Metric : GaugeVec) (new : Array10 LabelValuePair)
    (tracked : Array10 String) (inst shard ns name : String)
    (hname : DimensionLabel name) (hpop : PopulatedPrefix new.toList)
    (hstore : ∀ x, Metric.has (metricLabels name inst shard ns x) = true ↔
      (x ≠ "" ∧ x ∈ tracked.toList))
    (hok : ∀ l, Metric.rejects l = false) (x : String) :
    (updateMetric Metric new tracked inst shard ns name).gauge.value?
        (metricLabels name inst shard ns x) =
      if x = "" then none else (lastCount? new.toList x).map float64 := by
  rw [updateMetric_of_accepts Metric new tracked inst shard ns name (fun p _ => hok _)]
  simp only [value?_runDeletes, value?_runSets, List.mem_map,
    metricLabels_injective name inst shard ns hname, exists_eq_right]
  by_cases hx : x = ""
  · subst hx
    have hns : "" ∉ staleNames new.toList tracked.toList := by
      rw [mem_staleNames]; tauto
    have hnone : (populated new.toList).filter (fun p => p.Label = "") = [] := by
      rw [List.filter_eq_nil_iff]
      intro p hp
      simpa using populated_label_ne _ p hp
    have hv : Metric.value? (metricLabels name inst shard ns "") = none := by
      have := (hstore "").not.mpr (by tauto)
      unfold GaugeVec.has at this
      simpa using this
    simp [hns, hnone, hv]
  · rw [filter_label_populated _ hpop x hx]
    simp only [hx, if_false]
    by_cases hin : ∃ p ∈ new.toList, p.Label = x
    · have hns : x ∉ staleNames new.toList tracked.toList := by
        rw [mem_staleNames]
        exact fun h => h.2.2 hin
      simp only [hns, if_false]
      unfold lastCount?
      cases hl : (new.toList.filter (fun p => p.Label = x)).getLast? with
      | none =>
        exfalso
        rw [List.getLast?_eq_none_iff, List.filter_eq_nil_iff] at hl
        obtain ⟨p, hp, hpx⟩ := hin
        exact hl p hp (by simpa using hpx)
      | some p => simp
    · have hlc : lastCount? new.toList x = none := (lastCount?_eq_none _ _).mpr hin
      rw [hlc, Option.map_none']
      have hfn : new.toList.filter (fun p => p.Label = x) = [] := by
        rw [List.filter_eq_nil_iff]
        intro p hp hpx
        exact hin ⟨p, hp, by simpa using hpx⟩
      rw [hfn]
      by_cases htr : x ∈ tracked.toList
      · have hs : x ∈ staleNames new.toList tracked.toList := by
          rw [mem_staleNames]; exact ⟨htr, hx, hin⟩
        simp [hs]
      · have hv : Metric.value? (metricLabels name inst shard ns x) = none := by
          have := (hstore x).not.mpr (by tauto)
          unfold GaugeVec.has at this
          simpa using this
        simp [hv]

/-! ## Exact match after reconcile -/

/-- C1 fails as stated for counts above `2 ^ 53`: from the empty store with
nothing tracked, the new list `a: 9007199254740993` leaves the gauge of `a`
at 9007199254740992, the nearest float64, not at the count. -/
theorem exact_match_counterexample :
    PopulatedPrefix (topTen [("a", 9007199254740993)]).toList ∧
    (∀ x, (storeOf []).has (metricLabels "metric" "i" "s" "n" x) = true ↔
      (x ≠ "" ∧ x ∈ (trackedOf []).toList)) ∧
    (updateMetric (storeOf []) (topTen [("a", 9007199254740993)]) (trackedOf [])
      "i" "s" "n" "metric").err = none ∧
    lastCount? (topTen [("a", 9007199254740993)]).toList "a" = some 9007199254740993 ∧
    ((updateMetric (storeOf []) (topTen [("a", 9007199254740993)]) (trackedOf [])
      "i" "s" "n" "metric").gauge.value? (metricLabels "metric" "i" "s" "n" "a")).map
        Float64.val = some 9007199254740992 := by
  refine ⟨by decide, ?_, by decide, by decide, by decide⟩
  intro x
  have hmem : x ∈ (trackedOf []).toList ↔ x = "" := by
    simp [trackedOf, Array10.ofList, Array10.toList, List.replicate]
  rw [hmem]
  simp [GaugeVec.has, GaugeVec.value?, storeOf, GaugeVec.findValue]

/-- C1, amended: after `updateMetric` on a new list whose populated slots form a
prefix, started from a store whose series for this dimension and identity are
exactly the non-empty tracked names, and with get-or-create never failing, the
call succeeds, the series present for this dimension and identity are exactly
the names of the populated slots, and the gauge of each is the float64
conversion of the count of the last populated slot carrying that name: the
count itself when that is at most `2 ^ 53`. -/
theorem updateMetric_exact_match (Metric : GaugeVec) (new : Array10 LabelValuePair)
    (tracked : Array10 String) (inst shard ns name : String)
    (hname : DimensionLabel name) (hpop : PopulatedPrefix new.toList)
    (hstore : ∀ x, Metric.has (metricLabels name inst shard ns x) = true ↔
      (x ≠ "" ∧ x ∈ tracked.toList))
    (hok : ∀ l, Metric.rejects l = false) :
    (updateMetric Metric new tracked inst shard ns name).err = none ∧
    (∀ x, (updateMetric Metric new tracked inst shard ns name).gauge.has
        (metricLabels name inst shard ns x) = true ↔ x ∈ populatedNames new.toList) ∧
    (∀ x ∈ populatedNames new.toList,
      (updateMetric Metric new tracked inst shard ns name).gauge.value?
        (metricLabels name inst shard ns x) = (lastCount? new.toList x).map float64) ∧
    (∀ x ∈ populatedNames new.toList, ∀ c, lastCount? new.toList x = some c → c ≤ 2 ^ 53 →
      ((updateMetric Metric new tracked inst shard ns name).gauge.value?
        (metricLabels name inst shard ns x)).map Float64.val = some c) := by
  have hv := updateMetric_value? Metric new tracked inst shard ns name hname hpop hstore hok
  refine ⟨?_, ?_, ?_, ?_⟩
  · rw [updateMetric_of_accepts Metric new tracked inst shard ns name (fun p _ => hok _)]
  · intro x
    unfold GaugeVec.has
    rw [hv x, mem_populatedNames]
    by_cases hx : x = ""
    · simp [hx]
    · simp only [hx, if_false, ne_eq, not_false_eq_true, true_and]
      rw [← not_iff_not, Bool.not_eq_true, Option.not_isSome, Option.isNone_iff_eq_none,
        Option.map_eq_none', lastCount?_eq_none]
  · intro x hx
    rw [hv x, if_neg ((mem_populatedNames _ _).mp hx).1]
  · intro x hx c hc hle
    rw [hv x, if_neg ((mem_populatedNames _ _).mp hx).1, hc, Option.map_some', Option.map_some',
      float64_of_le c hle]

/-- C1 at a concrete input: the store holds `b` with value 7, `b` is tracked,
and the new list is `a: 1`. Afterwards `a` is present with value 1 and `b` is gone. -/
theorem updateMetric_exact_match_witness :
    (updateMetric (storeOf [(metricLabels "metric" "i" "s" "n" "b", 7)]) (topTen [("a", 1)])
        (trackedOf ["b"]) "i" "s" "n" "metric").gauge.value?
        (metricLabels "metric" "i" "s" "n" "a") = some 1 ∧
    (updateMetric (storeOf [(metricLabels "metric" "i" "s" "n" "b", 7)]) (topTen [("a", 1)])
        (trackedOf ["b"]) "i" "s" "n" "metric").gauge.has
        (metricLabels "metric" "i" "s" "n" "b") = false := by
  have hname : DimensionLabel "metric" := by decide
  have h := updateMetric_exact_match (storeOf [(metricLabels "metric" "i" "s" "n" "b", 7)])
    (topTen [("a", 1)]) (trackedOf ["b"]) "i" "s" "n" "metric" hname (by decide)
    (by
      intro x
      have hinj := metricLabels_injective "metric" "i" "s" "n" hname "b" x
      have hmem : x ∈ (trackedOf ["b"]).toList ↔ x = "b" ∨ x = "" := by
        simp [trackedOf, Array10.ofList, Array10.toList, List.replicate]
      rw [hmem]
      simp only [GaugeVec.has, GaugeVec.value?, storeOf, GaugeVec.findValue, hinj]
      by_cases hb : "b" = x
      · subst hb; simp
      · have hb2 : ¬ x = "b" := fun h => hb h.symm
        simp [hb, hb2])
    (fun _ => rfl)
  refine ⟨?_, ?_⟩
  · rw [h.2.2.1 "a" (by decide)]; decide
  · have := (h.2.1 "b").not.mpr (by decide)
    simpa using this

/-! ## Deletion on disappearance -/

theorem deletedLabels_append (a b : List StoreOp) :
    deletedLabels (a ++ b) = deletedLabels a ++ deletedLabels b := by
  induction a with
  | nil => rfl
  | cons o a ih => cases o <;> simp [deletedLabels, ih]

theorem deletedLabels_setOps (mk : String → Labels) (ps : List LabelValuePair) :
    deletedLabels (setOps mk ps) = [] := by
  induction ps with
  | nil => rfl
  | cons p ps ih =>
    have : setOps mk (p :: ps) =
        [StoreOp.getMetricWith (mk p.Label), StoreOp.set (mk p.Label) (float64 p.Value)] ++ setOps mk ps := by
      simp [setOps]
    rw [this, deletedLabels_append, ih]
    rfl

theorem deletedLabels_map_delete (ls : List Labels) :
    deletedLabels (ls.map StoreOp.delete) = ls := by
  induction ls with
  | nil => rfl
  | cons l ls ih => simp [deletedLabels, ih]

theorem staleNames_eq_filter (new : List LabelValuePair) (tracked : List String) :
    staleNames new tracked =
      tracked.filter (fun t => decide (t ≠ "" ∧ t ∉ populatedNames new)) := by
  unfold staleNames
  apply List.filter_congr
  intro t _
  by_cases ht : t = ""
  · simp [ht]
  · have h1 : t ∈ populatedNames new ↔ updateMetric.found new t = true := by
      rw [mem_populatedNames, updateMetric.found_iff]
      exact ⟨fun h => h.2, fun h => ⟨ht, h⟩⟩
    by_cases hf : updateMetric.found new t = true
    · simp [ht, hf, h1]
    · simp [ht, hf, h1]

/-- C2: when get-or-create never fails, the `Delete` requests of `updateMetric`
are, in order, one for each occurrence in the tracked sequence of a non-empty
name that is the name of no populated slot of the new list, each merged with
the three identity labels. So a name is deleted once when the non-empty
tracked names are pairwise distinct, and the name of a populated slot is never
among the deleted names, whatever its count; for a dimension label its label
set is not deleted either. -/
theorem updateMetric_deletes_disappeared (Metric : GaugeVec) (new : Array10 LabelValuePair)
    (tracked : Array10 String) (inst shard ns name : String)
    (hok : ∀ l, Metric.rejects l = false) :
    deletedLabels (updateMetric Metric new tracked inst shard ns name).ops =
      (tracked.toList.filter (fun t => decide (t ≠ "" ∧ t ∉ populatedNames new.toList))).map
        (metricLabels name inst shard ns) ∧
    ((tracked.toList.filter (fun t => t ≠ "")).Nodup →
      ∀ t ∈ tracked.toList, t ≠ "" → t ∉ populatedNames new.toList →
        (tracked.toList.filter
          (fun t => decide (t ≠ "" ∧ t ∉ populatedNames new.toList))).count t = 1) ∧
    (∀ x ∈ populatedNames new.toList,
      x ∉ tracked.toList.filter (fun t => decide (t ≠ "" ∧ t ∉ populatedNames new.toList))) ∧
    (DimensionLabel name → ∀ x ∈ populatedNames new.toList,
      metricLabels name inst shard ns x ∉
        deletedLabels (updateMetric Metric new tracked inst shard ns name).ops) := by
  have hops : deletedLabels (updateMetric Metric new tracked inst shard ns name).ops =
      (tracked.toList.filter (fun t => decide (t ≠ "" ∧ t ∉ populatedNames new.toList))).map
        (metricLabels name inst shard ns) := by
    rw [updateMetric_of_accepts Metric new tracked inst shard ns name (fun p _ => hok _)]
    simp only [deletedLabels_append, deletedLabels_setOps, List.nil_append]
    rw [← staleNames_eq_filter]
    have hmm : (staleNames new.toList tracked.toList).map
        (fun x => StoreOp.delete (metricLabels name inst shard ns x)) =
        ((staleNames new.toList tracked.toList).map (metricLabels name inst shard ns)).map
          StoreOp.delete := by
      rw [List.map_map]; rfl
    rw [hmm, deletedLabels_map_delete]
  refine ⟨hops, ?_, ?_, ?_⟩
  · intro hnd t ht hne hnp
    have hsub : (tracked.toList.filter
        (fun t => decide (t ≠ "" ∧ t ∉ populatedNames new.toList))).Sublist
        (tracked.toList.filter (fun t => t ≠ "")) := by
      have : tracked.toList.filter (fun t => decide (t ≠ "" ∧ t ∉ populatedNames new.toList)) =
          (tracked.toList.filter (fun t => t ≠ "")).filter
            (fun t => decide (t ∉ populatedNames new.toList)) := by
        rw [List.filter_filter]
        apply List.filter_congr
        intro a _
        by_cases h1 : a = "" <;> by_cases h2 : a ∈ populatedNames new.toList <;> simp [h1, h2]
      rw [this]
      exact List.filter_sublist _
    have hnd2 := hnd.sublist hsub
    apply List.count_eq_one_of_mem hnd2
    rw [List.mem_filter]
    exact ⟨ht, by simp [hne, hnp]⟩
  · intro x hx hmem
    rw [List.mem_filter] at hmem
    have := of_decide_eq_true hmem.2
    exact this.2 hx
  · intro hname x hx hmem
    rw [hops, List.mem_map] at hmem
    obtain ⟨y, hy, hxy⟩ := hmem
    have hyx : y = x := (metricLabels_injective name inst shard ns hname y x).mp hxy
    subst hyx
    rw [List.mem_filter] at hy
    exact (of_decide_eq_true hy.2).2 hx

/-- C2 at the input of the claim: tracked `[a, b]`, new list `[a]`. Exactly one
`Delete` is requested, for `b`, and the gauge of `a` is set. -/
theorem updateMetric_deletes_disappeared_witness :
    deletedLabels (updateMetric (storeOf []) (topTen [("a", 5)]) (trackedOf ["a", "b"])
        "i" "s" "n" "metric").ops = [metricLabels "metric" "i" "s" "n" "b"] ∧
    StoreOp.set (metricLabels "metric" "i" "s" "n" "a") 5 ∈
      (updateMetric (storeOf []) (topTen [("a", 5)]) (trackedOf ["a", "b"])
        "i" "s" "n" "metric").ops := by
  have h := updateMetric_deletes_disappeared (storeOf []) (topTen [("a", 5)])
    (trackedOf ["a", "b"]) "i" "s" "n" "metric" (fun _ => rfl)
  refine ⟨?_, by decide⟩
  rw [h.1]
  decide

/-! ## Sentinel handling -/

/-- C3, at a failing input: the new list is `a: 1`, an empty slot, then `x: 5`,
and `x` is tracked. The first loop stops at the empty slot, so `x` is neither
set nor tracked afterwards, but the second loop finds `x` after the empty slot
and requests no `Delete` for it. On the list cut at the empty slot the `Delete`
for `x` is requested. -/
theorem updateMetric_sentinel_divergence :
    (updateMetric (storeOf []) (topTen [("a", 1), ("", 0), ("x", 5)]) (trackedOf ["x"])
        "i" "s" "n" "metric").ops =
      [StoreOp.getMetricWith (metricLabels "metric" "i" "s" "n" "a"),
       StoreOp.set (metricLabels "metric" "i" "s" "n" "a") 1] ∧
    (updateMetric (storeOf []) (topTen [("a", 1), ("", 0), ("x", 5)]) (trackedOf ["x"])
        "i" "s" "n" "metric").tracked = trackedOf ["a"] ∧
    (updateMetric (storeOf []) (cutFrom 1 (topTen [("a", 1), ("", 0), ("x", 5)]))
        (trackedOf ["x"]) "i" "s" "n" "metric").ops =
      [StoreOp.getMetricWith (metricLabels "metric" "i" "s" "n" "a"),
       StoreOp.set (metricLabels "metric" "i" "s" "n" "a") 1,
       StoreOp.delete (metricLabels "metric" "i" "s" "n" "x")] := by
  decide

/-! ## Success and failure of the first loop -/

theorem exists_first_rejected (rej : LabelValuePair → Bool) (l : List LabelValuePair)
    (h : ∃ p ∈ l, rej p = true) :
    ∃ pre p post, l = pre ++ p :: post ∧ (∀ q ∈ pre, rej q = false) ∧ rej p = true := by
  induction l with
  | nil => obtain ⟨p, hp, _⟩ := h; cases hp
  | cons a l ih =>
    by_cases ha : rej a = true
    · exact ⟨[], a, l, rfl, by simp, ha⟩
    · have h2 : ∃ p ∈ l, rej p = true := by
        obtain ⟨p, hp, hr⟩ := h
        rcases List.mem_cons.mp hp with rfl | hp
        · exact absurd hr ha
        · exact ⟨p, hp, hr⟩
      obtain ⟨pre, p, post, hl, hpre, hp⟩ := ih h2
      refine ⟨a :: pre, p, post, by rw [hl]; rfl, ?_, hp⟩
      intro q hq
      rcases List.mem_cons.mp hq with rfl | hq
      · simpa using ha
      · exact hpre q hq

/-- `updateMetric` succeeds exactly when the store accepts the label set of
every slot before the first empty name. -/
theorem updateMetric_err_eq_none_iff (Metric : GaugeVec) (new : Array10 LabelValuePair)
    (tracked : Array10 String) (inst shard ns name : String) :
    (updateMetric Metric new tracked inst shard ns name).err = none ↔
      ∀ p ∈ populated new.toList,
        Metric.rejects (metricLabels name inst shard ns p.Label) = false := by
  constructor
  · intro herr
    by_contra hcon
    have hex : ∃ p ∈ populated new.toList,
        (fun p => Metric.rejects (metricLabels name inst shard ns p.Label)) p = true := by
      by_contra hne
      apply hcon
      intro p hp
      by_contra hp2
      exact hne ⟨p, hp, by simpa using hp2⟩
    obtain ⟨pre, p, post, hl, hpre, hp⟩ := exists_first_rejected _ _ hex
    have hmem : ∀ q ∈ pre ++ p :: post, q.Label ≠ "" := by
      intro q hq
      rw [← hl] at hq
      exact populated_label_ne _ q hq
    have hsplit : new.toList =
        pre ++ p :: (post ++ new.toList.dropWhile (fun p => p.Label ≠ "")) := by
      have := populated_append_dropWhile new.toList
      rw [hl, List.append_assoc, List.cons_append] at this
      exact this.symm
    rw [updateMetric_of_rejects Metric new tracked inst shard ns name pre _ p hsplit
      (fun q hq => ⟨hmem q (List.mem_append_left _ hq), hpre q hq⟩)
      (hmem p (List.mem_append_right _ (List.mem_cons_self _ _))) hp] at herr
    cases herr
  · intro h
    rw [updateMetric_of_accepts Metric new tracked inst shard ns name h]

theorem mem_recordNames (ps : List LabelValuePair) :
    ∀ (nt : Array10 String) (idx : Nat) (x : String),
      x ∈ (recordNames nt idx ps).toList → x ∈ nt.toList ∨ ∃ p ∈ ps, p.Label = x := by
  induction ps with
  | nil => intro nt idx x hx; exact Or.inl hx
  | cons p ps ih =>
    intro nt idx x hx
    rcases ih (nt.set idx p.Label) (idx + 1) x hx with h | ⟨q, hq, hqx⟩
    · rcases List.mem_or_eq_of_mem_set h with h | h
      · exact Or.inl h
      · exact Or.inr ⟨p, List.mem_cons_self _ _, h.symm⟩
    · exact Or.inr ⟨q, List.mem_cons_of_mem _ hq, hqx⟩

theorem populated_subset (l : List LabelValuePair) : ∀ p ∈ populated l, p ∈ l := by
  intro p hp
  exact (List.takeWhile_sublist _).subset hp

theorem staleNames_recordNames (new : List LabelValuePair) :
    staleNames new (recordNames (Array10.zero "") 0 (populated new)).toList = [] := by
  unfold staleNames
  rw [List.filter_eq_nil_iff]
  intro x hx
  rcases mem_recordNames _ _ _ _ hx with h | ⟨p, hp, hpx⟩
  · have : x = "" := by
      simp only [Array10.zero, Array10.toList] at h
      exact (List.mem_replicate.mp h).2
    simp [this]
  · have hf : updateMetric.found new x = true :=
      (updateMetric.found_iff new x).mpr ⟨p, populated_subset new p hp, hpx⟩
    simp [hf]

/-! ## Idempotence -/

theorem rejects_runDeletes (ls : List Labels) :
    ∀ g : GaugeVec, (runDeletes g ls).rejects = g.rejects := by
  induction ls with
  | nil => intro g; rfl
  | cons l ls ih =>
    intro g
    simp only [runDeletes, List.foldl_cons] at ih ⊢
    rw [ih, GaugeVec.rejects_Delete]

/-- C4: if `updateMetric` succeeds, returning tracked sequence `t1` and leaving
store `s1`, then `updateMetric` on the same new list with `t1` and `s1` succeeds,
requests no `Delete`, returns `t1` again and leaves every gauge of the store as
in `s1`: the same label sets are present with the same values. The dimension
label is none of the identity labels. -/
theorem updateMetric_idempotent (Metric : GaugeVec) (new : Array10 LabelValuePair)
    (tracked : Array10 String) (inst shard ns name : String) (hname : DimensionLabel name)
    (hsucc : (updateMetric Metric new tracked inst shard ns name).err = none) :
    (updateMetric (updateMetric Metric new tracked inst shard ns name).gauge new
        (updateMetric Metric new tracked inst shard ns name).tracked inst shard ns name).err
      = none ∧
    deletedLabels (updateMetric (updateMetric Metric new tracked inst shard ns name).gauge new
        (updateMetric Metric new tracked inst shard ns name).tracked inst shard ns name).ops
      = [] ∧
    (updateMetric (updateMetric Metric new tracked inst shard ns name).gauge new
        (updateMetric Metric new tracked inst shard ns name).tracked inst shard ns name).tracked
      = (updateMetric Metric new tracked inst shard ns name).tracked ∧
    ∀ l, (updateMetric (updateMetric Metric new tracked inst shard ns name).gauge new
        (updateMetric Metric new tracked inst shard ns name).tracked inst shard ns name).gauge.value? l
      = (updateMetric Metric new tracked inst shard ns name).gauge.value? l := by
  have h1 := (updateMetric_err_eq_none_iff Metric new tracked inst shard ns name).mp hsucc
  have e1 := updateMetric_of_accepts Metric new tracked inst shard ns name h1
  rw [e1]
  simp only
  have h2 : ∀ p ∈ populated new.toList,
      (runDeletes (runSets (metricLabels name inst shard ns) Metric (populated new.toList))
        ((staleNames new.toList tracked.toList).map (metricLabels name inst shard ns))).rejects
        (metricLabels name inst shard ns p.Label) = false := by
    intro p hp
    rw [rejects_runDeletes, rejects_runSets]
    exact h1 p hp
  rw [updateMetric_of_accepts _ new _ inst shard ns name h2]
  simp only [staleNames_recordNames, List.map_nil, List.append_nil, deletedLabels_setOps,
    runDeletes, List.foldl_nil, true_and]
  intro l
  rw [value?_runSets]
  cases hl : ((populated new.toList).filter
      (fun p => metricLabels name inst shard ns p.Label = l)).getLast? with
  | none => rfl
  | some p =>
    have hv := value?_runDeletes
      ((staleNames new.toList tracked.toList).map (metricLabels name inst shard ns))
      (runSets (metricLabels name inst shard ns) Metric (populated new.toList)) l
    simp only [runDeletes] at hv
    rw [hv, value?_runSets, hl]
    have hpmem := List.mem_of_getLast?_eq_some hl
    rw [List.mem_filter] at hpmem
    have hpl : metricLabels name inst shard ns p.Label = l := of_decide_eq_true hpmem.2
    have hns : l ∉ (staleNames new.toList tracked.toList).map (metricLabels name inst shard ns) := by
      intro hmem
      rw [List.mem_map] at hmem
      obtain ⟨y, hy, hyl⟩ := hmem
      have hyp : y = p.Label :=
        (metricLabels_injective name inst shard ns hname y p.Label).mp (hyl.trans hpl.symm)
      rw [mem_staleNames] at hy
      exact hy.2.2 ⟨p, populated_subset _ p hpmem.1, hyp.symm⟩
    simp [hns]

/-- C4 at a concrete input: tracked `[c]`, new list `a: 1, b: 2`, empty store.
The second call requests no `Delete`, returns the same tracked sequence and
leaves the gauge of `a` as the first call left it. -/
theorem updateMetric_idempotent_witness :
    deletedLabels (updateMetric
        (updateMetric (storeOf []) (topTen [("a", 1), ("b", 2)]) (trackedOf ["c"])
          "i" "s" "n" "metric").gauge
        (topTen [("a", 1), ("b", 2)])
        (updateMetric (storeOf []) (topTen [("a", 1), ("b", 2)]) (trackedOf ["c"])
          "i" "s" "n" "metric").tracked "i" "s" "n" "metric").ops = [] ∧
    (updateMetric
        (updateMetric (storeOf []) (topTen [("a", 1), ("b", 2)]) (trackedOf ["c"])
          "i" "s" "n" "metric").gauge
        (topTen [("a", 1), ("b", 2)])
        (updateMetric (storeOf []) (topTen [("a", 1), ("b", 2)]) (trackedOf ["c"])
          "i" "s" "n" "metric").tracked "i" "s" "n" "metric").gauge.value?
        (metricLabels "metric" "i" "s" "n" "a") = some 1 := by
  have h := updateMetric_idempotent (storeOf []) (topTen [("a", 1), ("b", 2)])
    (trackedOf ["c"]) "i" "s" "n" "metric" (by decide) (by decide)
  refine ⟨h.2.1, ?_⟩
  rw [h.2.2.2]
  decide

/-! ## Rank-order independence -/

/-- C5 fails as stated: the lists `a: 1, a: 2` and `a: 2, a: 1` are
permutations of one another with their populated slots in a prefix, and from
the same empty store and tracked sequence they leave the gauge of `a` at 2 and
at 1. -/
theorem updateMetric_order_counterexample :
    PopulatedPrefix (topTen [("a", 1), ("a", 2)]).toList ∧
    PopulatedPrefix (topTen [("a", 2), ("a", 1)]).toList ∧
    List.Perm (populatedSlots (topTen [("a", 1), ("a", 2)]).toList)
      (populatedSlots (topTen [("a", 2), ("a", 1)]).toList) ∧
    (updateMetric (storeOf []) (topTen [("a", 1), ("a", 2)]) (trackedOf [])
        "i" "s" "n" "metric").err = none ∧
    (updateMetric (storeOf []) (topTen [("a", 2), ("a", 1)]) (trackedOf [])
        "i" "s" "n" "metric").err = none ∧
    (updateMetric (storeOf []) (topTen [("a", 1), ("a", 2)]) (trackedOf [])
        "i" "s" "n" "metric").gauge.value? (metricLabels "metric" "i" "s" "n" "a") = some 2 ∧
    (updateMetric (storeOf []) (topTen [("a", 2), ("a", 1)]) (trackedOf [])
        "i" "s" "n" "metric").gauge.value? (metricLabels "metric" "i" "s" "n" "a") = some 1 := by
  refine ⟨by decide, by decide, ?_, by decide, by decide, by decide, by decide⟩
  have e1 : populatedSlots (topTen [("a", 1), ("a", 2)]).toList = [⟨"a", 1⟩, ⟨"a", 2⟩] := by
    decide
  have e2 : populatedSlots (topTen [("a", 2), ("a", 1)]).toList = [⟨"a", 2⟩, ⟨"a", 1⟩] := by
    decide
  rw [e1, e2]
  exact List.Perm.swap _ _ _

theorem staleNames_perm (new1 new2 : List LabelValuePair) (tracked : List String)
    (hperm : List.Perm (populatedSlots new1) (populatedSlots new2)) :
    staleNames new1 tracked = staleNames new2 tracked := by
  unfold staleNames
  apply List.filter_congr
  intro x _
  by_cases hx : x = ""
  · simp [hx]
  · have key : ∀ l : List LabelValuePair,
        (∃ p ∈ l, p.Label = x) ↔ ∃ p ∈ populatedSlots l, p.Label = x := by
      intro l
      unfold populatedSlots
      constructor
      · rintro ⟨p, hp, h⟩
        exact ⟨p, List.mem_filter.mpr ⟨hp, by simp [h, hx]⟩, h⟩
      · rintro ⟨p, hp, h⟩
        exact ⟨p, (List.mem_filter.mp hp).1, h⟩
    have : updateMetric.found new1 x = updateMetric.found new2 x := by
      rw [Bool.eq_iff_iff, updateMetric.found_iff, updateMetric.found_iff, key new1, key new2]
      constructor
      · rintro ⟨p, hp, h⟩; exact ⟨p, hperm.mem_iff.mp hp, h⟩
      · rintro ⟨p, hp, h⟩; exact ⟨p, hperm.mem_iff.mpr hp, h⟩
    rw [this]

theorem getLast?_filter_perm (mk : String → Labels) (hinj : ∀ x y, mk x = mk y → x = y)
    (P1 P2 : List LabelValuePair) (hperm : List.Perm P1 P2)
    (hnd : (P1.map (fun p => p.Label)).Nodup) (l : Labels) :
    (P1.filter (fun p => mk p.Label = l)).getLast? =
      (P2.filter (fun p => mk p.Label = l)).getLast? := by
  have hfp : List.Perm (P1.filter (fun p => mk p.Label = l))
      (P2.filter (fun p => mk p.Label = l)) := hperm.filter _
  cases h1 : (P1.filter (fun p => mk p.Label = l)).getLast? with
  | none =>
    rw [List.getLast?_eq_none_iff] at h1
    rw [h1] at hfp
    rw [← List.Perm.nil_eq hfp]
    rfl
  | some p =>
    cases h2 : (P2.filter (fun p => mk p.Label = l)).getLast? with
    | none =>
      rw [List.getLast?_eq_none_iff] at h2
      rw [h2] at hfp
      rw [List.Perm.eq_nil hfp] at h1
      cases h1
    | some q =>
      have hp := List.mem_of_getLast?_eq_some h1
      have hq := List.mem_of_getLast?_eq_some h2
      rw [List.mem_filter] at hp hq
      have hq1 : q ∈ P1 := hperm.mem_iff.mpr hq.1
      have hlab : p.Label = q.Label :=
        hinj _ _ ((of_decide_eq_true hp.2).trans (of_decide_eq_true hq.2).symm)
      have := List.inj_on_of_nodup_map hnd hp.1 hq1 hlab
      rw [this]

/-- C5, amended: for two new lists whose populated slots form a prefix, are
permutations of one another and carry pairwise distinct names, with the same
tracked sequence and initial store and get-or-create never failing,
`updateMetric` leaves every gauge of the store the same for both lists. The
dimension label is none of the identity labels. -/
theorem updateMetric_order_independent (Metric : GaugeVec)
    (new1 new2 : Array10 LabelValuePair) (tracked : Array10 String)
    (inst shard ns name : String) (hname : DimensionLabel name)
    (hpop1 : PopulatedPrefix new1.toList) (hpop2 : PopulatedPrefix new2.toList)
    (hperm : List.Perm (populatedSlots new1.toList) (populatedSlots new2.toList))
    (hnd : (populatedNames new1.toList).Nodup)
    (hok : ∀ l, Metric.rejects l = false) :
    ∀ l, (updateMetric Metric new1 tracked inst shard ns name).gauge.value? l =
      (updateMetric Metric new2 tracked inst shard ns name).gauge.value? l := by
  intro l
  rw [updateMetric_of_accepts Metric new1 tracked inst shard ns name (fun p _ => hok _),
    updateMetric_of_accepts Metric new2 tracked inst shard ns name (fun p _ => hok _)]
  simp only [value?_runDeletes, value?_runSets]
  rw [staleNames_perm new1.toList new2.toList tracked.toList hperm,
    populated_eq_filter _ hpop1, populated_eq_filter _ hpop2]
  have hinj : ∀ x y, metricLabels name inst shard ns x = metricLabels name inst shard ns y →
      x = y := fun x y => (metricLabels_injective name inst shard ns hname x y).mp
  have := getLast?_filter_perm (metricLabels name inst shard ns) hinj
    (populatedSlots new1.toList) (populatedSlots new2.toList) hperm hnd l
  unfold populatedSlots at this
  rw [this]

/-- C5 amended, at a concrete input: `a: 1, b: 2` and `b: 2, a: 1`, with `c`
tracked. Both leave `a` at 1. -/
theorem updateMetric_order_independent_witness :
    (updateMetric (storeOf []) (topTen [("a", 1), ("b", 2)]) (trackedOf ["c"])
        "i" "s" "n" "metric").gauge.value? (metricLabels "metric" "i" "s" "n" "a") = some 1 ∧
    (updateMetric (storeOf []) (topTen [("b", 2), ("a", 1)]) (trackedOf ["c"])
        "i" "s" "n" "metric").gauge.value? (metricLabels "metric" "i" "s" "n" "a") = some 1 := by
  have e1 : populatedSlots (topTen [("a", 1), ("b", 2)]).toList = [⟨"a", 1⟩, ⟨"b", 2⟩] := by
    decide
  have e2 : populatedSlots (topTen [("b", 2), ("a", 1)]).toList = [⟨"b", 2⟩, ⟨"a", 1⟩] := by
    decide
  have h := updateMetric_order_independent (storeOf []) (topTen [("a", 1), ("b", 2)])
    (topTen [("b", 2), ("a", 1)]) (trackedOf ["c"]) "i" "s" "n" "metric" (by decide)
    (by decide) (by decide) (by rw [e1, e2]; exact List.Perm.swap _ _ _) (by decide)
    (fun _ => rfl) (metricLabels "metric" "i" "s" "n" "a")
  refine ⟨?_, ?_⟩
  · rw [h]; decide
  · rw [← h]; decide

/-! ## The loops of `updateMetricByPrometheusLabels` -/

theorem updateMetricByPrometheusLabels.labelsSetLoop_append (ident : Labels → Labels)
    (pre rest : List PrometheusLabelValuePair) :
    ∀ (idx : Nat) (g : GaugeVec) (ops : List StoreOp) (nt : Array10 Labels)
      (done : List PrometheusLabelValuePair),
      (∀ p ∈ pre, p.Labels.len ≠ 0 ∧ g.rejects (ident p.Labels) = false) →
      updateMetricByPrometheusLabels.setLoop ident (pre ++ rest) idx g ops nt done =
        updateMetricByPrometheusLabels.setLoop ident rest (idx + pre.length)
          (runLabelSets ident g pre) (ops ++ labelSetOps ident pre)
          (recordLabels ident nt idx pre) (done ++ identified ident pre) := by
  induction pre with
  | nil => intro idx g ops nt done _; simp [runLabelSets, labelSetOps, recordLabels, identified]
  | cons p pre ih =>
    intro idx g ops nt done h
    have hp := h p (List.mem_cons_self _ _)
    have hrest : ∀ q ∈ pre, q.Labels.len ≠ 0 ∧
        (g.upsert (ident p.Labels) (float64 p.Value)).rejects (ident q.Labels) = false := by
      intro q hq
      rw [GaugeVec.rejects_upsert]
      exact h q (List.mem_cons_of_mem _ hq)
    simp only [List.cons_append, updateMetricByPrometheusLabels.setLoop, hp.1, if_false,
      GaugeVec.GetMetricWith_of_accepts g _ hp.2, List.append_eq]
    have := ih (idx + 1) (g.upsert (ident p.Labels) (float64 p.Value))
      (ops ++ [StoreOp.getMetricWith (ident p.Labels), StoreOp.set (ident p.Labels) (float64 p.Value)])
      (nt.set idx (ident p.Labels)) (done ++ [⟨ident p.Labels, p.Value⟩]) hrest
    simp only [GaugeVec.upsert] at this ⊢
    rw [this]
    simp [runLabelSets, labelSetOps, recordLabels, identified, GaugeVec.upsert, Nat.add_assoc,
      Nat.add_comm 1]

theorem updateMetricByPrometheusLabels.labelsDeleteLoop_eq (ident : Labels → Labels)
    (new : List PrometheusLabelValuePair) (tracked : List Labels) :
    ∀ (g : GaugeVec) (ops : List StoreOp),
      updateMetricByPrometheusLabels.deleteLoop ident new tracked g ops =
        (runDeletes g ((staleLabels new tracked).map ident),
          ops ++ (staleLabels new tracked).map (fun x => StoreOp.delete (ident x))) := by
  induction tracked with
  | nil =>
    intro g ops
    simp [updateMetricByPrometheusLabels.deleteLoop, staleLabels, runDeletes]
  | cons old tracked ih =>
    intro g ops
    unfold updateMetricByPrometheusLabels.deleteLoop
    by_cases h : (!updateMetricByPrometheusLabels.found new old && decide (old.len > 0)) = true
    · rw [if_pos h, ih]
      have hs : staleLabels new (old :: tracked) = old :: staleLabels new tracked := by
        simp only [staleLabels, List.filter_cons, h, if_true]
      simp [hs, runDeletes]
    · rw [if_neg h, ih]
      have hs : staleLabels new (old :: tracked) = staleLabels new tracked := by
        simp only [staleLabels, List.filter_cons, h, if_false]
        simp
      rw [hs]

theorem rejects_runLabelSets (ident : Labels → Labels) (ps : List PrometheusLabelValuePair) :
    ∀ g : GaugeVec, (runLabelSets ident g ps).rejects = g.rejects := by
  induction ps with
  | nil => intro g; rfl
  | cons q ps ih =>
    intro g
    simp only [runLabelSets, List.foldl_cons] at ih ⊢
    rw [ih, GaugeVec.rejects_upsert]

/-- The result of `updateMetricByPrometheusLabels` when the get-or-create of
the populated slot after `pre` is the first to fail. -/
theorem updateMetricByPrometheusLabels_of_rejects (Metric : GaugeVec)
    (new : Array10 PrometheusLabelValuePair) (tracked : Array10 Labels)
    (inst shard ns : String) (pre post : List PrometheusLabelValuePair)
    (p : PrometheusLabelValuePair) (hsplit : new.toList = pre ++ p :: post)
    (hpre : ∀ q ∈ pre, q.Labels.len ≠ 0 ∧
      Metric.rejects (withIdentity inst shard ns q.Labels) = false)
    (hp : p.Labels.len ≠ 0)
    (hrej : Metric.rejects (withIdentity inst shard ns p.Labels) = true) :
    updateMetricByPrometheusLabels Metric new tracked inst shard ns =
      ⟨⟨runLabelSets (withIdentity inst shard ns) Metric pre,
        labelSetOps (withIdentity inst shard ns) pre ++
          [StoreOp.getMetricWith (withIdentity inst shard ns p.Labels)],
        tracked, some (Error.updatingLabels (withIdentity inst shard ns p.Labels))⟩,
        tracked⟩ := by
  have hloop := updateMetricByPrometheusLabels.labelsSetLoop_append (withIdentity inst shard ns)
    pre (p :: post) 0 Metric [] (Array10.zero Labels.empty) [] hpre
  have hrej2 : (runLabelSets (withIdentity inst shard ns) Metric pre).GetMetricWith
      (withIdentity inst shard ns p.Labels) = none := by
    rw [GaugeVec.GetMetricWith_eq_none, rejects_runLabelSets]
    exact hrej
  unfold updateMetricByPrometheusLabels
  simp only [hsplit, hloop, updateMetricByPrometheusLabels.setLoop, hp, if_false, hrej2,
    List.nil_append]

theorem deletedLabels_labelSetOps (ident : Labels → Labels)
    (ps : List PrometheusLabelValuePair) : deletedLabels (labelSetOps ident ps) = [] := by
  induction ps with
  | nil => rfl
  | cons p ps ih =>
    have : labelSetOps ident (p :: ps) =
        [StoreOp.getMetricWith (ident p.Labels), StoreOp.set (ident p.Labels) (float64 p.Value)] ++
          labelSetOps ident ps := by
      simp [labelSetOps]
    rw [this, deletedLabels_append, ih]
    rfl

/-! ## A store error does not commit tracked state -/

/-- C6: for `updateMetric` and for `updateMetricByPrometheusLabels`, if the
get-or-create of a populated slot fails (the slots `pre` before it are
populated and accepted), the call returns the error for that slot together
with the input tracked sequence, its requests are the get-or-create and set of
the slots `pre` followed by the failing get-or-create, so no later slot is
processed and no `Delete` is requested; the label-set reconciler leaves the
caller's tracked maps as they were. -/
theorem store_error_returns_tracked :
    (∀ (Metric : GaugeVec) (new : Array10 LabelValuePair) (tracked : Array10 String)
        (inst shard ns name : String) (pre post : List LabelValuePair) (p : LabelValuePair),
        new.toList = pre ++ p :: post →
        (∀ q ∈ pre, q.Label ≠ "" ∧
          Metric.rejects (metricLabels name inst shard ns q.Label) = false) →
        p.Label ≠ "" →
        Metric.rejects (metricLabels name inst shard ns p.Label) = true →
        (updateMetric Metric new tracked inst shard ns name).err =
            some (Error.updatingLabelName p.Label) ∧
          (updateMetric Metric new tracked inst shard ns name).tracked = tracked ∧
          (updateMetric Metric new tracked inst shard ns name).ops =
            setOps (metricLabels name inst shard ns) pre ++
              [StoreOp.getMetricWith (metricLabels name inst shard ns p.Label)] ∧
          deletedLabels (updateMetric Metric new tracked inst shard ns name).ops = []) ∧
    (∀ (Metric : GaugeVec) (new : Array10 PrometheusLabelValuePair) (tracked : Array10 Labels)
        (inst shard ns : String) (pre post : List PrometheusLabelValuePair)
        (p : PrometheusLabelValuePair),
        new.toList = pre ++ p :: post →
        (∀ q ∈ pre, q.Labels.len ≠ 0 ∧
          Metric.rejects (withIdentity inst shard ns q.Labels) = false) →
        p.Labels.len ≠ 0 →
        Metric.rejects (withIdentity inst shard ns p.Labels) = true →
        (updateMetricByPrometheusLabels Metric new tracked inst shard ns).err =
            some (Error.updatingLabels (withIdentity inst shard ns p.Labels)) ∧
          (updateMetricByPrometheusLabels Metric new tracked inst shard ns).tracked = tracked ∧
          (updateMetricByPrometheusLabels Metric new tracked inst shard ns).trackedInPlace =
            tracked ∧
          (updateMetricByPrometheusLabels Metric new tracked inst shard ns).ops =
            labelSetOps (withIdentity inst shard ns) pre ++
              [StoreOp.getMetricWith (withIdentity inst shard ns p.Labels)] ∧
          deletedLabels (updateMetricByPrometheusLabels Metric new tracked inst shard ns).ops
            = []) := by
  constructor
  · intro Metric new tracked inst shard ns name pre post p hsplit hpre hp hrej
    rw [updateMetric_of_rejects Metric new tracked inst shard ns name pre post p hsplit hpre hp
      hrej]
    refine ⟨rfl, rfl, rfl, ?_⟩
    simp only [deletedLabels_append, deletedLabels_setOps]
    rfl
  · intro Metric new tracked inst shard ns pre post p hsplit hpre hp hrej
    rw [updateMetricByPrometheusLabels_of_rejects Metric new tracked inst shard ns pre post p
      hsplit hpre hp hrej]
    refine ⟨rfl, rfl, rfl, rfl, ?_⟩
    simp only [deletedLabels_append, deletedLabels_labelSetOps]
    rfl

/-- C6 at concrete inputs: the store rejects the label sets of metric `b`; the
new lists are `a, b, c` and `z` is tracked. Both reconcilers return the tracked
sequence they were given and stop after the failing get-or-create of `b`. -/
theorem store_error_returns_tracked_witness :
    ((updateMetric (storeRejecting (fun l => decide (l.get? "metric" = some "b")))
        (topTen [("a", 1), ("b", 2), ("c", 3)]) (trackedOf ["z"]) "i" "s" "n" "metric").tracked
        = trackedOf ["z"] ∧
      (updateMetric (storeRejecting (fun l => decide (l.get? "metric" = some "b")))
        (topTen [("a", 1), ("b", 2), ("c", 3)]) (trackedOf ["z"]) "i" "s" "n" "metric").ops
        = [StoreOp.getMetricWith (metricLabels "metric" "i" "s" "n" "a"),
           StoreOp.set (metricLabels "metric" "i" "s" "n" "a") 1,
           StoreOp.getMetricWith (metricLabels "metric" "i" "s" "n" "b")]) ∧
    ((updateMetricByPrometheusLabels
        (storeRejecting (fun l => decide (l.get? "metric" = some "b")))
        (topTenLabels [(metricAndLabel "a" "job", 1), (metricAndLabel "b" "job", 2),
          (metricAndLabel "c" "job", 3)])
        (trackedLabelsOf [withIdentity "i" "s" "n" (metricAndLabel "z" "job")])
        "i" "s" "n").tracked
        = trackedLabelsOf [withIdentity "i" "s" "n" (metricAndLabel "z" "job")] ∧
      deletedLabels (updateMetricByPrometheusLabels
        (storeRejecting (fun l => decide (l.get? "metric" = some "b")))
        (topTenLabels [(metricAndLabel "a" "job", 1), (metricAndLabel "b" "job", 2),
          (metricAndLabel "c" "job", 3)])
        (trackedLabelsOf [withIdentity "i" "s" "n" (metricAndLabel "z" "job")])
        "i" "s" "n").ops = []) := by
  have h1 := store_error_returns_tracked.1
    (storeRejecting (fun l => decide (l.get? "metric" = some "b")))
    (topTen [("a", 1), ("b", 2), ("c", 3)]) (trackedOf ["z"]) "i" "s" "n" "metric"
    [⟨"a", 1⟩] (⟨"c", 3⟩ :: List.replicate 7 LabelValuePair.zero) ⟨"b", 2⟩
    (by decide) (by decide) (by decide) (by decide)
  have h2 := store_error_returns_tracked.2
    (storeRejecting (fun l => decide (l.get? "metric" = some "b")))
    (topTenLabels [(metricAndLabel "a" "job", 1), (metricAndLabel "b" "job", 2),
      (metricAndLabel "c" "job", 3)])
    (trackedLabelsOf [withIdentity "i" "s" "n" (metricAndLabel "z" "job")]) "i" "s" "n"
    [⟨metricAndLabel "a" "job", 1⟩]
    (⟨metricAndLabel "c" "job", 3⟩ :: List.replicate 7 PrometheusLabelValuePair.zero)
    ⟨metricAndLabel "b" "job", 2⟩
    (by decide) (by decide) (by decide) (by decide)
  refine ⟨⟨h1.2.1, ?_⟩, ⟨h2.2.1, h2.2.2.2.2⟩⟩
  rw [h1.2.2.1]
  decide

/-! ## Per-metric expansion and its tracked state -/

/-- C7, at a failing input: metric `up` is expanded twice from a fresh
instance, the first secondary snapshot holding label `job` and the second
holding no label. The first expansion exposes the series of `up` and `job` and
stores its tracked state under `up` in the per-metric table; the second reads
the tracked state from `SeriesCountByMetricNamePerLabelLabels`, which has no
entry for `up`, requests no `Delete`, and the series stays in the store. The
sibling `exposeSeriesCountByMetricsNamePerLabel`, which reads its own table,
deletes the series in the mirrored run. -/
theorem exposeLabelCount_reads_other_table :
    (exposeLabelCountByLabelNameNamePerMetricName (envReturning (dataOf [] [("job", 3)]))
        (freshInstance (dataOf [("up", 1)] [])) "up" (storeOf [])).err = none ∧
    StoreOp.set (withIdentity "i" "s" "n" (metricAndLabel "up" "job")) 3 ∈
      (exposeLabelCountByLabelNameNamePerMetricName (envReturning (dataOf [] [("job", 3)]))
        (freshInstance (dataOf [("up", 1)] [])) "up" (storeOf [])).ops ∧
    (exposeLabelCountByLabelNameNamePerMetricName (envReturning (dataOf [] [("job", 3)]))
        (freshInstance (dataOf [("up", 1)] [])) "up"
        (storeOf [])).inst.TrackedLabels.LabelValueCountByLabelNamePerMetricNameLabels.get "up"
      = trackedLabelsOf [withIdentity "i" "s" "n" (metricAndLabel "up" "job")] ∧
    (exposeLabelCountByLabelNameNamePerMetricName (envReturning (dataOf [] [("job", 3)]))
        (freshInstance (dataOf [("up", 1)] [])) "up"
        (storeOf [])).inst.TrackedLabels.SeriesCountByMetricNamePerLabelLabels.has "up"
      = false ∧
    (exposeLabelCountByLabelNameNamePerMetricName (envReturning (dataOf [] []))
        (exposeLabelCountByLabelNameNamePerMetricName (envReturning (dataOf [] [("job", 3)]))
          (freshInstance (dataOf [("up", 1)] [])) "up" (storeOf [])).inst "up"
        (exposeLabelCountByLabelNameNamePerMetricName (envReturning (dataOf [] [("job", 3)]))
          (freshInstance (dataOf [("up", 1)] [])) "up" (storeOf [])).gauge).err = none ∧
    (exposeLabelCountByLabelNameNamePerMetricName (envReturning (dataOf [] []))
        (exposeLabelCountByLabelNameNamePerMetricName (envReturning (dataOf [] [("job", 3)]))
          (freshInstance (dataOf [("up", 1)] [])) "up" (storeOf [])).inst "up"
        (exposeLabelCountByLabelNameNamePerMetricName (envReturning (dataOf [] [("job", 3)]))
          (freshInstance (dataOf [("up", 1)] [])) "up" (storeOf [])).gauge).ops = [] ∧
    (exposeLabelCountByLabelNameNamePerMetricName (envReturning (dataOf [] []))
        (exposeLabelCountByLabelNameNamePerMetricName (envReturning (dataOf [] [("job", 3)]))
          (freshInstance (dataOf [("up", 1)] [])) "up" (storeOf [])).inst "up"
        (exposeLabelCountByLabelNameNamePerMetricName (envReturning (dataOf [] [("job", 3)]))
          (freshInstance (dataOf [("up", 1)] [])) "up" (storeOf [])).gauge).gauge.value?
        (withIdentity "i" "s" "n" (metricAndLabel "up" "job")) = some 3 ∧
    (exposeSeriesCountByMetricsNamePerLabel (envReturning (dataOf [] []))
        (exposeSeriesCountByMetricsNamePerLabel (envReturning (dataOf [("up", 3)] []))
          (freshInstance (dataOf [] [("job", 1)])) "job" (storeOf [])).inst "job"
        (exposeSeriesCountByMetricsNamePerLabel (envReturning (dataOf [("up", 3)] []))
          (freshInstance (dataOf [] [("job", 1)])) "job" (storeOf [])).gauge).ops
      = [StoreOp.delete (withIdentity "i" "s" "n" (metricAndLabel "up" "job"))] := by
  decide

/-! ## Shape of the label sets -/

theorem withIdentity_get? (inst shard ns : String) (L : Labels) :
    (withIdentity inst shard ns L).get? "scraped_instance" = some inst ∧
    (withIdentity inst shard ns L).get? "sharded_instance" = some shard ∧
    (withIdentity inst shard ns L).get? "instance_namespace" = some ns := by
  unfold withIdentity
  refine ⟨?_, ?_, ?_⟩
  · rw [Labels.get?_set_ne _ _ _ _ (by decide), Labels.get?_set_ne _ _ _ _ (by decide),
      Labels.get?_set_self]
  · rw [Labels.get?_set_ne _ _ _ _ (by decide), Labels.get?_set_self]
  · rw [Labels.get?_set_self]

theorem mem_keys_withIdentity (inst shard ns : String) (L : Labels) (k : String) :
    k ∈ (withIdentity inst shard ns L).keys ↔ k ∈ identityLabels ∨ k ∈ L.keys := by
  unfold withIdentity identityLabels
  simp only [Labels.mem_keys_set, List.mem_cons, List.mem_singleton, List.not_mem_nil, or_false]
  tauto

theorem metricLabels_eq_withIdentity (name inst shard ns x : String) :
    metricLabels name inst shard ns x = withIdentity inst shard ns (Labels.empty.set name x) :=
  rfl

theorem DimensionKeys_withIdentity (dims : List String) (inst shard ns : String) (L : Labels)
    (h : DimensionKeys dims L) : DimensionKeys dims (withIdentity inst shard ns L) := by
  obtain ⟨h1, k, hk, hkd⟩ := h
  refine ⟨?_, k, (mem_keys_withIdentity inst shard ns L k).mpr (Or.inr hk), hkd⟩
  intro k2 hk2
  rcases (mem_keys_withIdentity inst shard ns L k2).mp hk2 with h | h
  · exact Or.inl h
  · exact h1 k2 h

theorem HasShape_withIdentity (dims : List String) (inst shard ns : String) (L : Labels)
    (h : DimensionKeys dims L) : HasShape dims inst shard ns (withIdentity inst shard ns L) :=
  ⟨(withIdentity_get? inst shard ns L).1, (withIdentity_get? inst shard ns L).2.1,
    (withIdentity_get? inst shard ns L).2.2, DimensionKeys_withIdentity dims inst shard ns L h⟩

theorem DimensionKeys_single (dims : List String) (name x : String) (h : name ∈ dims) :
    DimensionKeys dims (Labels.empty.set name x) := by
  refine ⟨?_, name, (Labels.mem_keys_set _ _ _ _).mpr (Or.inl rfl), h⟩
  intro k hk
  rcases (Labels.mem_keys_set _ _ _ _).mp hk with h1 | h1
  · exact Or.inr (h1 ▸ h)
  · simp [Labels.empty, Labels.keys] at h1

theorem DimensionKeys_metricAndLabel (metric label : String) :
    DimensionKeys dimensionLabels (metricAndLabel metric label) := by
  unfold metricAndLabel
  refine ⟨?_, "label", (Labels.mem_keys_set _ _ _ _).mpr (Or.inl rfl), by decide⟩
  intro k hk
  rcases (Labels.mem_keys_set _ _ _ _).mp hk with h1 | h1
  · exact Or.inr (by rw [h1]; decide)
  · rcases (Labels.mem_keys_set _ _ _ _).mp h1 with h2 | h2
    · exact Or.inr (by rw [h2]; decide)
    · simp [Labels.empty, Labels.keys] at h2

theorem HasShape_metricLabels (dims : List String) (name inst shard ns x : String)
    (h : name ∈ dims) : HasShape dims inst shard ns (metricLabels name inst shard ns x) := by
  rw [metricLabels_eq_withIdentity]
  exact HasShape_withIdentity dims inst shard ns _ (DimensionKeys_single dims name x h)

theorem updateMetric.setLoop_ops_labels (mk : String → Labels) (l : List LabelValuePair) :
    ∀ (idx : Nat) (g : GaugeVec) (ops : List StoreOp) (nt : Array10 String),
      ∀ op ∈ (updateMetric.setLoop mk l idx g ops nt).ops, op ∈ ops ∨ ∃ x, op.labels = mk x := by
  induction l with
  | nil => intro idx g ops nt op hop; exact Or.inl hop
  | cons p l ih =>
    intro idx g ops nt op hop
    unfold updateMetric.setLoop at hop
    by_cases hp : p.Label = ""
    · rw [if_pos hp] at hop; exact Or.inl hop
    · rw [if_neg hp] at hop
      cases hg : g.GetMetricWith (mk p.Label) with
      | none =>
        rw [hg] at hop
        rcases List.mem_append.mp hop with h | h
        · exact Or.inl h
        · rw [List.mem_singleton] at h
          exact Or.inr ⟨p.Label, by rw [h]; rfl⟩
      | some g1 =>
        rw [hg] at hop
        rcases ih _ _ _ _ op hop with h | h
        · rcases List.mem_append.mp h with h | h
          · exact Or.inl h
          · simp only [List.mem_cons, List.mem_singleton, List.not_mem_nil, or_false] at h
            rcases h with h | h
            · exact Or.inr ⟨p.Label, by rw [h]; rfl⟩
            · exact Or.inr ⟨p.Label, by rw [h]; rfl⟩
        · exact Or.inr h

theorem updateMetric.deleteLoop_ops_labels (mk : String → Labels) (new : List LabelValuePair)
    (tracked : List String) :
    ∀ (g : GaugeVec) (ops : List StoreOp),
      ∀ op ∈ (updateMetric.deleteLoop mk new tracked g ops).2,
        op ∈ ops ∨ ∃ x, op.labels = mk x := by
  intro g ops op hop
  rw [updateMetric.deleteLoop_eq] at hop
  rcases List.mem_append.mp hop with h | h
  · exact Or.inl h
  · rw [List.mem_map] at h
    obtain ⟨x, _, hx⟩ := h
    exact Or.inr ⟨x, by rw [← hx]; rfl⟩

/-- Every request of `updateMetric` carries a label set built from a name by
the map literal of the function. -/
theorem updateMetric_ops_labels (Metric : GaugeVec) (new : Array10 LabelValuePair)
    (tracked : Array10 String) (inst shard ns name : String) :
    ∀ op ∈ (updateMetric Metric new tracked inst shard ns name).ops,
      ∃ x, op.labels = metricLabels name inst shard ns x := by
  intro op hop
  unfold updateMetric at hop
  simp only at hop
  cases herr : (updateMetric.setLoop (metricLabels name inst shard ns) new.toList 0 Metric []
      (Array10.zero "")).err with
  | some e =>
    rw [herr] at hop
    rcases updateMetric.setLoop_ops_labels _ _ _ _ _ _ op hop with h | h
    · cases h
    · exact h
  | none =>
    rw [herr] at hop
    rcases updateMetric.deleteLoop_ops_labels _ _ _ _ _ op hop with h | h
    · rcases updateMetric.setLoop_ops_labels _ _ _ _ _ _ op h with h | h
      · cases h
      · exact h
    · exact h

/-! ## Fail-fast primary exposure -/

theorem updateMetric_tracked_of_err (Metric : GaugeVec) (new : Array10 LabelValuePair)
    (tracked : Array10 String) (inst shard ns name : String) (e : Error)
    (h : (updateMetric Metric new tracked inst shard ns name).err = some e) :
    (updateMetric Metric new tracked inst shard ns name).tracked = tracked := by
  unfold updateMetric at h ⊢
  simp only at h ⊢
  cases herr : (updateMetric.setLoop (metricLabels name inst shard ns) new.toList 0 Metric []
      (Array10.zero "")).err with
  | some e2 => rfl
  | none => rw [herr] at h; simp at h

/-- What `ExposeTSDBStatus` returns, in terms of the four reconciles. -/
theorem ExposeTSDBStatus_eq (p : PrometheusCardinalityInstance) (g : PerDimension GaugeVec) :
    ExposeTSDBStatus p g =
      match (primaryReconciles p g).seriesCountByMetricName.err with
      | some e =>
        ⟨{ p with TrackedLabels := { p.TrackedLabels with
            SeriesCountByMetricNameLabels :=
              (primaryReconciles p g).seriesCountByMetricName.tracked } },
          { g with seriesCountByMetricName :=
              (primaryReconciles p g).seriesCountByMetricName.gauge },
          ⟨(primaryReconciles p g).seriesCountByMetricName.ops, [], [], []⟩, some e⟩
      | none =>
      match (primaryReconciles p g).labelValueCountByLabelName.err with
      | some e =>
        ⟨{ p with TrackedLabels := { p.TrackedLabels with
            SeriesCountByMetricNameLabels :=
              (primaryReconciles p g).seriesCountByMetricName.tracked
            LabelValueCountByLabelNameLabels :=
              (primaryReconciles p g).labelValueCountByLabelName.tracked } },
          { g with
            seriesCountByMetricName := (primaryReconciles p g).seriesCountByMetricName.gauge
            labelValueCountByLabelName :=
              (primaryReconciles p g).labelValueCountByLabelName.gauge },
          ⟨(primaryReconciles p g).seriesCountByMetricName.ops,
            (primaryReconciles p g).labelValueCountByLabelName.ops, [], []⟩, some e⟩
      | none =>
      match (primaryReconciles p g).memoryInBytesByLabelName.err with
      | some e =>
        ⟨{ p with TrackedLabels := { p.TrackedLabels with
            SeriesCountByMetricNameLabels :=
              (primaryReconciles p g).seriesCountByMetricName.tracked
            LabelValueCountByLabelNameLabels :=
              (primaryReconciles p g).labelValueCountByLabelName.tracked
            MemoryInBytesByLabelNameLabels :=
              (primaryReconciles p g).memoryInBytesByLabelName.tracked } },
          { g with
            seriesCountByMetricName := (primaryReconciles p g).seriesCountByMetricName.gauge
            labelValueCountByLabelName :=
              (primaryReconciles p g).labelValueCountByLabelName.gauge
            memoryInBytesByLabelName := (primaryReconciles p g).memoryInBytesByLabelName.gauge },
          ⟨(primaryReconciles p g).seriesCountByMetricName.ops,
            (primaryReconciles p g).labelValueCountByLabelName.ops,
            (primaryReconciles p g).memoryInBytesByLabelName.ops, []⟩, some e⟩
      | none =>
        ⟨{ p with TrackedLabels := { p.TrackedLabels with
            SeriesCountByMetricNameLabels :=
              (primaryReconciles p g).seriesCountByMetricName.tracked
            LabelValueCountByLabelNameLabels :=
              (primaryReconciles p g).labelValueCountByLabelName.tracked
            MemoryInBytesByLabelNameLabels :=
              (primaryReconciles p g).memoryInBytesByLabelName.tracked
            SeriesCountByLabelValuePairLabels :=
              (primaryReconciles p g).seriesCountByLabelValuePair.tracked } },
          ⟨(primaryReconciles p g).seriesCountByMetricName.gauge,
            (primaryReconciles p g).labelValueCountByLabelName.gauge,
            (primaryReconciles p g).memoryInBytesByLabelName.gauge,
            (primaryReconciles p g).seriesCountByLabelValuePair.gauge⟩,
          ⟨(primaryReconciles p g).seriesCountByMetricName.ops,
            (primaryReconciles p g).labelValueCountByLabelName.ops,
            (primaryReconciles p g).memoryInBytesByLabelName.ops,
            (primaryReconciles p g).seriesCountByLabelValuePair.ops⟩,
          (primaryReconciles p g).seriesCountByLabelValuePair.err⟩ := by
  unfold ExposeTSDBStatus primaryReconciles
  simp only

/-- C9: `ExposeTSDBStatus` reconciles series-count-by-metric-name,
label-value-count-by-label-name, memory-bytes-by-label-name and
series-count-by-label-value-pair in this order, each against its own tracked
sequence. If the reconcile of a dimension fails with `e`, `ExposeTSDBStatus`
returns `e`; the tracked sequences of that dimension and of the later ones are
those before the call, the later dimensions receive no request and their
stores are untouched, and the earlier dimensions hold the tracked sequences
their reconciles returned. -/
theorem ExposeTSDBStatus_fail_fast (p : PrometheusCardinalityInstance)
    (g : PerDimension GaugeVec) (e : Error) :
    ((primaryReconciles p g).seriesCountByMetricName.err = some e →
      (ExposeTSDBStatus p g).err = some e ∧
      primaryTracked (ExposeTSDBStatus p g).inst = primaryTracked p ∧
      (ExposeTSDBStatus p g).ops =
        ⟨(primaryReconciles p g).seriesCountByMetricName.ops, [], [], []⟩ ∧
      (ExposeTSDBStatus p g).gauges =
        ⟨(primaryReconciles p g).seriesCountByMetricName.gauge, g.labelValueCountByLabelName,
          g.memoryInBytesByLabelName, g.seriesCountByLabelValuePair⟩) ∧
    ((primaryReconciles p g).seriesCountByMetricName.err = none →
      (primaryReconciles p g).labelValueCountByLabelName.err = some e →
      (ExposeTSDBStatus p g).err = some e ∧
      primaryTracked (ExposeTSDBStatus p g).inst =
        ⟨(primaryReconciles p g).seriesCountByMetricName.tracked,
          p.TrackedLabels.LabelValueCountByLabelNameLabels,
          p.TrackedLabels.MemoryInBytesByLabelNameLabels,
          p.TrackedLabels.SeriesCountByLabelValuePairLabels⟩ ∧
      (ExposeTSDBStatus p g).ops =
        ⟨(primaryReconciles p g).seriesCountByMetricName.ops,
          (primaryReconciles p g).labelValueCountByLabelName.ops, [], []⟩ ∧
      (ExposeTSDBStatus p g).gauges =
        ⟨(primaryReconciles p g).seriesCountByMetricName.gauge,
          (primaryReconciles p g).labelValueCountByLabelName.gauge,
          g.memoryInBytesByLabelName, g.seriesCountByLabelValuePair⟩) ∧
    ((primaryReconciles p g).seriesCountByMetricName.err = none →
      (primaryReconciles p g).labelValueCountByLabelName.err = none →
      (primaryReconciles p g).memoryInBytesByLabelName.err = some e →
      (ExposeTSDBStatus p g).err = some e ∧
      primaryTracked (ExposeTSDBStatus p g).inst =
        ⟨(primaryReconciles p g).seriesCountByMetricName.tracked,
          (primaryReconciles p g).labelValueCountByLabelName.tracked,
          p.TrackedLabels.MemoryInBytesByLabelNameLabels,
          p.TrackedLabels.SeriesCountByLabelValuePairLabels⟩ ∧
      (ExposeTSDBStatus p g).ops =
        ⟨(primaryReconciles p g).seriesCountByMetricName.ops,
          (primaryReconciles p g).labelValueCountByLabelName.ops,
          (primaryReconciles p g).memoryInBytesByLabelName.ops, []⟩ ∧
      (ExposeTSDBStatus p g).gauges =
        ⟨(primaryReconciles p g).seriesCountByMetricName.gauge,
          (primaryReconciles p g).labelValueCountByLabelName.gauge,
          (primaryReconciles p g).memoryInBytesByLabelName.gauge,
          g.seriesCountByLabelValuePair⟩) ∧
    ((primaryReconciles p g).seriesCountByMetricName.err = none →
      (primaryReconciles p g).labelValueCountByLabelName.err = none →
      (primaryReconciles p g).memoryInBytesByLabelName.err = none →
      (primaryReconciles p g).seriesCountByLabelValuePair.err = some e →
      (ExposeTSDBStatus p g).err = some e ∧
      primaryTracked (ExposeTSDBStatus p g).inst =
        ⟨(primaryReconciles p g).seriesCountByMetricName.tracked,
          (primaryReconciles p g).labelValueCountByLabelName.tracked,
          (primaryReconciles p g).memoryInBytesByLabelName.tracked,
          p.TrackedLabels.SeriesCountByLabelValuePairLabels⟩ ∧
      (ExposeTSDBStatus p g).ops =
        ⟨(primaryReconciles p g).seriesCountByMetricName.ops,
          (primaryReconciles p g).labelValueCountByLabelName.ops,
          (primaryReconciles p g).memoryInBytesByLabelName.ops,
          (primaryReconciles p g).seriesCountByLabelValuePair.ops⟩) := by
  refine ⟨?_, ?_, ?_, ?_⟩
  · intro h1
    have t1 : (primaryReconciles p g).seriesCountByMetricName.tracked =
        p.TrackedLabels.SeriesCountByMetricNameLabels :=
      updateMetric_tracked_of_err _ _ _ _ _ _ _ e h1
    rw [ExposeTSDBStatus_eq, h1]
    simp only [primaryTracked, t1, true_and]
  · intro h1 h2
    have t2 : (primaryReconciles p g).labelValueCountByLabelName.tracked =
        p.TrackedLabels.LabelValueCountByLabelNameLabels :=
      updateMetric_tracked_of_err _ _ _ _ _ _ _ e h2
    rw [ExposeTSDBStatus_eq, h1]
    simp only [h2, primaryTracked, t2, true_and]
  · intro h1 h2 h3
    have t3 : (primaryReconciles p g).memoryInBytesByLabelName.tracked =
        p.TrackedLabels.MemoryInBytesByLabelNameLabels :=
      updateMetric_tracked_of_err _ _ _ _ _ _ _ e h3
    rw [ExposeTSDBStatus_eq, h1]
    simp only [h2, h3, primaryTracked, t3, true_and]
  · intro h1 h2 h3 h4
    have t4 : (primaryReconciles p g).seriesCountByLabelValuePair.tracked =
        p.TrackedLabels.SeriesCountByLabelValuePairLabels :=
      updateMetric_tracked_of_err _ _ _ _ _ _ _ e h4
    rw [ExposeTSDBStatus_eq, h1]
    simp only [h2, h3, h4, primaryTracked, t4, true_and]

/-- C9 at a concrete input: the store of label-value-count-by-label-name
rejects everything. The error of that dimension is returned, the first
dimension holds its new tracked sequence, the second and later ones hold what
they held before, and the third and fourth stores receive no request. -/
theorem ExposeTSDBStatus_fail_fast_witness :
    (ExposeTSDBStatus
        (instanceTracking (dataOf [("up", 1)] [("job", 2)]) ⟨["gone"], ["old"], ["mem"], []⟩)
        ⟨storeOf [], storeRejecting (fun _ => true), storeOf [], storeOf []⟩).err
      = some (Error.updatingLabelName "job") ∧
    primaryTracked (ExposeTSDBStatus
        (instanceTracking (dataOf [("up", 1)] [("job", 2)]) ⟨["gone"], ["old"], ["mem"], []⟩)
        ⟨storeOf [], storeRejecting (fun _ => true), storeOf [], storeOf []⟩).inst
      = ⟨trackedOf ["up"], trackedOf ["old"], trackedOf ["mem"], trackedOf []⟩ ∧
    (ExposeTSDBStatus
        (instanceTracking (dataOf [("up", 1)] [("job", 2)]) ⟨["gone"], ["old"], ["mem"], []⟩)
        ⟨storeOf [], storeRejecting (fun _ => true), storeOf [],
          storeOf []⟩).ops.memoryInBytesByLabelName = [] := by
  have h := (ExposeTSDBStatus_fail_fast
    (instanceTracking (dataOf [("up", 1)] [("job", 2)]) ⟨["gone"], ["old"], ["mem"], []⟩)
    ⟨storeOf [], storeRejecting (fun _ => true), storeOf [], storeOf []⟩
    (Error.updatingLabelName "job")).2.1 (by decide) (by decide)
  refine ⟨h.1, ?_, ?_⟩
  · rw [h.2.1]; decide
  · rw [h.2.2.1]

theorem mem_allOps_ExposeTSDBStatus (p : PrometheusCardinalityInstance)
    (g : PerDimension GaugeVec) :
    ∀ op ∈ (ExposeTSDBStatus p g).allOps,
      op ∈ (primaryReconciles p g).seriesCountByMetricName.ops ∨
      op ∈ (primaryReconciles p g).labelValueCountByLabelName.ops ∨
      op ∈ (primaryReconciles p g).memoryInBytesByLabelName.ops ∨
      op ∈ (primaryReconciles p g).seriesCountByLabelValuePair.ops := by
  intro op hop
  rw [ExposeTSDBStatus_eq] at hop
  cases h1 : (primaryReconciles p g).seriesCountByMetricName.err with
  | some e =>
    rw [h1] at hop
    simp only [Exposed.allOps, List.append_nil] at hop
    exact Or.inl hop
  | none =>
    rw [h1] at hop
    cases h2 : (primaryReconciles p g).labelValueCountByLabelName.err with
    | some e =>
      simp only [h2, Exposed.allOps, List.append_nil, List.mem_append] at hop
      tauto
    | none =>
      cases h3 : (primaryReconciles p g).memoryInBytesByLabelName.err with
      | some e =>
        simp only [h2, h3, Exposed.allOps, List.append_nil, List.mem_append] at hop
        tauto
      | none =>
        simp only [h2, h3, Exposed.allOps, List.mem_append] at hop
        tauto

/-- Every request of `ExposeTSDBStatus` has the shape of a primary series:
the identity labels of the instance and one of `metric`, `label`, `label_pair`. -/
theorem ExposeTSDBStatus_shape (p : PrometheusCardinalityInstance) (g : PerDimension GaugeVec) :
    ∀ op ∈ (ExposeTSDBStatus p g).allOps,
      HasShape dimensionLabels p.InstanceName p.ShardedInstanceName p.Namespace op.labels := by
  intro op hop
  rcases mem_allOps_ExposeTSDBStatus p g op hop with h | h | h | h
  · obtain ⟨x, hx⟩ := updateMetric_ops_labels _ _ _ _ _ _ _ op h
    rw [hx]; exact HasShape_metricLabels _ _ _ _ _ _ (by decide)
  · obtain ⟨x, hx⟩ := updateMetric_ops_labels _ _ _ _ _ _ _ op h
    rw [hx]; exact HasShape_metricLabels _ _ _ _ _ _ (by decide)
  · obtain ⟨x, hx⟩ := updateMetric_ops_labels _ _ _ _ _ _ _ op h
    rw [hx]; exact HasShape_metricLabels _ _ _ _ _ _ (by decide)
  · obtain ⟨x, hx⟩ := updateMetric_ops_labels _ _ _ _ _ _ _ op h
    rw [hx]; exact HasShape_metricLabels _ _ _ _ _ _ (by decide)

theorem updateMetricByPrometheusLabels.setLoop_spec (ident : Labels → Labels)
    (l : List PrometheusLabelValuePair) :
    ∀ (idx : Nat) (g : GaugeVec) (ops : List StoreOp) (nt : Array10 Labels)
      (done : List PrometheusLabelValuePair),
      (∀ op ∈ (updateMetricByPrometheusLabels.setLoop ident l idx g ops nt done).ops,
        op ∈ ops ∨ ∃ q ∈ l, q.Labels.len ≠ 0 ∧ op.labels = ident q.Labels) ∧
      (∀ L ∈ (updateMetricByPrometheusLabels.setLoop ident l idx g ops nt done).newTracked.toList,
        L ∈ nt.toList ∨ ∃ q ∈ l, q.Labels.len ≠ 0 ∧ L = ident q.Labels) := by
  induction l with
  | nil =>
    intro idx g ops nt done
    exact ⟨fun op hop => Or.inl hop, fun L hL => Or.inl hL⟩
  | cons p l ih =>
    intro idx g ops nt done
    unfold updateMetricByPrometheusLabels.setLoop
    by_cases hp : p.Labels.len = 0
    · rw [if_pos hp]
      exact ⟨fun op hop => Or.inl hop, fun L hL => Or.inl hL⟩
    · rw [if_neg hp]
      cases hg : g.GetMetricWith (ident p.Labels) with
      | none =>
        refine ⟨?_, fun L hL => Or.inl hL⟩
        intro op hop
        rcases List.mem_append.mp hop with h | h
        · exact Or.inl h
        · rw [List.mem_singleton] at h
          exact Or.inr ⟨p, List.mem_cons_self _ _, hp, by rw [h]; rfl⟩
      | some g1 =>
        obtain ⟨ih1, ih2⟩ := ih (idx + 1) (g1.Set (ident p.Labels) (float64 p.Value))
          (ops ++ [StoreOp.getMetricWith (ident p.Labels), StoreOp.set (ident p.Labels) (float64 p.Value)])
          (nt.set idx (ident p.Labels)) (done ++ [⟨ident p.Labels, p.Value⟩])
        refine ⟨?_, ?_⟩
        · intro op hop
          rcases ih1 op hop with h | ⟨q, hq, hq2⟩
          · rcases List.mem_append.mp h with h | h
            · exact Or.inl h
            · simp only [List.mem_cons, List.mem_singleton, List.not_mem_nil, or_false] at h
              rcases h with h | h
              · exact Or.inr ⟨p, List.mem_cons_self _ _, hp, by rw [h]; rfl⟩
              · exact Or.inr ⟨p, List.mem_cons_self _ _, hp, by rw [h]; rfl⟩
          · exact Or.inr ⟨q, List.mem_cons_of_mem _ hq, hq2⟩
        · intro L hL
          rcases ih2 L hL with h | ⟨q, hq, hq2⟩
          · rcases List.mem_or_eq_of_mem_set h with h | h
            · exact Or.inl h
            · exact Or.inr ⟨p, List.mem_cons_self _ _, hp, h⟩
          · exact Or.inr ⟨q, List.mem_cons_of_mem _ hq, hq2⟩

theorem mem_staleLabels (new : List PrometheusLabelValuePair) (tracked : List Labels)
    (L : Labels) (h : L ∈ staleLabels new tracked) : L ∈ tracked ∧ L.len ≠ 0 := by
  unfold staleLabels at h
  rw [List.mem_filter, Bool.and_eq_true] at h
  refine ⟨h.1, ?_⟩
  have := of_decide_eq_true h.2.2
  omega

/-- Where the requests and the two tracked arrays of
`updateMetricByPrometheusLabels` come from: every request carries the
rewritten label set of a non-empty new slot or of a non-empty tracked slot,
and every returned label set is empty, such a rewritten set, or a tracked one. -/
theorem updateMetricByPrometheusLabels_spec (Metric : GaugeVec)
    (new : Array10 PrometheusLabelValuePair) (tracked : Array10 Labels)
    (inst shard ns : String) :
    (∀ op ∈ (updateMetricByPrometheusLabels Metric new tracked inst shard ns).ops,
      (∃ q ∈ new.toList, q.Labels.len ≠ 0 ∧ op.labels = withIdentity inst shard ns q.Labels) ∨
      (∃ L ∈ tracked.toList, L.len ≠ 0 ∧ op.labels = withIdentity inst shard ns L)) ∧
    (∀ L ∈ (updateMetricByPrometheusLabels Metric new tracked inst shard ns).tracked.toList,
      L.len = 0 ∨ (∃ q ∈ new.toList, q.Labels.len ≠ 0 ∧ L = withIdentity inst shard ns q.Labels) ∨
        L ∈ tracked.toList) ∧
    (∀ L ∈ (updateMetricByPrometheusLabels Metric new tracked inst shard ns).trackedInPlace.toList,
      L ∈ tracked.toList ∨
        ∃ L0 ∈ tracked.toList, L0.len ≠ 0 ∧ L = withIdentity inst shard ns L0) := by
  have hs := updateMetricByPrometheusLabels.setLoop_spec (withIdentity inst shard ns) new.toList
    0 Metric [] (Array10.zero Labels.empty) []
  unfold updateMetricByPrometheusLabels
  simp only
  cases herr : (updateMetricByPrometheusLabels.setLoop (withIdentity inst shard ns) new.toList 0
      Metric [] (Array10.zero Labels.empty) []).err with
  | some e =>
    refine ⟨?_, fun L hL => Or.inr (Or.inr hL), fun L hL => Or.inl hL⟩
    intro op hop
    rcases hs.1 op hop with h | h
    · cases h
    · exact Or.inl h
  | none =>
    refine ⟨?_, ?_, ?_⟩
    · intro op hop
      simp only [updateMetricByPrometheusLabels.labelsDeleteLoop_eq] at hop
      rcases List.mem_append.mp hop with h | h
      · rcases hs.1 op h with h | h
        · cases h
        · exact Or.inl h
      · rw [List.mem_map] at h
        obtain ⟨L, hL, hop2⟩ := h
        have := mem_staleLabels _ _ L hL
        exact Or.inr ⟨L, this.1, this.2, by rw [← hop2]; rfl⟩
    · intro L hL
      rcases hs.2 L hL with h | h
      · left
        simp only [Array10.zero, Array10.toList] at h
        rw [(List.mem_replicate.mp h).2]
        rfl
      · exact Or.inr (Or.inl h)
    · intro L hL
      simp only [updateMetricByPrometheusLabels.rewritten, Array10.toList, List.mem_map] at hL
      obtain ⟨L0, hL0, hLe⟩ := hL
      split_ifs at hLe with hc
      · right
        rw [Bool.and_eq_true] at hc
        have := of_decide_eq_true hc.2
        exact ⟨L0, hL0, by omega, hLe.symm⟩
      · left
        rw [← hLe]; exact hL0

/-! ## The tracking tables -/

theorem TrackingTable.has_iff (t : TrackingTable) (k : String) :
    t.has k = true ↔ ∃ e ∈ t.entries, e.1 = k := by
  unfold TrackingTable.has
  rw [List.any_eq_true]
  constructor
  · rintro ⟨e, he, h⟩; exact ⟨e, he, of_decide_eq_true h⟩
  · rintro ⟨e, he, h⟩; exact ⟨e, he, decide_eq_true h⟩

theorem TrackingTable.has_rewrite (t : TrackingTable) (k k2 : String) (v : Array10 Labels)
    (h : t.has k2 = true) : (t.rewrite k v).has k2 = true := by
  rw [TrackingTable.has_iff] at h ⊢
  obtain ⟨e, he, hk⟩ := h
  unfold TrackingTable.rewrite
  by_cases hek : e.1 = k
  · exact ⟨(k, v), List.mem_map.mpr ⟨e, he, by simp [hek]⟩, hek.symm.trans hk⟩
  · exact ⟨e, List.mem_map.mpr ⟨e, he, by simp [hek]⟩, hk⟩

theorem TrackingTable.has_set (t : TrackingTable) (k k2 : String) (v : Array10 Labels)
    (h : t.has k2 = true) : (t.set k v).has k2 = true := by
  unfold TrackingTable.set
  by_cases hk : t.has k = true
  · rw [if_pos hk]
    exact TrackingTable.has_rewrite t k k2 v h
  · rw [if_neg hk]
    rw [TrackingTable.has_iff] at h ⊢
    obtain ⟨e, he, hek⟩ := h
    exact ⟨e, List.mem_append_left _ he, hek⟩

theorem TrackingTable.has_set_self (t : TrackingTable) (k : String) (v : Array10 Labels) :
    (t.set k v).has k = true := by
  unfold TrackingTable.set
  by_cases hk : t.has k = true
  · rw [if_pos hk]
    exact TrackingTable.has_rewrite t k k v hk
  · rw [if_neg hk, TrackingTable.has_iff]
    exact ⟨(k, v), List.mem_append_right _ (List.mem_singleton_self _), rfl⟩

theorem TrackingTable.WellFormed_rewrite (dims : List String) (t : TrackingTable) (k : String)
    (v : Array10 Labels) (ht : t.WellFormed dims)
    (hv : ∀ L ∈ v.toList, L.len = 0 ∨ DimensionKeys dims L) :
    (t.rewrite k v).WellFormed dims := by
  intro e he L hL
  simp only [TrackingTable.rewrite, List.mem_map] at he
  obtain ⟨e0, he0, hee⟩ := he
  by_cases hk : e0.1 = k
  · rw [if_pos hk] at hee
    rw [← hee] at hL
    exact hv L hL
  · rw [if_neg hk] at hee
    rw [← hee] at hL
    exact ht e0 he0 L hL

theorem TrackingTable.WellFormed_set (dims : List String) (t : TrackingTable) (k : String)
    (v : Array10 Labels) (ht : t.WellFormed dims)
    (hv : ∀ L ∈ v.toList, L.len = 0 ∨ DimensionKeys dims L) :
    (t.set k v).WellFormed dims := by
  unfold TrackingTable.set
  by_cases hk : t.has k = true
  · rw [if_pos hk]
    exact TrackingTable.WellFormed_rewrite dims t k v ht hv
  · rw [if_neg hk]
    intro e he L hL
    rcases List.mem_append.mp he with h | h
    · exact ht e h L hL
    · rw [List.mem_singleton] at h
      rw [h] at hL
      exact hv L hL

theorem Array10.zero_empty_wellFormed (dims : List String) :
    ∀ L ∈ (Array10.zero Labels.empty).toList, L.len = 0 ∨ DimensionKeys dims L := by
  intro L hL
  left
  simp only [Array10.zero, Array10.toList] at hL
  rw [(List.mem_replicate.mp hL).2]
  rfl

theorem TrackingTable.WellFormed_get (dims : List String) (t : TrackingTable) (k : String)
    (ht : t.WellFormed dims) : ∀ L ∈ (t.get k).toList, L.len = 0 ∨ DimensionKeys dims L := by
  unfold TrackingTable.get
  cases hf : t.entries.find? (fun e => e.1 = k) with
  | none => exact Array10.zero_empty_wellFormed dims
  | some e =>
    intro L hL
    exact ht e (List.mem_of_find?_eq_some hf) L hL

theorem TrackingTable.WellFormed_nil (dims : List String) :
    TrackingTable.nil.WellFormed dims := by
  intro e he
  cases he

/-! ## The expansion steps -/

theorem DimensionKeys_of_expanded (f : LabelValuePair → Labels)
    (hf : ∀ pair, DimensionKeys dimensionLabels (f pair))
    (data : Array10 LabelValuePair) :
    ∀ q ∈ (data.map (fun pair =>
        if pair.Label ≠ "" then (⟨f pair, pair.Value⟩ : PrometheusLabelValuePair)
        else PrometheusLabelValuePair.zero)).toList,
      q.Labels.len ≠ 0 → DimensionKeys dimensionLabels q.Labels := by
  intro q hq hlen
  simp only [Array10.map, Array10.toList, List.mem_map] at hq
  obtain ⟨pair, _, hpq⟩ := hq
  by_cases hp : pair.Label ≠ ""
  · rw [if_pos hp] at hpq
    rw [← hpq]
    exact hf pair
  · rw [if_neg hp] at hpq
    rw [← hpq] at hlen
    exact absurd rfl hlen

/-- The label-set reconciler, called on a new list and a tracked array whose
non-empty label sets have dimension keys, makes requests of the right shape
and returns arrays of the same kind. -/
theorem updateMetricByPrometheusLabels_shape (Metric : GaugeVec)
    (new : Array10 PrometheusLabelValuePair) (tracked : Array10 Labels)
    (inst shard ns : String)
    (hnew : ∀ q ∈ new.toList, q.Labels.len ≠ 0 → DimensionKeys dimensionLabels q.Labels)
    (htr : ∀ L ∈ tracked.toList, L.len = 0 ∨ DimensionKeys dimensionLabels L) :
    (∀ op ∈ (updateMetricByPrometheusLabels Metric new tracked inst shard ns).ops,
      HasShape dimensionLabels inst shard ns op.labels) ∧
    (∀ L ∈ (updateMetricByPrometheusLabels Metric new tracked inst shard ns).tracked.toList,
      L.len = 0 ∨ DimensionKeys dimensionLabels L) ∧
    (∀ L ∈ (updateMetricByPrometheusLabels Metric new tracked inst shard ns).trackedInPlace.toList,
      L.len = 0 ∨ DimensionKeys dimensionLabels L) := by
  obtain ⟨h1, h2, h3⟩ := updateMetricByPrometheusLabels_spec Metric new tracked inst shard ns
  refine ⟨?_, ?_, ?_⟩
  · intro op hop
    rcases h1 op hop with ⟨q, hq, hlen, hl⟩ | ⟨L, hL, hlen, hl⟩
    · rw [hl]; exact HasShape_withIdentity _ _ _ _ _ (hnew q hq hlen)
    · rw [hl]
      rcases htr L hL with h | h
      · exact absurd h hlen
      · exact HasShape_withIdentity _ _ _ _ _ h
  · intro L hL
    rcases h2 L hL with h | ⟨q, hq, hlen, hl⟩ | h
    · exact Or.inl h
    · right; rw [hl]; exact DimensionKeys_withIdentity _ _ _ _ _ (hnew q hq hlen)
    · exact htr L h
  · intro L hL
    rcases h3 L hL with h | ⟨L0, hL0, hlen, hl⟩
    · exact htr L h
    · right
      rw [hl]
      rcases htr L0 hL0 with h | h
      · exact absurd h hlen
      · exact DimensionKeys_withIdentity _ _ _ _ _ h

theorem exposeSeriesCountByMetricsNamePerLabel_shape (env : Env)
    (p : PrometheusCardinalityInstance) (label : String) (g : GaugeVec)
    (hwf : TablesWellFormed dimensionLabels p) :
    (∀ op ∈ (exposeSeriesCountByMetricsNamePerLabel env p label g).ops,
      HasShape dimensionLabels p.InstanceName p.ShardedInstanceName p.Namespace op.labels) ∧
    TablesWellFormed dimensionLabels (exposeSeriesCountByMetricsNamePerLabel env p label g).inst ∧
    (exposeSeriesCountByMetricsNamePerLabel env p label g).inst.InstanceName = p.InstanceName ∧
    (exposeSeriesCountByMetricsNamePerLabel env p label g).inst.ShardedInstanceName =
      p.ShardedInstanceName ∧
    (exposeSeriesCountByMetricsNamePerLabel env p label g).inst.Namespace = p.Namespace := by
  unfold exposeSeriesCountByMetricsNamePerLabel
  simp only
  split
  · exact ⟨fun op hop => (by cases hop), hwf, rfl, rfl, rfl⟩
  · have hwf2 : (if p.TrackedLabels.SeriesCountByMetricNamePerLabelLabels.has label = true
        then p.TrackedLabels.SeriesCountByMetricNamePerLabelLabels
        else p.TrackedLabels.SeriesCountByMetricNamePerLabelLabels.set label
          (Array10.zero Labels.empty)).WellFormed dimensionLabels := by
      split
      · exact hwf.1
      · exact TrackingTable.WellFormed_set _ _ _ _ hwf.1 (Array10.zero_empty_wellFormed _)
    obtain ⟨h1, h2, _⟩ := updateMetricByPrometheusLabels_shape g _ _
      p.InstanceName p.ShardedInstanceName p.Namespace
      (DimensionKeys_of_expanded (fun pair => metricAndLabel pair.Label label)
        (fun pair => DimensionKeys_metricAndLabel _ _)
        (jsonUnmarshal env (fetchTSDBStatus p env.httpClient
          (env.encodeQuery ("match[]=\x7b" ++ label ++ "!=\x22\x22\x7d")))
          TSDBStatus.zero).1.Data.SeriesCountByMetricName)
      (TrackingTable.WellFormed_get _ _ label hwf2)
    exact ⟨h1, ⟨TrackingTable.WellFormed_set _ _ _ _ hwf2 h2, hwf.2⟩, rfl, rfl, rfl⟩

theorem exposeLabelCountByLabelNameNamePerMetricName_shape (env : Env)
    (p : PrometheusCardinalityInstance) (metricName : String) (g : GaugeVec)
    (hwf : TablesWellFormed dimensionLabels p) :
    (∀ op ∈ (exposeLabelCountByLabelNameNamePerMetricName env p metricName g).ops,
      HasShape dimensionLabels p.InstanceName p.ShardedInstanceName p.Namespace op.labels) ∧
    TablesWellFormed dimensionLabels
      (exposeLabelCountByLabelNameNamePerMetricName env p metricName g).inst ∧
    (exposeLabelCountByLabelNameNamePerMetricName env p metricName g).inst.InstanceName =
      p.InstanceName ∧
    (exposeLabelCountByLabelNameNamePerMetricName env p metricName g).inst.ShardedInstanceName =
      p.ShardedInstanceName ∧
    (exposeLabelCountByLabelNameNamePerMetricName env p metricName g).inst.Namespace =
      p.Namespace := by
  unfold exposeLabelCountByLabelNameNamePerMetricName
  simp only
  split
  · exact ⟨fun op hop => (by cases hop), hwf, rfl, rfl, rfl⟩
  · have hwf2 : (if p.TrackedLabels.LabelValueCountByLabelNamePerMetricNameLabels.has metricName
          = true
        then p.TrackedLabels.LabelValueCountByLabelNamePerMetricNameLabels
        else p.TrackedLabels.LabelValueCountByLabelNamePerMetricNameLabels.set metricName
          (Array10.zero Labels.empty)).WellFormed dimensionLabels := by
      split
      · exact hwf.2
      · exact TrackingTable.WellFormed_set _ _ _ _ hwf.2 (Array10.zero_empty_wellFormed _)
    obtain ⟨h1, h2, h3⟩ := updateMetricByPrometheusLabels_shape g _ _
      p.InstanceName p.ShardedInstanceName p.Namespace
      (DimensionKeys_of_expanded (fun pair => metricAndLabel metricName pair.Label)
        (fun pair => DimensionKeys_metricAndLabel _ _)
        (jsonUnmarshal env (fetchTSDBStatus p env.httpClient
          (env.encodeQuery ("match[]=\x7b__name__=\x22" ++ metricName ++ "\x22\x7d")))
          TSDBStatus.zero).1.Data.LabelValueCountByLabelName)
      (TrackingTable.WellFormed_get _ _ metricName hwf.1)
    exact ⟨h1, ⟨TrackingTable.WellFormed_rewrite _ _ _ _ hwf.1 h3,
      TrackingTable.WellFormed_set _ _ _ _ hwf2 h2⟩, rfl, rfl, rfl⟩

/-! ## The expansion loop -/

/-- An invariant of the instance kept by every step, and a property of the
requests of every step, hold of the whole expansion loop. -/
theorem expandLoop_invariant
    (step : PrometheusCardinalityInstance → String → GaugeVec → Expanded)
    (I : PrometheusCardinalityInstance → Prop) (S : StoreOp → Prop)
    (hstep : ∀ p x g, I p → I (step p x g).inst ∧ ∀ op ∈ (step p x g).ops, S op)
    (l : List LabelValuePair) :
    ∀ (p : PrometheusCardinalityInstance) (g : GaugeVec) (ops : List StoreOp)
      (fetched : List String), I p → (∀ op ∈ ops, S op) →
      I (expandLoop step l p g ops fetched).inst ∧
        ∀ op ∈ (expandLoop step l p g ops fetched).ops, S op := by
  induction l with
  | nil => intro p g ops fetched hI hS; exact ⟨hI, hS⟩
  | cons value rest ih =>
    intro p g ops fetched hI hS
    unfold expandLoop
    by_cases hv : value.Label = ""
    · rw [if_pos hv]; exact ih p g ops fetched hI hS
    · rw [if_neg hv]
      obtain ⟨hI2, hS2⟩ := hstep p value.Label g hI
      have hS3 : ∀ op ∈ ops ++ (step p value.Label g).ops, S op := by
        intro op hop
        rcases List.mem_append.mp hop with h | h
        · exact hS op h
        · exact hS2 op h
      simp only
      cases herr : (step p value.Label g).err with
      | some e => exact ⟨hI2, hS3⟩
      | none => exact ih _ _ _ _ hI2 hS3

theorem ExposeTSDBStatus_tables (p : PrometheusCardinalityInstance) (g : PerDimension GaugeVec) :
    (ExposeTSDBStatus p g).inst.TrackedLabels.SeriesCountByMetricNamePerLabelLabels =
      p.TrackedLabels.SeriesCountByMetricNamePerLabelLabels ∧
    (ExposeTSDBStatus p g).inst.TrackedLabels.LabelValueCountByLabelNamePerMetricNameLabels =
      p.TrackedLabels.LabelValueCountByLabelNamePerMetricNameLabels := by
  rw [ExposeTSDBStatus_eq]
  cases (primaryReconciles p g).seriesCountByMetricName.err with
  | some e => exact ⟨rfl, rfl⟩
  | none =>
    cases (primaryReconciles p g).labelValueCountByLabelName.err with
    | some e => exact ⟨rfl, rfl⟩
    | none =>
      cases (primaryReconciles p g).memoryInBytesByLabelName.err with
      | some e => exact ⟨rfl, rfl⟩
      | none => exact ⟨rfl, rfl⟩

/-- C8 fails as stated: with `job=api` in series-count-by-label-value-pair,
`ExposeTSDBStatus` passes to get-or-create a label set whose dimension key is
`label_pair`, which is neither `metric` nor `label`. -/
theorem label_pair_counterexample :
    StoreOp.getMetricWith (metricLabels "label_pair" "i" "s" "n" "job=api") ∈
      (ExposeTSDBStatus
        (freshInstance ⟨topTen [], topTen [], topTen [], topTen [("job=api", 4)]⟩)
        ⟨storeOf [], storeOf [], storeOf [], storeOf []⟩).allOps ∧
    (metricLabels "label_pair" "i" "s" "n" "job=api").keys =
      ["instance_namespace", "label_pair", "scraped_instance", "sharded_instance"] ∧
    ¬ HasShape ["metric", "label"] "i" "s" "n" (metricLabels "label_pair" "i" "s" "n" "job=api") := by
  decide

/-- C8, amended: in every state whose tracking tables hold label sets with
dimension keys (as the empty tables do, and as every operation leaves them),
each label set that `ExposeTSDBStatus` and the two expansion operations pass to
get-or-create, set or `Delete` carries `scraped_instance`, `sharded_instance`
and `instance_namespace` valued with the instance name, shard name and
namespace, and its other keys are among `metric`, `label` and `label_pair`, at
least one of them. -/
theorem exposed_label_sets_shape (p : PrometheusCardinalityInstance)
    (hwf : TablesWellFormed dimensionLabels p) :
    (∀ g : PerDimension GaugeVec,
      (∀ op ∈ (ExposeTSDBStatus p g).allOps,
        HasShape dimensionLabels p.InstanceName p.ShardedInstanceName p.Namespace op.labels) ∧
      TablesWellFormed dimensionLabels (ExposeTSDBStatus p g).inst) ∧
    (∀ (env : Env) (g : GaugeVec),
      (∀ op ∈ (ExposeSeriesCountByMetricsNamePerLabels env p g).ops,
        HasShape dimensionLabels p.InstanceName p.ShardedInstanceName p.Namespace op.labels) ∧
      TablesWellFormed dimensionLabels (ExposeSeriesCountByMetricsNamePerLabels env p g).inst) ∧
    (∀ (env : Env) (g : GaugeVec),
      (∀ op ∈ (ExposeLabelCountByLabelNameNamePerMetricNames env p g).ops,
        HasShape dimensionLabels p.InstanceName p.ShardedInstanceName p.Namespace op.labels) ∧
      TablesWellFormed dimensionLabels
        (ExposeLabelCountByLabelNameNamePerMetricNames env p g).inst) := by
  refine ⟨?_, ?_, ?_⟩
  · intro g
    refine ⟨ExposeTSDBStatus_shape p g, ?_⟩
    unfold TablesWellFormed
    rw [(ExposeTSDBStatus_tables p g).1, (ExposeTSDBStatus_tables p g).2]
    exact hwf
  · intro env g
    have h := expandLoop_invariant (exposeSeriesCountByMetricsNamePerLabel env)
      (fun q => TablesWellFormed dimensionLabels q ∧ q.InstanceName = p.InstanceName ∧
        q.ShardedInstanceName = p.ShardedInstanceName ∧ q.Namespace = p.Namespace)
      (fun op => HasShape dimensionLabels p.InstanceName p.ShardedInstanceName p.Namespace
        op.labels)
      (by
        intro q x g2 ⟨hq, h1, h2, h3⟩
        obtain ⟨a, b, c1, c2, c3⟩ := exposeSeriesCountByMetricsNamePerLabel_shape env q x g2 hq
        rw [h1, h2, h3] at a
        exact ⟨⟨b, c1.trans h1, c2.trans h2, c3.trans h3⟩, a⟩)
      p.LatestTSDBStatus.Data.LabelValueCountByLabelName.toList p g [] []
      ⟨hwf, rfl, rfl, rfl⟩ (fun op hop => by cases hop)
    exact ⟨h.2, h.1.1⟩
  · intro env g
    have h := expandLoop_invariant (exposeLabelCountByLabelNameNamePerMetricName env)
      (fun q => TablesWellFormed dimensionLabels q ∧ q.InstanceName = p.InstanceName ∧
        q.ShardedInstanceName = p.ShardedInstanceName ∧ q.Namespace = p.Namespace)
      (fun op => HasShape dimensionLabels p.InstanceName p.ShardedInstanceName p.Namespace
        op.labels)
      (by
        intro q x g2 ⟨hq, h1, h2, h3⟩
        obtain ⟨a, b, c1, c2, c3⟩ :=
          exposeLabelCountByLabelNameNamePerMetricName_shape env q x g2 hq
        rw [h1, h2, h3] at a
        exact ⟨⟨b, c1.trans h1, c2.trans h2, c3.trans h3⟩, a⟩)
      p.LatestTSDBStatus.Data.SeriesCountByMetricName.toList p g [] []
      ⟨hwf, rfl, rfl, rfl⟩ (fun op hop => by cases hop)
    exact ⟨h.2, h.1.1⟩

/-- C8 amended, at a concrete input: the get-or-create of the cross-dimensional
series of `up` and `job`, and the one of the primary series `job=api`, have the
stated shape. -/
theorem exposed_label_sets_shape_witness :
    HasShape dimensionLabels "i" "s" "n" (withIdentity "i" "s" "n" (metricAndLabel "up" "job")) ∧
    HasShape dimensionLabels "i" "s" "n" (metricLabels "label_pair" "i" "s" "n" "job=api") := by
  have h := exposed_label_sets_shape
    (freshInstance ⟨topTen [], topTen [("job", 2)], topTen [], topTen [("job=api", 4)]⟩)
    ⟨TrackingTable.WellFormed_nil _, TrackingTable.WellFormed_nil _⟩
  exact ⟨(h.2.1 (envReturning (dataOf [("up", 3)] [])) (storeOf [])).1
      (StoreOp.getMetricWith (withIdentity "i" "s" "n" (metricAndLabel "up" "job")))
      (by decide),
    (h.1 ⟨storeOf [], storeOf [], storeOf [], storeOf []⟩).1
      (StoreOp.getMetricWith (metricLabels "label_pair" "i" "s" "n" "job=api")) (by decide)⟩

/-! ## Tracking tables only grow -/

theorem exposeSeriesCountByMetricsNamePerLabel_keys (env : Env)
    (p : PrometheusCardinalityInstance) (label : String) (g : GaugeVec) (k : String) :
    (p.TrackedLabels.SeriesCountByMetricNamePerLabelLabels.has k = true →
      (exposeSeriesCountByMetricsNamePerLabel env p label
        g).inst.TrackedLabels.SeriesCountByMetricNamePerLabelLabels.has k = true) ∧
    (p.TrackedLabels.LabelValueCountByLabelNamePerMetricNameLabels.has k = true →
      (exposeSeriesCountByMetricsNamePerLabel env p label
        g).inst.TrackedLabels.LabelValueCountByLabelNamePerMetricNameLabels.has k = true) := by
  unfold exposeSeriesCountByMetricsNamePerLabel
  simp only
  split
  · exact ⟨fun h => h, fun h => h⟩
  · refine ⟨fun h => ?_, fun h => h⟩
    apply TrackingTable.has_set
    split
    · exact h
    · exact TrackingTable.has_set _ _ _ _ h

theorem exposeLabelCountByLabelNameNamePerMetricName_keys (env : Env)
    (p : PrometheusCardinalityInstance) (metricName : String) (g : GaugeVec) (k : String) :
    (p.TrackedLabels.SeriesCountByMetricNamePerLabelLabels.has k = true →
      (exposeLabelCountByLabelNameNamePerMetricName env p metricName
        g).inst.TrackedLabels.SeriesCountByMetricNamePerLabelLabels.has k = true) ∧
    (p.TrackedLabels.LabelValueCountByLabelNamePerMetricNameLabels.has k = true →
      (exposeLabelCountByLabelNameNamePerMetricName env p metricName
        g).inst.TrackedLabels.LabelValueCountByLabelNamePerMetricNameLabels.has k = true) := by
  unfold exposeLabelCountByLabelNameNamePerMetricName
  simp only
  split
  · exact ⟨fun h => h, fun h => h⟩
  · refine ⟨fun h => TrackingTable.has_rewrite _ _ _ _ h, fun h => ?_⟩
    apply TrackingTable.has_set
    split
    · exact h
    · exact TrackingTable.has_set _ _ _ _ h

/-- C10: for both expansion operations, every world (fetch answers and decoder),
every instance state and store, and whether the operation succeeds or returns
an error, a key that has an entry in one of the two cross-dimensional tracking
tables before the call has an entry in that table after it. -/
theorem tracking_tables_only_grow (env : Env) (p : PrometheusCardinalityInstance)
    (g : GaugeVec) (k : String) :
    (p.TrackedLabels.SeriesCountByMetricNamePerLabelLabels.has k = true →
      (ExposeSeriesCountByMetricsNamePerLabels env p
        g).inst.TrackedLabels.SeriesCountByMetricNamePerLabelLabels.has k = true) ∧
    (p.TrackedLabels.LabelValueCountByLabelNamePerMetricNameLabels.has k = true →
      (ExposeSeriesCountByMetricsNamePerLabels env p
        g).inst.TrackedLabels.LabelValueCountByLabelNamePerMetricNameLabels.has k = true) ∧
    (p.TrackedLabels.SeriesCountByMetricNamePerLabelLabels.has k = true →
      (ExposeLabelCountByLabelNameNamePerMetricNames env p
        g).inst.TrackedLabels.SeriesCountByMetricNamePerLabelLabels.has k = true) ∧
    (p.TrackedLabels.LabelValueCountByLabelNamePerMetricNameLabels.has k = true →
      (ExposeLabelCountByLabelNameNamePerMetricNames env p
        g).inst.TrackedLabels.LabelValueCountByLabelNamePerMetricNameLabels.has k = true) := by
  have h1 := expandLoop_invariant (exposeSeriesCountByMetricsNamePerLabel env)
    (fun q =>
      (p.TrackedLabels.SeriesCountByMetricNamePerLabelLabels.has k = true →
        q.TrackedLabels.SeriesCountByMetricNamePerLabelLabels.has k = true) ∧
      (p.TrackedLabels.LabelValueCountByLabelNamePerMetricNameLabels.has k = true →
        q.TrackedLabels.LabelValueCountByLabelNamePerMetricNameLabels.has k = true))
    (fun _ => True)
    (by
      intro q x g2 hq
      have := exposeSeriesCountByMetricsNamePerLabel_keys env q x g2 k
      exact ⟨⟨fun h => this.1 (hq.1 h), fun h => this.2 (hq.2 h)⟩, fun _ _ => trivial⟩)
    p.LatestTSDBStatus.Data.LabelValueCountByLabelName.toList p g [] []
    ⟨fun h => h, fun h => h⟩ (fun _ _ => trivial)
  have h2 := expandLoop_invariant (exposeLabelCountByLabelNameNamePerMetricName env)
    (fun q =>
      (p.TrackedLabels.SeriesCountByMetricNamePerLabelLabels.has k = true →
        q.TrackedLabels.SeriesCountByMetricNamePerLabelLabels.has k = true) ∧
      (p.TrackedLabels.LabelValueCountByLabelNamePerMetricNameLabels.has k = true →
        q.TrackedLabels.LabelValueCountByLabelNamePerMetricNameLabels.has k = true))
    (fun _ => True)
    (by
      intro q x g2 hq
      have := exposeLabelCountByLabelNameNamePerMetricName_keys env q x g2 k
      exact ⟨⟨fun h => this.1 (hq.1 h), fun h => this.2 (hq.2 h)⟩, fun _ _ => trivial⟩)
    p.LatestTSDBStatus.Data.SeriesCountByMetricName.toList p g [] []
    ⟨fun h => h, fun h => h⟩ (fun _ _ => trivial)
  exact ⟨h1.1.1, h1.1.2, h2.1.1, h2.1.2⟩

/-- C10 at the input of the claim: the labels `job` and `env` are expanded,
then a snapshot without `env` is expanded. The entry of `env` is still in
the table. -/
theorem tracking_tables_only_grow_witness :
    (ExposeSeriesCountByMetricsNamePerLabels (envReturning (dataOf [("up", 3)] []))
        (withSnapshot
          (ExposeSeriesCountByMetricsNamePerLabels (envReturning (dataOf [("up", 3)] []))
            (freshInstance (dataOf [] [("job", 1), ("env", 2)])) (storeOf [])).inst
          (dataOf [] [("job", 1)]))
        (ExposeSeriesCountByMetricsNamePerLabels (envReturning (dataOf [("up", 3)] []))
          (freshInstance (dataOf [] [("job", 1), ("env", 2)])) (storeOf [])).gauge
      ).inst.TrackedLabels.SeriesCountByMetricNamePerLabelLabels.has "env" = true :=
  (tracking_tables_only_grow (envReturning (dataOf [("up", 3)] []))
    (withSnapshot
      (ExposeSeriesCountByMetricsNamePerLabels (envReturning (dataOf [("up", 3)] []))
        (freshInstance (dataOf [] [("job", 1), ("env", 2)])) (storeOf [])).inst
      (dataOf [] [("job", 1)]))
    (ExposeSeriesCountByMetricsNamePerLabels (envReturning (dataOf [("up", 3)] []))
      (freshInstance (dataOf [] [("job", 1), ("env", 2)])) (storeOf [])).gauge
    "env").1 (by decide)

/-! ## Shape of the returned tracked sequence -/

theorem populated_eq_take (l : List LabelValuePair) : populated l = l.take (firstEmpty l) := by
  unfold populated firstEmpty
  rw [List.takeWhile_eq_take_findIdx_not]
  congr 2
  funext p
  simp

theorem firstEmpty_le_length (l : List LabelValuePair) : firstEmpty l ≤ l.length := by
  unfold firstEmpty
  exact List.findIdx_le_length _

theorem populated_length (l : List LabelValuePair) : (populated l).length = firstEmpty l := by
  rw [populated_eq_take, List.length_take]
  exact Nat.min_eq_left (firstEmpty_le_length l)

theorem recordNames_getElem? (ps : List LabelValuePair) :
    ∀ (nt : Array10 String) (idx i : Nat), idx + ps.length ≤ 10 →
      (recordNames nt idx ps).toList[i]? =
        if idx ≤ i ∧ i < idx + ps.length then (ps[i - idx]?).map (fun p => p.Label)
        else nt.toList[i]? := by
  induction ps with
  | nil =>
    intro nt idx i _
    have : ¬ (idx ≤ i ∧ i < idx + ([] : List LabelValuePair).length) := by
      simp only [List.length_nil, Nat.add_zero]; omega
    rw [if_neg this]
    rfl
  | cons p ps ih =>
    intro nt idx i h
    simp only [List.length_cons] at h
    have hlen : nt.toList.length = 10 := nt.property
    have hset : (nt.set idx p.Label).toList = nt.toList.set idx p.Label := rfl
    simp only [recordNames]
    rw [ih (nt.set idx p.Label) (idx + 1) i (by omega), hset, List.getElem?_set]
    by_cases h1 : i = idx
    · subst h1
      have c1 : ¬ (i + 1 ≤ i ∧ i < i + 1 + ps.length) := by omega
      have c2 : i ≤ i ∧ i < i + (p :: ps).length := by
        simp only [List.length_cons]; omega
      rw [if_neg c1, if_pos c2, if_pos rfl, if_pos (by omega)]
      simp
    · by_cases h2 : idx < i
      · have c1 : idx + 1 ≤ i ∧ i < idx + 1 + ps.length ↔
            idx ≤ i ∧ i < idx + (p :: ps).length := by
          simp only [List.length_cons]; omega
        have hsub : i - idx = (i - (idx + 1)) + 1 := by omega
        by_cases c : idx + 1 ≤ i ∧ i < idx + 1 + ps.length
        · rw [if_pos c, if_pos (c1.mp c), hsub, List.getElem?_cons_succ]
        · rw [if_neg c, if_neg (fun hc => c (c1.mpr hc)), if_neg (fun hh => h1 hh.symm)]
      · have c1 : ¬ (idx + 1 ≤ i ∧ i < idx + 1 + ps.length) := by omega
        have c2 : ¬ (idx ≤ i ∧ i < idx + (p :: ps).length) := by omega
        rw [if_neg c1, if_neg c2, if_neg (fun hh => h1 hh.symm)]

/-- C15: when get-or-create never fails, `updateMetric` returns ten slots;
slot `i` holds the name of slot `i` of the new list for every `i` below the
index of the first empty-name slot (ten if there is none) and the empty
sentinel for every other `i`, and the returned sequence is the same whatever
tracked sequence was passed in. -/
theorem updateMetric_tracked_shape (Metric : GaugeVec) (new : Array10 LabelValuePair)
    (tracked : Array10 String) (inst shard ns name : String)
    (hok : ∀ l, Metric.rejects l = false) :
    (updateMetric Metric new tracked inst shard ns name).tracked.toList.length = 10 ∧
    (∀ i, i < 10 →
      (updateMetric Metric new tracked inst shard ns name).tracked.toList[i]? =
        some (if i < firstEmpty new.toList
          then (new.toList.getD i LabelValuePair.zero).Label else "")) ∧
    (∀ tracked2 : Array10 String,
      (updateMetric Metric new tracked2 inst shard ns name).tracked =
        (updateMetric Metric new tracked inst shard ns name).tracked) := by
  refine ⟨(updateMetric Metric new tracked inst shard ns name).tracked.property, ?_, ?_⟩
  · intro i hi
    rw [updateMetric_of_accepts Metric new tracked inst shard ns name (fun p _ => hok _)]
    have hle : 0 + (populated new.toList).length ≤ 10 := by
      rw [populated_length, Nat.zero_add]
      have := firstEmpty_le_length new.toList
      have hl : new.toList.length = 10 := new.property
      omega
    simp only
    rw [recordNames_getElem? _ _ 0 i hle, populated_length, Nat.zero_add, Nat.sub_zero]
    by_cases hk : i < firstEmpty new.toList
    · have c : 0 ≤ i ∧ i < firstEmpty new.toList := ⟨Nat.zero_le _, hk⟩
      rw [if_pos c, if_pos hk, populated_eq_take, List.getElem?_take_of_lt hk]
      have hl : i < new.toList.length := by
        have hl : new.toList.length = 10 := new.property
        omega
      simp [List.getElem?_eq_getElem hl]
    · have c : ¬ (0 ≤ i ∧ i < firstEmpty new.toList) := fun h => hk h.2
      rw [if_neg c, if_neg hk]
      simp only [Array10.zero, Array10.toList]
      rw [List.getElem?_replicate, if_pos hi]
  · intro tracked2
    rw [updateMetric_of_accepts Metric new tracked inst shard ns name (fun p _ => hok _),
      updateMetric_of_accepts Metric new tracked2 inst shard ns name (fun p _ => hok _)]

/-- C15 at a concrete input: the new list is `a`, `b`, an empty slot, then `x`.
The returned sequence holds `a` and `b` and nothing else, `x` included. -/
theorem updateMetric_tracked_shape_witness :
    (updateMetric (storeOf []) (topTen [("a", 1), ("b", 2), ("", 0), ("x", 5)])
      (trackedOf ["old"]) "i" "s" "n" "metric").tracked.toList =
      ["a", "b", "", "", "", "", "", "", "", ""] := by
  have h := updateMetric_tracked_shape (storeOf [])
    (topTen [("a", 1), ("b", 2), ("", 0), ("x", 5)]) (trackedOf ["old"]) "i" "s" "n" "metric"
    (fun _ => rfl)
  apply List.ext_getElem?
  intro i
  by_cases hi : i < 10
  · rw [h.2.1 i hi]
    have : i = 0 ∨ i = 1 ∨ i = 2 ∨ i = 3 ∨ i = 4 ∨ i = 5 ∨ i = 6 ∨ i = 7 ∨ i = 8 ∨ i = 9 := by
      omega
    rcases this with h | h | h | h | h | h | h | h | h | h <;> subst h <;> decide
  · have h1 : (updateMetric (storeOf []) (topTen [("a", 1), ("b", 2), ("", 0), ("x", 5)])
        (trackedOf ["old"]) "i" "s" "n" "metric").tracked.toList.length ≤ i := by
      rw [h.1]; omega
    rw [List.getElem?_eq_none h1, List.getElem?_eq_none (by simp; omega)]

/-! ## Fetch failure leaves state untouched -/

theorem fetchTSDBStatus_eq_none_iff (p : PrometheusCardinalityInstance)
    (client : PrometheusClient) (query : String) :
    fetchTSDBStatus p client query = none ↔ FetchFails client p query := by
  unfold fetchTSDBStatus FetchFails
  simp only
  cases client (p.InstanceAddress ++ "/api/v1/status/tsdb?" ++ query) p.AuthValue with
  | none => simp
  | some res =>
    simp only
    by_cases h : 200 ≤ res.StatusCode ∧ res.StatusCode < 300
    · have h1 : (decide (res.StatusCode ≥ 200) && decide (res.StatusCode < 300)) = true := by
        simp [h.1, h.2]
      simp [h1, h]
    · have h1 : (decide (res.StatusCode ≥ 200) && decide (res.StatusCode < 300)) = false := by
        rw [Bool.and_eq_false_iff]
        by_cases h2 : 200 ≤ res.StatusCode
        · right; simpa using fun h3 => h ⟨h2, h3⟩
        · left; simpa using h2
      simp [h1, h]

theorem exposeSeriesCountByMetricsNamePerLabel_of_fetch_none (env : Env)
    (p : PrometheusCardinalityInstance) (label : String) (g : GaugeVec)
    (h : fetchTSDBStatus p env.httpClient (env.encodeQuery (labelFilter label)) = none) :
    exposeSeriesCountByMetricsNamePerLabel env p label g =
      ⟨p, g, [], [stepURL env p (labelFilter label)], some Error.cantParseJson⟩ := by
  unfold labelFilter at h
  unfold exposeSeriesCountByMetricsNamePerLabel
  simp only [h, jsonUnmarshal, if_true]
  rfl

theorem exposeLabelCountByLabelNameNamePerMetricName_of_fetch_none (env : Env)
    (p : PrometheusCardinalityInstance) (metricName : String) (g : GaugeVec)
    (h : fetchTSDBStatus p env.httpClient (env.encodeQuery (metricFilter metricName)) = none) :
    exposeLabelCountByLabelNameNamePerMetricName env p metricName g =
      ⟨p, g, [], [stepURL env p (metricFilter metricName)], some Error.cantParseJson⟩ := by
  unfold metricFilter at h
  unfold exposeLabelCountByLabelNameNamePerMetricName
  simp only [h, jsonUnmarshal, if_true]
  rfl

/-- C12: if the fetch fails (transport error, status outside 2xx, or unreadable
body), `PreFetchTSDBStatus` returns an error and the instance it leaves is the
one before the call (the snapshot, the primary tracked sequences and both
tracking tables with it; it has no access to a store). Likewise a per-name
expansion step whose secondary fetch fails returns an error, makes no request
to the store, which is left as it was, and leaves the instance as before. -/
theorem fetch_failure_leaves_state (env : Env) (p : PrometheusCardinalityInstance) :
    (∀ client : PrometheusClient, FetchFails client p "" →
      PreFetchTSDBStatus env p client = (p, some Error.fetchFailed)) ∧
    (∀ (label : String) (g : GaugeVec),
      FetchFails env.httpClient p (env.encodeQuery (labelFilter label)) →
      (exposeSeriesCountByMetricsNamePerLabel env p label g).err = some Error.cantParseJson ∧
      (exposeSeriesCountByMetricsNamePerLabel env p label g).inst = p ∧
      (exposeSeriesCountByMetricsNamePerLabel env p label g).gauge = g ∧
      (exposeSeriesCountByMetricsNamePerLabel env p label g).ops = []) ∧
    (∀ (metricName : String) (g : GaugeVec),
      FetchFails env.httpClient p (env.encodeQuery (metricFilter metricName)) →
      (exposeLabelCountByLabelNameNamePerMetricName env p metricName g).err =
        some Error.cantParseJson ∧
      (exposeLabelCountByLabelNameNamePerMetricName env p metricName g).inst = p ∧
      (exposeLabelCountByLabelNameNamePerMetricName env p metricName g).gauge = g ∧
      (exposeLabelCountByLabelNameNamePerMetricName env p metricName g).ops = []) := by
  refine ⟨?_, ?_, ?_⟩
  · intro client h
    have h1 := (fetchTSDBStatus_eq_none_iff p client "").mpr h
    unfold PreFetchTSDBStatus
    rw [h1]
  · intro label g h
    have h1 := (fetchTSDBStatus_eq_none_iff p env.httpClient _).mpr h
    rw [exposeSeriesCountByMetricsNamePerLabel_of_fetch_none env p label g h1]
    exact ⟨rfl, rfl, rfl, rfl⟩
  · intro metricName g h
    have h1 := (fetchTSDBStatus_eq_none_iff p env.httpClient _).mpr h
    rw [exposeLabelCountByLabelNameNamePerMetricName_of_fetch_none env p metricName g h1]
    exact ⟨rfl, rfl, rfl, rfl⟩

/-- C12 at a concrete input: after a first expansion of label `job` has put a
series in the store and an entry in the table, the primary fetch meets a
transport error and the next expansion of `job` meets status 503. Both return
an error; the instance is the one before and the step makes no store request. -/
theorem fetch_failure_leaves_state_witness :
    PreFetchTSDBStatus envDown
        (exposeSeriesCountByMetricsNamePerLabel (envReturning (dataOf [("up", 3)] []))
          (freshInstance (dataOf [] [("job", 1)])) "job" (storeOf [])).inst
        (fun _ _ => none) =
      ((exposeSeriesCountByMetricsNamePerLabel (envReturning (dataOf [("up", 3)] []))
          (freshInstance (dataOf [] [("job", 1)])) "job" (storeOf [])).inst,
        some Error.fetchFailed) ∧
    (exposeSeriesCountByMetricsNamePerLabel envDown
        (exposeSeriesCountByMetricsNamePerLabel (envReturning (dataOf [("up", 3)] []))
          (freshInstance (dataOf [] [("job", 1)])) "job" (storeOf [])).inst "job"
        (exposeSeriesCountByMetricsNamePerLabel (envReturning (dataOf [("up", 3)] []))
          (freshInstance (dataOf [] [("job", 1)])) "job" (storeOf [])).gauge).ops = [] ∧
    (exposeSeriesCountByMetricsNamePerLabel envDown
        (exposeSeriesCountByMetricsNamePerLabel (envReturning (dataOf [("up", 3)] []))
          (freshInstance (dataOf [] [("job", 1)])) "job" (storeOf [])).inst "job"
        (exposeSeriesCountByMetricsNamePerLabel (envReturning (dataOf [("up", 3)] []))
          (freshInstance (dataOf [] [("job", 1)])) "job" (storeOf [])).gauge).inst =
      (exposeSeriesCountByMetricsNamePerLabel (envReturning (dataOf [("up", 3)] []))
          (freshInstance (dataOf [] [("job", 1)])) "job" (storeOf [])).inst := by
  have h := fetch_failure_leaves_state envDown
    (exposeSeriesCountByMetricsNamePerLabel (envReturning (dataOf [("up", 3)] []))
      (freshInstance (dataOf [] [("job", 1)])) "job" (storeOf [])).inst
  have h2 := h.2.1 "job"
    (exposeSeriesCountByMetricsNamePerLabel (envReturning (dataOf [("up", 3)] []))
      (freshInstance (dataOf [] [("job", 1)])) "job" (storeOf [])).gauge
    (Or.inl (by decide))
  exact ⟨h.1 (fun _ _ => none) trivial, h2.2.2.2, h2.2.1⟩

/-! ## Fail-fast expansion -/

theorem expandLoop_cons_skip
    (step : PrometheusCardinalityInstance → String → GaugeVec → Expanded)
    (v : LabelValuePair) (rest : List LabelValuePair) (p : PrometheusCardinalityInstance)
    (g : GaugeVec) (ops : List StoreOp) (fetched : List String) (hv : v.Label = "") :
    expandLoop step (v :: rest) p g ops fetched = expandLoop step rest p g ops fetched := by
  rw [expandLoop, if_pos hv]

theorem expandLoop_cons_err
    (step : PrometheusCardinalityInstance → String → GaugeVec → Expanded)
    (v : LabelValuePair) (rest : List LabelValuePair) (p : PrometheusCardinalityInstance)
    (g : GaugeVec) (ops : List StoreOp) (fetched : List String) (e : Error)
    (hv : v.Label ≠ "") (herr : (step p v.Label g).err = some e) :
    expandLoop step (v :: rest) p g ops fetched =
      ⟨(step p v.Label g).inst, (step p v.Label g).gauge, ops ++ (step p v.Label g).ops,
        fetched ++ (step p v.Label g).fetched, some e⟩ := by
  rw [expandLoop, if_neg hv]
  simp only [herr]

theorem expandLoop_cons_ok
    (step : PrometheusCardinalityInstance → String → GaugeVec → Expanded)
    (v : LabelValuePair) (rest : List LabelValuePair) (p : PrometheusCardinalityInstance)
    (g : GaugeVec) (ops : List StoreOp) (fetched : List String)
    (hv : v.Label ≠ "") (herr : (step p v.Label g).err = none) :
    expandLoop step (v :: rest) p g ops fetched =
      expandLoop step rest (step p v.Label g).inst (step p v.Label g).gauge
        (ops ++ (step p v.Label g).ops) (fetched ++ (step p v.Label g).fetched) := by
  rw [expandLoop, if_neg hv]
  simp only [herr]

theorem expandLoop_acc (step : PrometheusCardinalityInstance → String → GaugeVec → Expanded)
    (l : List LabelValuePair) :
    ∀ (p : PrometheusCardinalityInstance) (g : GaugeVec) (ops : List StoreOp)
      (fetched : List String),
      expandLoop step l p g ops fetched =
        ⟨(expandLoop step l p g [] []).inst, (expandLoop step l p g [] []).gauge,
          ops ++ (expandLoop step l p g [] []).ops,
          fetched ++ (expandLoop step l p g [] []).fetched,
          (expandLoop step l p g [] []).err⟩ := by
  induction l with
  | nil => intro p g ops fetched; simp [expandLoop]
  | cons v rest ih =>
    intro p g ops fetched
    by_cases hv : v.Label = ""
    · simp only [expandLoop_cons_skip step v rest p g _ _ hv]
      exact ih p g ops fetched
    · cases herr : (step p v.Label g).err with
      | some e =>
        simp only [expandLoop_cons_err step v rest p g _ _ e hv herr, List.nil_append]
      | none =>
        simp only [expandLoop_cons_ok step v rest p g _ _ hv herr, List.nil_append]
        rw [ih _ _ (ops ++ (step p v.Label g).ops) (fetched ++ (step p v.Label g).fetched),
          ih _ _ (step p v.Label g).ops (step p v.Label g).fetched]
        simp only [List.append_assoc]

/-- The expansion loop over `pre ++ rest`, when it succeeds on `pre`, goes on
over `rest` from the state the loop over `pre` leaves. -/
theorem expandLoop_append (step : PrometheusCardinalityInstance → String → GaugeVec → Expanded)
    (pre rest : List LabelValuePair) :
    ∀ (p : PrometheusCardinalityInstance) (g : GaugeVec) (ops : List StoreOp)
      (fetched : List String),
      (expandLoop step pre p g [] []).err = none →
      expandLoop step (pre ++ rest) p g ops fetched =
        expandLoop step rest (expandLoop step pre p g [] []).inst
          (expandLoop step pre p g [] []).gauge
          (ops ++ (expandLoop step pre p g [] []).ops)
          (fetched ++ (expandLoop step pre p g [] []).fetched) := by
  induction pre with
  | nil => intro p g ops fetched _; simp [expandLoop]
  | cons v pre ih =>
    intro p g ops fetched h
    rw [List.cons_append]
    by_cases hv : v.Label = ""
    · simp only [expandLoop_cons_skip step v _ p g _ _ hv] at h ⊢
      exact ih p g ops fetched h
    · cases herr : (step p v.Label g).err with
      | some e =>
        rw [expandLoop_cons_err step v pre p g _ _ e hv herr] at h
        simp at h
      | none =>
        simp only [expandLoop_cons_ok step v _ p g _ _ hv herr, List.nil_append] at h ⊢
        rw [expandLoop_acc step pre _ _ (step p v.Label g).ops (step p v.Label g).fetched] at h ⊢
        simp only at h ⊢
        rw [ih _ _ (ops ++ (step p v.Label g).ops) (fetched ++ (step p v.Label g).fetched) h]
        simp only [List.append_assoc]

/-- The expansion loop stops at the first failing step: when the loop succeeds
on the slots `pre` and the step for the non-empty name of `v` fails from the
state it leaves, the loop over `pre ++ v :: post` returns that error, the state
the failing step leaves, and the requests and fetches of `pre` and of that step. -/
theorem expandLoop_fail_at (step : PrometheusCardinalityInstance → String → GaugeVec → Expanded)
    (pre post : List LabelValuePair) (v : LabelValuePair)
    (p : PrometheusCardinalityInstance) (g : GaugeVec) (e : Error)
    (hv : v.Label ≠ "") (hpre : (expandLoop step pre p g [] []).err = none)
    (hfail : (step (expandLoop step pre p g [] []).inst v.Label
      (expandLoop step pre p g [] []).gauge).err = some e) :
    expandLoop step (pre ++ v :: post) p g [] [] =
      ⟨(step (expandLoop step pre p g [] []).inst v.Label
          (expandLoop step pre p g [] []).gauge).inst,
        (step (expandLoop step pre p g [] []).inst v.Label
          (expandLoop step pre p g [] []).gauge).gauge,
        (expandLoop step pre p g [] []).ops ++
          (step (expandLoop step pre p g [] []).inst v.Label
            (expandLoop step pre p g [] []).gauge).ops,
        (expandLoop step pre p g [] []).fetched ++
          (step (expandLoop step pre p g [] []).inst v.Label
            (expandLoop step pre p g [] []).gauge).fetched,
        some e⟩ := by
  rw [expandLoop_append step pre (v :: post) p g [] [] hpre,
    expandLoop_cons_err step v post _ _ _ _ e hv hfail]
  simp only [List.nil_append]

theorem TrackingTable.has_rewrite_eq (t : TrackingTable) (k k2 : String) (v : Array10 Labels) :
    (t.rewrite k v).has k2 = t.has k2 := by
  obtain ⟨es⟩ := t
  simp only [TrackingTable.rewrite, TrackingTable.has]
  induction es with
  | nil => rfl
  | cons e es ih =>
    simp only [List.map_cons, List.any_cons, ih]
    by_cases hk : e.1 = k
    · rw [if_pos hk]
      simp only [hk]
    · rw [if_neg hk]

theorem TrackingTable.get_rewrite_ne (t : TrackingTable) (k k2 : String) (v : Array10 Labels)
    (hne : k2 ≠ k) : (t.rewrite k v).get k2 = t.get k2 := by
  obtain ⟨es⟩ := t
  simp only [TrackingTable.rewrite, TrackingTable.get]
  induction es with
  | nil => rfl
  | cons e es ih =>
    simp only [List.map_cons, List.find?_cons]
    by_cases hk : e.1 = k
    · have h1 : ¬ k = k2 := fun h => hne h.symm
      have h2 : ¬ e.1 = k2 := fun h => hne (h.symm.trans hk)
      simp only [if_pos hk, h1, h2, decide_False]
      exact ih
    · rw [if_neg hk]
      by_cases hk2 : e.1 = k2
      · simp only [hk2, decide_True]
      · simp only [hk2, decide_False]
        exact ih

theorem TrackingTable.has_set_ne (t : TrackingTable) (k k2 : String) (v : Array10 Labels)
    (hne : k2 ≠ k) : (t.set k v).has k2 = t.has k2 := by
  unfold TrackingTable.set
  by_cases hk : t.has k = true
  · rw [if_pos hk]
    exact TrackingTable.has_rewrite_eq t k k2 v
  · rw [if_neg hk]
    have h1 : ¬ k = k2 := fun h => hne h.symm
    simp [TrackingTable.has, List.any_append, h1]

theorem TrackingTable.get_set_ne (t : TrackingTable) (k k2 : String) (v : Array10 Labels)
    (hne : k2 ≠ k) : (t.set k v).get k2 = t.get k2 := by
  unfold TrackingTable.set
  by_cases hk : t.has k = true
  · rw [if_pos hk]
    exact TrackingTable.get_rewrite_ne t k k2 v hne
  · rw [if_neg hk]
    have h1 : ¬ k = k2 := fun h => hne h.symm
    simp only [TrackingTable.get, List.find?_append]
    cases hf : List.find? (fun e => decide (e.1 = k2)) t.entries with
    | some e => rfl
    | none => simp [List.find?_cons, h1]

theorem exposeSeriesCountByMetricsNamePerLabel_frame (env : Env)
    (p : PrometheusCardinalityInstance) (label : String) (g : GaugeVec) (k : String)
    (hne : k ≠ label) :
    tableEntries (exposeSeriesCountByMetricsNamePerLabel env p label g).inst k =
      tableEntries p k := by
  unfold exposeSeriesCountByMetricsNamePerLabel
  simp only
  split
  · rfl
  · simp only [tableEntries, TrackingTable.has_set_ne _ _ _ _ hne,
      TrackingTable.get_set_ne _ _ _ _ hne]
    split
    · rfl
    · rw [TrackingTable.has_set_ne _ _ _ _ hne, TrackingTable.get_set_ne _ _ _ _ hne]

theorem exposeLabelCountByLabelNameNamePerMetricName_frame (env : Env)
    (p : PrometheusCardinalityInstance) (metricName : String) (g : GaugeVec) (k : String)
    (hne : k ≠ metricName) :
    tableEntries (exposeLabelCountByLabelNameNamePerMetricName env p metricName g).inst k =
      tableEntries p k := by
  unfold exposeLabelCountByLabelNameNamePerMetricName
  simp only
  split
  · rfl
  · simp only [tableEntries, TrackingTable.has_set_ne _ _ _ _ hne,
      TrackingTable.get_set_ne _ _ _ _ hne, TrackingTable.has_rewrite_eq,
      TrackingTable.get_rewrite_ne _ _ _ _ hne]
    split
    · rfl
    · rw [TrackingTable.has_set_ne _ _ _ _ hne, TrackingTable.get_set_ne _ _ _ _ hne]

/-- The expansion loop leaves the table entries of every key that is not the
name of a slot it visits as they were, when each step does so. -/
theorem expandLoop_frame (step : PrometheusCardinalityInstance → String → GaugeVec → Expanded)
    (k : String)
    (hstep : ∀ p x g, k ≠ x → tableEntries (step p x g).inst k = tableEntries p k)
    (l : List LabelValuePair) :
    ∀ (p : PrometheusCardinalityInstance) (g : GaugeVec) (ops : List StoreOp)
      (fetched : List String), k ∉ populatedNames l →
      tableEntries (expandLoop step l p g ops fetched).inst k = tableEntries p k := by
  induction l with
  | nil => intro p g ops fetched _; rfl
  | cons v rest ih =>
    intro p g ops fetched hk
    by_cases hv : v.Label = ""
    · rw [expandLoop_cons_skip step v rest p g _ _ hv]
      apply ih
      intro hmem
      apply hk
      rw [mem_populatedNames] at hmem ⊢
      exact ⟨hmem.1, hmem.2.imp fun q hq => ⟨List.mem_cons_of_mem _ hq.1, hq.2⟩⟩
    · have hkv : k ≠ v.Label := by
        intro h
        apply hk
        rw [mem_populatedNames]
        exact ⟨h ▸ hv, v, List.mem_cons_self _ _, h.symm⟩
      have hrest : k ∉ populatedNames rest := by
        intro hmem
        apply hk
        rw [mem_populatedNames] at hmem ⊢
        exact ⟨hmem.1, hmem.2.imp fun q hq => ⟨List.mem_cons_of_mem _ hq.1, hq.2⟩⟩
      cases herr : (step p v.Label g).err with
      | some e =>
        rw [expandLoop_cons_err step v rest p g _ _ e hv herr]
        exact hstep p v.Label g hkv
      | none =>
        rw [expandLoop_cons_ok step v rest p g _ _ hv herr, ih _ _ _ _ hrest]
        exact hstep p v.Label g hkv

theorem TrackingTable.get_of_not_has (t : TrackingTable) (k : String) (h : ¬ t.has k = true) :
    t.get k = Array10.zero Labels.empty := by
  unfold TrackingTable.get
  cases hf : t.entries.find? (fun e => e.1 = k) with
  | none => rfl
  | some e =>
    exfalso
    apply h
    rw [TrackingTable.has_iff]
    exact ⟨e, List.mem_of_find?_eq_some hf, by simpa using List.find?_some hf⟩

theorem TrackingTable.get_rewrite_self (t : TrackingTable) (k : String) (v : Array10 Labels)
    (h : t.has k = true) : (t.rewrite k v).get k = v := by
  obtain ⟨es⟩ := t
  simp only [TrackingTable.has] at h
  simp only [TrackingTable.rewrite, TrackingTable.get]
  induction es with
  | nil => simp at h
  | cons e es ih =>
    simp only [List.map_cons, List.find?_cons]
    by_cases hk : e.1 = k
    · simp only [if_pos hk, decide_True]
    · rw [if_neg hk]
      simp only [hk, decide_False]
      apply ih
      simpa [List.any_cons, hk] using h

theorem TrackingTable.get_set_self (t : TrackingTable) (k : String) (v : Array10 Labels) :
    (t.set k v).get k = v := by
  unfold TrackingTable.set
  by_cases hk : t.has k = true
  · rw [if_pos hk]
    exact TrackingTable.get_rewrite_self t k v hk
  · rw [if_neg hk]
    have hnone : t.entries.find? (fun e => decide (e.1 = k)) = none := by
      rw [List.find?_eq_none]
      intro e he hek
      exact hk ((TrackingTable.has_iff t k).mpr ⟨e, he, of_decide_eq_true hek⟩)
    simp [TrackingTable.get, List.find?_append, hnone]

theorem TrackingTable.get_lazily_created (t : TrackingTable) (k : String) :
    (if t.has k = true then t else t.set k (Array10.zero Labels.empty)).get k = t.get k := by
  by_cases hk : t.has k = true
  · rw [if_pos hk]
  · rw [if_neg hk, TrackingTable.get_set_self, TrackingTable.get_of_not_has t k hk]

/-- The error of a per-label expansion step, by the stage that fails. -/
theorem exposeSeriesCountByMetricsNamePerLabel_err (env : Env)
    (p : PrometheusCardinalityInstance) (label : String) (g : GaugeVec) :
    (exposeSeriesCountByMetricsNamePerLabel env p label g).err =
      match fetchTSDBStatus p env.httpClient (env.encodeQuery (labelFilter label)) with
      | none => some Error.cantParseJson
      | some body =>
        if (env.decode body TSDBStatus.zero).2 then some Error.cantParseJson
        else (reconcilePerLabel env p label g body).err.map Error.cantUpdateMetrics := by
  cases hf : fetchTSDBStatus p env.httpClient (env.encodeQuery (labelFilter label)) with
  | none => rw [exposeSeriesCountByMetricsNamePerLabel_of_fetch_none env p label g hf]
  | some body =>
    unfold labelFilter at hf
    unfold exposeSeriesCountByMetricsNamePerLabel
    simp only [hf, jsonUnmarshal]
    by_cases hd : (env.decode body TSDBStatus.zero).2 = true
    · simp only [hd, if_true]
    · simp only [hd, if_false, Bool.false_eq_true]
      rw [TrackingTable.get_lazily_created]
      rfl

/-- The error of a per-metric expansion step, by the stage that fails. -/
theorem exposeLabelCountByLabelNameNamePerMetricName_err (env : Env)
    (p : PrometheusCardinalityInstance) (metricName : String) (g : GaugeVec) :
    (exposeLabelCountByLabelNameNamePerMetricName env p metricName g).err =
      match fetchTSDBStatus p env.httpClient (env.encodeQuery (metricFilter metricName)) with
      | none => some Error.cantParseJson
      | some body =>
        if (env.decode body TSDBStatus.zero).2 then some Error.cantParseJson
        else (reconcilePerMetric env p metricName g body).err.map Error.cantUpdateMetrics := by
  cases hf : fetchTSDBStatus p env.httpClient (env.encodeQuery (metricFilter metricName)) with
  | none => rw [exposeLabelCountByLabelNameNamePerMetricName_of_fetch_none env p metricName g hf]
  | some body =>
    unfold metricFilter at hf
    unfold exposeLabelCountByLabelNameNamePerMetricName
    simp only [hf, jsonUnmarshal]
    by_cases hd : (env.decode body TSDBStatus.zero).2 = true
    · simp only [hd, if_true]
    · simp only [hd, if_false, Bool.false_eq_true]
      rfl

theorem exposeSeriesCountByMetricsNamePerLabel_fetched (env : Env)
    (p : PrometheusCardinalityInstance) (label : String) (g : GaugeVec) :
    (exposeSeriesCountByMetricsNamePerLabel env p label g).fetched =
        [stepURL env p (labelFilter label)] ∧
      (exposeSeriesCountByMetricsNamePerLabel env p label g).inst.InstanceAddress =
        p.InstanceAddress := by
  unfold exposeSeriesCountByMetricsNamePerLabel
  simp only
  split
  · exact ⟨rfl, rfl⟩
  · exact ⟨rfl, rfl⟩

theorem exposeLabelCountByLabelNameNamePerMetricName_fetched (env : Env)
    (p : PrometheusCardinalityInstance) (metricName : String) (g : GaugeVec) :
    (exposeLabelCountByLabelNameNamePerMetricName env p metricName g).fetched =
        [stepURL env p (metricFilter metricName)] ∧
      (exposeLabelCountByLabelNameNamePerMetricName env p metricName g).inst.InstanceAddress =
        p.InstanceAddress := by
  unfold exposeLabelCountByLabelNameNamePerMetricName
  simp only
  split
  · exact ⟨rfl, rfl⟩
  · exact ⟨rfl, rfl⟩

theorem populatedNames_cons (v : LabelValuePair) (rest : List LabelValuePair) :
    populatedNames (v :: rest) =
      if v.Label = "" then populatedNames rest else v.Label :: populatedNames rest := by
  unfold populatedNames
  by_cases hv : v.Label = ""
  · simp [List.filter_cons, hv]
  · simp [List.filter_cons, hv]

/-- A successful expansion loop fetches once for every non-empty name, in
the order of the slots, and keeps the instance address. -/
theorem expandLoop_fetched (step : PrometheusCardinalityInstance → String → GaugeVec → Expanded)
    (url : String → String → String)
    (hstep : ∀ p x g, (step p x g).fetched = [url p.InstanceAddress x] ∧
      (step p x g).inst.InstanceAddress = p.InstanceAddress)
    (l : List LabelValuePair) :
    ∀ (p : PrometheusCardinalityInstance) (g : GaugeVec),
      (expandLoop step l p g [] []).inst.InstanceAddress = p.InstanceAddress ∧
      ((expandLoop step l p g [] []).err = none →
        (expandLoop step l p g [] []).fetched =
          (populatedNames l).map (url p.InstanceAddress)) := by
  induction l with
  | nil => intro p g; exact ⟨rfl, fun _ => rfl⟩
  | cons v rest ih =>
    intro p g
    by_cases hv : v.Label = ""
    · rw [expandLoop_cons_skip step v rest p g _ _ hv, populatedNames_cons, if_pos hv]
      exact ih p g
    · rw [populatedNames_cons, if_neg hv]
      cases herr : (step p v.Label g).err with
      | some e =>
        rw [expandLoop_cons_err step v rest p g _ _ e hv herr]
        exact ⟨(hstep p v.Label g).2, fun h => by simp at h⟩
      | none =>
        rw [expandLoop_cons_ok step v rest p g _ _ hv herr, expandLoop_acc]
        simp only [List.nil_append]
        obtain ⟨ih1, ih2⟩ := ih (step p v.Label g).inst (step p v.Label g).gauge
        refine ⟨ih1.trans (hstep p v.Label g).2, fun h => ?_⟩
        rw [ih2 h, (hstep p v.Label g).1, (hstep p v.Label g).2]
        rfl

/-! ## Stale series and the tracked sequence -/

theorem mem_recordNames_of_mem (l : List LabelValuePair) (hl : l.length = 10)
    (p : LabelValuePair) (hp : p ∈ populated l) :
    p.Label ∈ (recordNames (Array10.zero "") 0 (populated l)).toList := by
  have hle : 0 + (populated l).length ≤ 10 := by
    rw [populated_length, Nat.zero_add]
    have := firstEmpty_le_length l
    omega
  obtain ⟨j, hj⟩ := List.mem_iff_getElem?.mp hp
  have hjlt : j < (populated l).length := by
    by_contra hcon
    rw [List.getElem?_eq_none (by omega)] at hj
    cases hj
  rw [List.mem_iff_getElem?]
  refine ⟨j, ?_⟩
  rw [recordNames_getElem? _ _ 0 j hle, if_pos ⟨Nat.zero_le _, by omega⟩, Nat.sub_zero, hj]
  rfl

theorem has_runSets (mk : String → Labels) (g : GaugeVec) (ps : List LabelValuePair)
    (l : Labels) (h : (runSets mk g ps).has l = true) :
    (∃ p ∈ ps, mk p.Label = l) ∨ g.has l = true := by
  unfold GaugeVec.has at h ⊢
  rw [value?_runSets] at h
  cases hl : (ps.filter (fun p => mk p.Label = l)).getLast? with
  | none =>
    rw [hl] at h
    exact Or.inr h
  | some p =>
    have hp := List.mem_of_getLast?_eq_some hl
    rw [List.mem_filter] at hp
    exact Or.inl ⟨p, hp.1, of_decide_eq_true hp.2⟩

theorem has_runDeletes (g : GaugeVec) (ls : List Labels) (l : Labels)
    (h : (runDeletes g ls).has l = true) : l ∉ ls ∧ g.has l = true := by
  unfold GaugeVec.has at h ⊢
  rw [value?_runDeletes] at h
  by_cases hm : l ∈ ls
  · rw [if_pos hm] at h; simp at h
  · rw [if_neg hm] at h; exact ⟨hm, h⟩

/-- C13 fails as stated on the abort path: from the empty store with nothing
tracked (where the predicate holds), with new list `a, b` and a store that
rejects `b`, the call aborts at `b` after the gauge of `a` has been set, and
returns the input tracked sequence: `a` is in the store and not tracked. -/
theorem tracked_covers_counterexample :
    TrackedCovers (metricLabels "metric" "i" "s" "n")
      (storeRejecting (fun l => decide (l.get? "metric" = some "b"))) (trackedOf []) ∧
    PopulatedPrefix (topTen [("a", 1), ("b", 2)]).toList ∧
    (updateMetric (storeRejecting (fun l => decide (l.get? "metric" = some "b")))
      (topTen [("a", 1), ("b", 2)]) (trackedOf []) "i" "s" "n" "metric").err =
        some (Error.updatingLabelName "b") ∧
    ¬ TrackedCovers (metricLabels "metric" "i" "s" "n")
      (updateMetric (storeRejecting (fun l => decide (l.get? "metric" = some "b")))
        (topTen [("a", 1), ("b", 2)]) (trackedOf []) "i" "s" "n" "metric").gauge
      (updateMetric (storeRejecting (fun l => decide (l.get? "metric" = some "b")))
        (topTen [("a", 1), ("b", 2)]) (trackedOf []) "i" "s" "n" "metric").tracked := by
  refine ⟨?_, by decide, by decide, ?_⟩
  · intro x hx
    simp [GaugeVec.has, GaugeVec.value?, storeRejecting, GaugeVec.findValue] at hx
  · intro h
    have h1 := (h "a" (by decide)).2
    revert h1
    decide

/-- C13, amended: for a dimension label, a new list whose populated slots form
a prefix, and a store and tracked sequence in which every series of this
dimension and identity has its name tracked: after a call that succeeds the
same holds of the store and the returned tracked sequence; after a call that
aborts at a get-or-create failure the returned tracked sequence is the input
one, and every series of this dimension and identity in the store is tracked
or is named by a slot before the failing one. -/
theorem updateMetric_tracked_covers (Metric : GaugeVec) (new : Array10 LabelValuePair)
    (tracked : Array10 String) (inst shard ns name : String) (hname : DimensionLabel name)
    (hpop : PopulatedPrefix new.toList)
    (hinv : TrackedCovers (metricLabels name inst shard ns) Metric tracked) :
    ((updateMetric Metric new tracked inst shard ns name).err = none →
      TrackedCovers (metricLabels name inst shard ns)
        (updateMetric Metric new tracked inst shard ns name).gauge
        (updateMetric Metric new tracked inst shard ns name).tracked) ∧
    (∀ (pre post : List LabelValuePair) (p : LabelValuePair),
      new.toList = pre ++ p :: post →
      (∀ q ∈ pre, q.Label ≠ "" ∧
        Metric.rejects (metricLabels name inst shard ns q.Label) = false) →
      p.Label ≠ "" →
      Metric.rejects (metricLabels name inst shard ns p.Label) = true →
      (updateMetric Metric new tracked inst shard ns name).tracked = tracked ∧
      ∀ x, (updateMetric Metric new tracked inst shard ns name).gauge.has
          (metricLabels name inst shard ns x) = true →
        (x ≠ "" ∧ x ∈ tracked.toList) ∨ ∃ q ∈ pre, q.Label = x) := by
  have hinj := metricLabels_injective name inst shard ns hname
  constructor
  · intro herr
    have hacc := (updateMetric_err_eq_none_iff Metric new tracked inst shard ns name).mp herr
    rw [updateMetric_of_accepts Metric new tracked inst shard ns name hacc]
    intro x hx
    simp only at hx ⊢
    obtain ⟨hns, hsets⟩ := has_runDeletes _ _ _ hx
    have key : ∀ q ∈ populated new.toList, q.Label = x →
        x ≠ "" ∧ x ∈ (recordNames (Array10.zero "") 0 (populated new.toList)).toList := by
      intro q hq hqx
      rw [← hqx]
      exact ⟨populated_label_ne _ q hq, mem_recordNames_of_mem _ new.property q hq⟩
    rcases has_runSets _ _ _ _ hsets with ⟨q, hq, hqx⟩ | hbefore
    · exact key q hq ((hinj q.Label x).mp hqx)
    · obtain ⟨hne, htr⟩ := hinv x hbefore
      have hfound : ∃ q ∈ new.toList, q.Label = x := by
        by_contra hcon
        apply hns
        rw [List.mem_map]
        exact ⟨x, (mem_staleNames _ _ x).mpr ⟨htr, hne, hcon⟩, rfl⟩
      obtain ⟨q, hq, hqx⟩ := hfound
      have hqp : q ∈ populated new.toList := by
        rw [populated_eq_filter _ hpop, List.mem_filter]
        exact ⟨hq, by simp [hqx, hne]⟩
      exact key q hqp hqx
  · intro pre post p hsplit hpre hp hrej
    rw [updateMetric_of_rejects Metric new tracked inst shard ns name pre post p hsplit hpre hp
      hrej]
    refine ⟨rfl, ?_⟩
    intro x hx
    simp only at hx
    rcases has_runSets _ _ _ _ hx with ⟨q, hq, hqx⟩ | hbefore
    · exact Or.inr ⟨q, hq, (hinj q.Label x).mp hqx⟩
    · exact Or.inl (hinv x hbefore)

/-- C13 amended, at a concrete input: the store holds `b`, which is tracked,
and the new list is `a: 1`. The call succeeds, and `a`, now in the store, is
in the returned tracked sequence. -/
theorem updateMetric_tracked_covers_witness :
    "a" ≠ "" ∧ "a" ∈ (updateMetric (storeOf [(metricLabels "metric" "i" "s" "n" "b", 7)])
      (topTen [("a", 1)]) (trackedOf ["b"]) "i" "s" "n" "metric").tracked.toList := by
  have hname : DimensionLabel "metric" := by decide
  have h := updateMetric_tracked_covers (storeOf [(metricLabels "metric" "i" "s" "n" "b", 7)])
    (topTen [("a", 1)]) (trackedOf ["b"]) "i" "s" "n" "metric" hname (by decide)
    (by
      intro x hx
      have hinj := metricLabels_injective "metric" "i" "s" "n" hname "b" x
      simp only [GaugeVec.has, GaugeVec.value?, storeOf, GaugeVec.findValue, hinj] at hx
      by_cases hb : "b" = x
      · subst hb; decide
      · simp [hb] at hx)
  exact h.1 (by decide) "a" (by decide)

/-! ## Parse failure and the snapshot -/

/-- `PreFetchTSDBStatus` decodes into `LatestTSDBStatus` itself: once a body
has been fetched, the snapshot is whatever the decoder left in the
destination, whether or not it reports an error. -/
theorem PreFetchTSDBStatus_of_body (env : Env) (p : PrometheusCardinalityInstance)
    (client : PrometheusClient) (body : String)
    (h : fetchTSDBStatus p client "" = some body) :
    PreFetchTSDBStatus env p client =
      ({ p with LatestTSDBStatus := (env.decode body p.LatestTSDBStatus).1 },
        if (env.decode body p.LatestTSDBStatus).2 then some Error.cantParseJson else none) := by
  unfold PreFetchTSDBStatus
  rw [h]
  rfl

/-- C14, at a failing input: the previous snapshot holds `old: 7, older: 3`
and `job: 2`, and the body is `badValueBody`. `PreFetchTSDBStatus` returns the
parse error, and series-count-by-metric-name of the instance now reads
`up: 7`: the name decoded before the value failed has overwritten the previous
snapshot, and `older` is gone. The expansion steps decode into a fresh
`TSDBStatus` and discard it on error. -/
theorem PreFetchTSDBStatus_keeps_partial_decode :
    (PreFetchTSDBStatus envBadValue
        (freshInstance (dataOf [("old", 7), ("older", 3)] [("job", 2)]))
        envBadValue.httpClient).2 = some Error.cantParseJson ∧
    (PreFetchTSDBStatus envBadValue
        (freshInstance (dataOf [("old", 7), ("older", 3)] [("job", 2)]))
        envBadValue.httpClient).1.LatestTSDBStatus.Data.SeriesCountByMetricName =
      topTen [("up", 7)] ∧
    (freshInstance (dataOf [("old", 7), ("older", 3)]
        [("job", 2)])).LatestTSDBStatus.Data.SeriesCountByMetricName =
      topTen [("old", 7), ("older", 3)] ∧
    (PreFetchTSDBStatus envBadValue
        (freshInstance (dataOf [("old", 7), ("older", 3)] [("job", 2)]))
        envBadValue.httpClient).1.LatestTSDBStatus.Data.SeriesCountByMetricName ≠
      (freshInstance (dataOf [("old", 7), ("older", 3)]
        [("job", 2)])).LatestTSDBStatus.Data.SeriesCountByMetricName ∧
    (exposeSeriesCountByMetricsNamePerLabel envBadValue
        (freshInstance (dataOf [("old", 7), ("older", 3)] [("job", 2)])) "job"
        (storeOf [])).inst =
      freshInstance (dataOf [("old", 7), ("older", 3)] [("job", 2)]) := by
  refine ⟨by decide, by decide, by decide, by decide, ?_⟩
  rfl

/-! ## Retraction across cycles in the label-set reconciler -/

theorem populatedLabels_append_dropWhile (l : List PrometheusLabelValuePair) :
    populatedLabels l ++ l.dropWhile (fun p => p.Labels.len ≠ 0) = l := by
  unfold populatedLabels
  exact List.takeWhile_append_dropWhile _ l

theorem populatedLabels_len_ne (l : List PrometheusLabelValuePair) :
    ∀ p ∈ populatedLabels l, p.Labels.len ≠ 0 := by
  intro p hp
  have := List.mem_takeWhile_imp hp
  simpa using this

theorem updateMetricByPrometheusLabels.labelsSetLoop_dropWhile (ident : Labels → Labels)
    (l : List PrometheusLabelValuePair) (idx : Nat) (g : GaugeVec) (ops : List StoreOp)
    (nt : Array10 Labels) (done : List PrometheusLabelValuePair) :
    updateMetricByPrometheusLabels.setLoop ident (l.dropWhile (fun p => p.Labels.len ≠ 0)) idx g
        ops nt done =
      ⟨g, ops, nt, none, done ++ l.dropWhile (fun p => p.Labels.len ≠ 0)⟩ := by
  induction l with
  | nil => simp [updateMetricByPrometheusLabels.setLoop]
  | cons p l ih =>
    by_cases hp : p.Labels.len = 0
    · have : (p :: l).dropWhile (fun p => p.Labels.len ≠ 0) = p :: l := by
        simp [List.dropWhile_cons, hp]
      rw [this]
      simp [updateMetricByPrometheusLabels.setLoop, hp]
    · have : (p :: l).dropWhile (fun p => p.Labels.len ≠ 0) =
          l.dropWhile (fun p => p.Labels.len ≠ 0) := by
        simp [List.dropWhile_cons, hp]
      rw [this, ih]

/-- The new list as the second loop of `updateMetricByPrometheusLabels` reads
it after a first loop without failure: the slots before the first empty label
set carry the identity labels, the others are as passed in. -/
theorem setLoop_seen_of_accepts (ident : Labels → Labels) (Metric : GaugeVec)
    (l : List PrometheusLabelValuePair)
    (h : ∀ p ∈ populatedLabels l, Metric.rejects (ident p.Labels) = false) :
    updateMetricByPrometheusLabels.setLoop ident l 0 Metric [] (Array10.zero Labels.empty) [] =
      ⟨runLabelSets ident Metric (populatedLabels l), labelSetOps ident (populatedLabels l),
        recordLabels ident (Array10.zero Labels.empty) 0 (populatedLabels l), none,
        identified ident (populatedLabels l) ++ l.dropWhile (fun p => p.Labels.len ≠ 0)⟩ := by
  have hloop := updateMetricByPrometheusLabels.labelsSetLoop_append ident (populatedLabels l)
    (l.dropWhile (fun p => p.Labels.len ≠ 0)) 0 Metric [] (Array10.zero Labels.empty) []
    (fun p hp => ⟨populatedLabels_len_ne _ p hp, h p hp⟩)
  rw [populatedLabels_append_dropWhile,
    updateMetricByPrometheusLabels.labelsSetLoop_dropWhile] at hloop
  rw [hloop]
  simp only [List.nil_append]

/-- The result of `updateMetricByPrometheusLabels` when no get-or-create of a
populated slot fails. -/
theorem updateMetricByPrometheusLabels_of_accepts (Metric : GaugeVec)
    (new : Array10 PrometheusLabelValuePair) (tracked : Array10 Labels)
    (inst shard ns : String)
    (h : ∀ p ∈ populatedLabels new.toList,
      Metric.rejects (withIdentity inst shard ns p.Labels) = false) :
    (updateMetricByPrometheusLabels Metric new tracked inst shard ns).err = none ∧
    (updateMetricByPrometheusLabels Metric new tracked inst shard ns).gauge =
      runDeletes (runLabelSets (withIdentity inst shard ns) Metric (populatedLabels new.toList))
        ((staleLabels (identified (withIdentity inst shard ns) (populatedLabels new.toList) ++
          new.toList.dropWhile (fun p => p.Labels.len ≠ 0)) tracked.toList).map
          (withIdentity inst shard ns)) ∧
    (updateMetricByPrometheusLabels Metric new tracked inst shard ns).ops =
      labelSetOps (withIdentity inst shard ns) (populatedLabels new.toList) ++
        (staleLabels (identified (withIdentity inst shard ns) (populatedLabels new.toList) ++
          new.toList.dropWhile (fun p => p.Labels.len ≠ 0)) tracked.toList).map
          (fun x => StoreOp.delete (withIdentity inst shard ns x)) ∧
    (updateMetricByPrometheusLabels Metric new tracked inst shard ns).tracked =
      recordLabels (withIdentity inst shard ns) (Array10.zero Labels.empty) 0
        (populatedLabels new.toList) := by
  have hs := setLoop_seen_of_accepts (withIdentity inst shard ns) Metric new.toList h
  unfold updateMetricByPrometheusLabels
  simp only [hs, updateMetricByPrometheusLabels.labelsDeleteLoop_eq, and_self]

theorem exists_first_true {α : Type} (rej : α → Bool) (l : List α)
    (h : ∃ p ∈ l, rej p = true) :
    ∃ pre p post, l = pre ++ p :: post ∧ (∀ q ∈ pre, rej q = false) ∧ rej p = true := by
  induction l with
  | nil => obtain ⟨p, hp, _⟩ := h; cases hp
  | cons a l ih =>
    by_cases ha : rej a = true
    · exact ⟨[], a, l, rfl, by simp, ha⟩
    · have h2 : ∃ p ∈ l, rej p = true := by
        obtain ⟨p, hp, hr⟩ := h
        rcases List.mem_cons.mp hp with rfl | hp
        · exact absurd hr ha
        · exact ⟨p, hp, hr⟩
      obtain ⟨pre, p, post, hl, hpre, hp⟩ := ih h2
      refine ⟨a :: pre, p, post, by rw [hl]; rfl, ?_, hp⟩
      intro q hq
      rcases List.mem_cons.mp hq with rfl | hq
      · simpa using ha
      · exact hpre q hq

/-- `updateMetricByPrometheusLabels` succeeds exactly when the store accepts
the rewritten label set of every slot before the first empty label set. -/
theorem updateMetricByPrometheusLabels_err_eq_none_iff (Metric : GaugeVec)
    (new : Array10 PrometheusLabelValuePair) (tracked : Array10 Labels)
    (inst shard ns : String) :
    (updateMetricByPrometheusLabels Metric new tracked inst shard ns).err = none ↔
      ∀ p ∈ populatedLabels new.toList,
        Metric.rejects (withIdentity inst shard ns p.Labels) = false := by
  constructor
  · intro herr
    by_contra hcon
    have hex : ∃ p ∈ populatedLabels new.toList,
        (fun p : PrometheusLabelValuePair =>
          Metric.rejects (withIdentity inst shard ns p.Labels)) p = true := by
      by_contra hne
      apply hcon
      intro p hp
      by_contra hp2
      exact hne ⟨p, hp, by simpa using hp2⟩
    obtain ⟨pre, p, post, hl, hpre, hp⟩ := exists_first_true _ _ hex
    have hmem : ∀ q ∈ pre ++ p :: post, q.Labels.len ≠ 0 := by
      intro q hq
      rw [← hl] at hq
      exact populatedLabels_len_ne _ q hq
    have hsplit : new.toList =
        pre ++ p :: (post ++ new.toList.dropWhile (fun p => p.Labels.len ≠ 0)) := by
      have := populatedLabels_append_dropWhile new.toList
      rw [hl, List.append_assoc, List.cons_append] at this
      exact this.symm
    rw [updateMetricByPrometheusLabels_of_rejects Metric new tracked inst shard ns pre _ p hsplit
      (fun q hq => ⟨hmem q (List.mem_append_left _ hq), hpre q hq⟩)
      (hmem p (List.mem_append_right _ (List.mem_cons_self _ _))) hp] at herr
    cases herr
  · intro h
    exact (updateMetricByPrometheusLabels_of_accepts Metric new tracked inst shard ns h).1

theorem withIdentity_get?_other (inst shard ns : String) (L : Labels) (k : String)
    (hk : k ∉ identityLabels) : (withIdentity inst shard ns L).get? k = L.get? k := by
  have h1 : k ≠ "scraped_instance" := fun h => hk (by rw [h]; decide)
  have h2 : k ≠ "sharded_instance" := fun h => hk (by rw [h]; decide)
  have h3 : k ≠ "instance_namespace" := fun h => hk (by rw [h]; decide)
  unfold withIdentity
  rw [Labels.get?_set_ne _ _ _ _ h3, Labels.get?_set_ne _ _ _ _ h2,
    Labels.get?_set_ne _ _ _ _ h1]

/-- Writing the identity labels a second time, with the same values, changes
nothing. -/
theorem withIdentity_idem (inst shard ns : String) (L : Labels) (hL : L.Sorted) :
    withIdentity inst shard ns (withIdentity inst shard ns L) = withIdentity inst shard ns L := by
  apply Labels.eq_of_get?_eq
  · exact withIdentity_sorted _ _ _ _ (withIdentity_sorted _ _ _ _ hL)
  · exact withIdentity_sorted _ _ _ _ hL
  · intro k
    by_cases hk : k ∈ identityLabels
    · simp only [identityLabels, List.mem_cons, List.mem_singleton, List.not_mem_nil,
        or_false] at hk
      rcases hk with h | h | h
      · rw [h, (withIdentity_get? inst shard ns _).1, (withIdentity_get? inst shard ns _).1]
      · rw [h, (withIdentity_get? inst shard ns _).2.1, (withIdentity_get? inst shard ns _).2.1]
      · rw [h, (withIdentity_get? inst shard ns _).2.2, (withIdentity_get? inst shard ns _).2.2]
    · rw [withIdentity_get?_other _ _ _ _ k hk]

theorem metricAndLabel_get? (metric label : String) :
    (metricAndLabel metric label).get? "metric" = some metric ∧
      (metricAndLabel metric label).get? "label" = some label := by
  unfold metricAndLabel
  constructor
  · rw [Labels.get?_set_ne _ _ _ _ (by decide), Labels.get?_set_self]
  · rw [Labels.get?_set_self]

/-- Distinct `(metric, label)` pairs give distinct exposed label sets. -/
theorem withIdentity_metricAndLabel_injective (inst shard ns : String)
    (m l m2 l2 : String) :
    withIdentity inst shard ns (metricAndLabel m l) =
      withIdentity inst shard ns (metricAndLabel m2 l2) ↔ (m, l) = (m2, l2) := by
  constructor
  · intro h
    have hm := congrArg (fun L => L.get? "metric") h
    have hl := congrArg (fun L => L.get? "label") h
    simp only at hm hl
    rw [withIdentity_get?_other _ _ _ _ _ (by decide), withIdentity_get?_other _ _ _ _ _
      (by decide), (metricAndLabel_get? m l).1, (metricAndLabel_get? m2 l2).1] at hm
    rw [withIdentity_get?_other _ _ _ _ _ (by decide), withIdentity_get?_other _ _ _ _ _
      (by decide), (metricAndLabel_get? m l).2, (metricAndLabel_get? m2 l2).2] at hl
    rw [Option.some.inj hm, Option.some.inj hl]
  · intro h
    rw [(Prod.mk.inj h).1, (Prod.mk.inj h).2]

theorem withIdentity_len_ne (inst shard ns : String) (L : Labels) :
    (withIdentity inst shard ns L).len ≠ 0 := by
  have := Labels.len_set_pos ((L.set "scraped_instance" inst).set "sharded_instance" shard)
    "instance_namespace" ns
  unfold withIdentity
  omega

theorem metricAndLabel_len_ne (metric label : String) : (metricAndLabel metric label).len ≠ 0 := by
  have := Labels.len_set_pos (Labels.empty.set "metric" metric) "label" label
  unfold metricAndLabel
  omega

theorem ofList_toList {α : Type} (z : α) (l : List α) (h : l.length ≤ 10) :
    (Array10.ofList z l).toList = l ++ List.replicate (10 - l.length) z := by
  simp only [Array10.ofList, Array10.toList]
  rw [List.take_append_eq_append_take, List.take_of_length_le h, List.take_replicate]
  congr 2
  omega

theorem takeWhile_append_replicate {α : Type} (q : α → Bool) (l : List α) (z : α) (n : Nat)
    (hl : ∀ a ∈ l, q a = true) (hz : q z = false) :
    (l ++ List.replicate n z).takeWhile q = l ∧
      (l ++ List.replicate n z).dropWhile q = List.replicate n z := by
  induction l with
  | nil =>
    cases n with
    | zero => exact ⟨rfl, rfl⟩
    | succ n =>
      simp only [List.nil_append, List.replicate_succ, List.takeWhile_cons, List.dropWhile_cons, hz]
      exact ⟨rfl, rfl⟩
  | cons a l ih =>
    have ha := hl a (List.mem_cons_self _ _)
    obtain ⟨ih1, ih2⟩ := ih (fun b hb => hl b (List.mem_cons_of_mem _ hb))
    simp only [List.cons_append, List.takeWhile_cons, List.dropWhile_cons, ha, if_true]
    exact ⟨by rw [ih1], ih2⟩

/-- The shape of a new list built from `(metric, label)` pairs: the pairs in
the leading slots are the populated ones, the other slots are empty. -/
theorem topTenLabels_pairSets (pairs : List ((String × String) × Nat))
    (h : pairs.length ≤ 10) :
    populatedLabels (topTenLabels (pairSets pairs)).toList =
        pairs.map (fun a => ⟨metricAndLabel a.1.1 a.1.2, a.2⟩) ∧
      (topTenLabels (pairSets pairs)).toList.dropWhile (fun p => p.Labels.len ≠ 0) =
        List.replicate (10 - pairs.length) PrometheusLabelValuePair.zero := by
  have hlen : ((pairSets pairs).map
      (fun p => (⟨p.1, p.2⟩ : PrometheusLabelValuePair))).length ≤ 10 := by
    simpa [pairSets] using h
  have hmap : (pairSets pairs).map (fun p => (⟨p.1, p.2⟩ : PrometheusLabelValuePair)) =
      pairs.map (fun a => ⟨metricAndLabel a.1.1 a.1.2, a.2⟩) := by
    simp [pairSets, List.map_map]
  unfold topTenLabels populatedLabels
  rw [ofList_toList _ _ hlen, hmap, List.length_map]
  apply takeWhile_append_replicate
  · intro a ha
    rw [List.mem_map] at ha
    obtain ⟨b, _, hb⟩ := ha
    rw [← hb]
    simpa using metricAndLabel_len_ne b.1.1 b.1.2
  · decide

theorem recordLabels_getElem? (ident : Labels → Labels) (ps : List PrometheusLabelValuePair) :
    ∀ (nt : Array10 Labels) (idx i : Nat), idx + ps.length ≤ 10 →
      (recordLabels ident nt idx ps).toList[i]? =
        if idx ≤ i ∧ i < idx + ps.length then (ps[i - idx]?).map (fun p => ident p.Labels)
        else nt.toList[i]? := by
  induction ps with
  | nil =>
    intro nt idx i _
    have : ¬ (idx ≤ i ∧ i < idx + ([] : List PrometheusLabelValuePair).length) := by
      simp only [List.length_nil, Nat.add_zero]; omega
    rw [if_neg this]
    rfl
  | cons p ps ih =>
    intro nt idx i h
    simp only [List.length_cons] at h
    have hlen : nt.toList.length = 10 := nt.property
    have hset : (nt.set idx (ident p.Labels)).toList = nt.toList.set idx (ident p.Labels) := rfl
    simp only [recordLabels]
    rw [ih (nt.set idx (ident p.Labels)) (idx + 1) i (by omega), hset, List.getElem?_set]
    by_cases h1 : i = idx
    · subst h1
      have c1 : ¬ (i + 1 ≤ i ∧ i < i + 1 + ps.length) := by omega
      have c2 : i ≤ i ∧ i < i + (p :: ps).length := by
        simp only [List.length_cons]; omega
      rw [if_neg c1, if_pos c2, if_pos rfl, if_pos (by omega)]
      simp
    · by_cases h2 : idx < i
      · have c1 : idx + 1 ≤ i ∧ i < idx + 1 + ps.length ↔
            idx ≤ i ∧ i < idx + (p :: ps).length := by
          simp only [List.length_cons]; omega
        have hsub : i - idx = (i - (idx + 1)) + 1 := by omega
        by_cases c : idx + 1 ≤ i ∧ i < idx + 1 + ps.length
        · rw [if_pos c, if_pos (c1.mp c), hsub, List.getElem?_cons_succ]
        · rw [if_neg c, if_neg (fun hc => c (c1.mpr hc)), if_neg (fun hh => h1 hh.symm)]
      · have c1 : ¬ (idx + 1 ≤ i ∧ i < idx + 1 + ps.length) := by omega
        have c2 : ¬ (idx ≤ i ∧ i < idx + (p :: ps).length) := by omega
        rw [if_neg c1, if_neg c2, if_neg (fun hh => h1 hh.symm)]

/-- The tracked array the label-set reconciler builds: the rewritten label
sets of the populated slots, then empty label sets. -/
theorem recordLabels_toList (ident : Labels → Labels) (ps : List PrometheusLabelValuePair)
    (h : ps.length ≤ 10) :
    (recordLabels ident (Array10.zero Labels.empty) 0 ps).toList =
      ps.map (fun p => ident p.Labels) ++ List.replicate (10 - ps.length) Labels.empty := by
  apply List.ext_getElem?
  intro i
  rw [recordLabels_getElem? ident ps _ 0 i (by omega)]
  simp only [Nat.zero_add, Nat.sub_zero, Array10.zero, Array10.toList]
  by_cases hi : i < ps.length
  · rw [if_pos ⟨Nat.zero_le _, hi⟩, List.getElem?_append_left (by simpa using hi),
      List.getElem?_map]
  · rw [if_neg (fun hc => hi hc.2), List.getElem?_append_right (by simpa using hi),
      List.getElem?_replicate, List.getElem?_replicate, List.length_map]
    by_cases h10 : i < 10
    · rw [if_pos h10, if_pos (by omega)]
    · rw [if_neg h10, if_neg (by omega)]

theorem staleLabels_append (new : List PrometheusLabelValuePair) (a b : List Labels) :
    staleLabels new (a ++ b) = staleLabels new a ++ staleLabels new b := by
  simp [staleLabels, List.filter_append]

theorem staleLabels_replicate_empty (new : List PrometheusLabelValuePair) (n : Nat) :
    staleLabels new (List.replicate n Labels.empty) = [] := by
  unfold staleLabels
  rw [List.filter_eq_nil_iff]
  intro L hL
  rw [(List.mem_replicate.mp hL).2]
  simp [Labels.len, Labels.empty]

theorem updateMetricByPrometheusLabels.labelsFound_iff (new : List PrometheusLabelValuePair)
    (L : Labels) :
    updateMetricByPrometheusLabels.found new L = true ↔ ∃ q ∈ new, q.Labels = L := by
  unfold updateMetricByPrometheusLabels.found
  rw [List.any_eq_true]
  constructor
  · rintro ⟨q, hq, h⟩; exact ⟨q, hq, (of_decide_eq_true h).symm⟩
  · rintro ⟨q, hq, h⟩; exact ⟨q, hq, decide_eq_true h.symm⟩

theorem staleLabels_of_pairs (inst shard ns : String)
    (pairs1 pairs2 : List ((String × String) × Nat)) (n : Nat) :
    staleLabels
        (identified (withIdentity inst shard ns)
            (pairs2.map (fun a => ⟨metricAndLabel a.1.1 a.1.2, a.2⟩)) ++
          List.replicate n PrometheusLabelValuePair.zero)
        (pairs1.map (fun a => withIdentity inst shard ns (metricAndLabel a.1.1 a.1.2))) =
      (pairs1.filter (fun a => decide (a.1 ∉ pairs2.map Prod.fst))).map
        (fun a => withIdentity inst shard ns (metricAndLabel a.1.1 a.1.2)) := by
  unfold staleLabels
  rw [List.filter_map]
  congr 1
  apply List.filter_congr
  intro a _
  have hlen : (withIdentity inst shard ns (metricAndLabel a.1.1 a.1.2)).len > 0 :=
    Nat.pos_of_ne_zero (withIdentity_len_ne _ _ _ _)
  have hfound : updateMetricByPrometheusLabels.found
      (identified (withIdentity inst shard ns)
          (pairs2.map (fun a => ⟨metricAndLabel a.1.1 a.1.2, a.2⟩)) ++
        List.replicate n PrometheusLabelValuePair.zero)
      (withIdentity inst shard ns (metricAndLabel a.1.1 a.1.2)) = true ↔
      a.1 ∈ pairs2.map Prod.fst := by
    rw [updateMetricByPrometheusLabels.labelsFound_iff]
    constructor
    · rintro ⟨q, hq, hqL⟩
      rcases List.mem_append.mp hq with hq | hq
      · simp only [identified, List.mem_map] at hq
        obtain ⟨q0, ⟨b, hb, hbq⟩, hq0⟩ := hq
        rw [← hq0, ← hbq] at hqL
        simp only at hqL
        have := (withIdentity_metricAndLabel_injective inst shard ns _ _ _ _).mp hqL
        rw [List.mem_map]
        exact ⟨b, hb, by rw [← Prod.mk.eta (p := b.1), ← Prod.mk.eta (p := a.1)]; exact this⟩
      · rw [(List.mem_replicate.mp hq).2] at hqL
        exact absurd (congrArg Labels.len hqL).symm (withIdentity_len_ne _ _ _ _)
    · intro h
      rw [List.mem_map] at h
      obtain ⟨b, hb, hba⟩ := h
      refine ⟨⟨withIdentity inst shard ns (metricAndLabel b.1.1 b.1.2), b.2⟩, ?_, ?_⟩
      · apply List.mem_append_left
        simp only [identified, List.mem_map]
        exact ⟨⟨metricAndLabel b.1.1 b.1.2, b.2⟩, ⟨b, hb, rfl⟩, rfl⟩
      · simp only
        rw [hba]
  simp only [Function.comp]
  by_cases hm : a.1 ∈ pairs2.map Prod.fst
  · simp [hfound.mpr hm, hm]
  · have hf : updateMetricByPrometheusLabels.found
        (identified (withIdentity inst shard ns)
            (pairs2.map (fun a => ⟨metricAndLabel a.1.1 a.1.2, a.2⟩)) ++
          List.replicate n PrometheusLabelValuePair.zero)
        (withIdentity inst shard ns (metricAndLabel a.1.1 a.1.2)) = false := by
      rw [← Bool.not_eq_true]
      exact fun h => hm (hfound.mp h)
    simp only [hf, hm, Bool.not_false, Bool.true_and, not_false_eq_true, decide_True,
      decide_eq_true_eq]
    exact hlen

/-- C16: two consecutive successful calls of `updateMetricByPrometheusLabels`
with the same identity values, the first from the all-empty tracked state on a
list built from the pairs `pairs1`, the second on a list built afresh from
`pairs2` with the tracked sequence the first returned. The first call exposes
one series per pair of `pairs1` and deletes nothing. The `Delete` requests of
the second are, in order, the label sets of the pairs of `pairs1` that are not
pairs of `pairs2`, each with the three identity labels; the label set of a pair
present in both lists is not deleted. -/
theorem labels_retraction (Metric : GaugeVec) (pairs1 pairs2 : List ((String × String) × Nat))
    (inst shard ns : String) (h1 : pairs1.length ≤ 10) (h2 : pairs2.length ≤ 10)
    (hs1 : (updateMetricByPrometheusLabels Metric (topTenLabels (pairSets pairs1))
      (Array10.zero Labels.empty) inst shard ns).err = none)
    (hs2 : (updateMetricByPrometheusLabels
      (updateMetricByPrometheusLabels Metric (topTenLabels (pairSets pairs1))
        (Array10.zero Labels.empty) inst shard ns).gauge
      (topTenLabels (pairSets pairs2))
      (updateMetricByPrometheusLabels Metric (topTenLabels (pairSets pairs1))
        (Array10.zero Labels.empty) inst shard ns).tracked inst shard ns).err = none) :
    (updateMetricByPrometheusLabels Metric (topTenLabels (pairSets pairs1))
        (Array10.zero Labels.empty) inst shard ns).ops =
      labelSetOps (withIdentity inst shard ns)
        (pairs1.map (fun a => ⟨metricAndLabel a.1.1 a.1.2, a.2⟩)) ∧
    deletedLabels (updateMetricByPrometheusLabels
        (updateMetricByPrometheusLabels Metric (topTenLabels (pairSets pairs1))
          (Array10.zero Labels.empty) inst shard ns).gauge
        (topTenLabels (pairSets pairs2))
        (updateMetricByPrometheusLabels Metric (topTenLabels (pairSets pairs1))
          (Array10.zero Labels.empty) inst shard ns).tracked inst shard ns).ops =
      (pairs1.filter (fun a => decide (a.1 ∉ pairs2.map Prod.fst))).map
        (fun a => withIdentity inst shard ns (metricAndLabel a.1.1 a.1.2)) ∧
    (∀ a ∈ pairs1, a.1 ∈ pairs2.map Prod.fst →
      withIdentity inst shard ns (metricAndLabel a.1.1 a.1.2) ∉
        deletedLabels (updateMetricByPrometheusLabels
          (updateMetricByPrometheusLabels Metric (topTenLabels (pairSets pairs1))
            (Array10.zero Labels.empty) inst shard ns).gauge
          (topTenLabels (pairSets pairs2))
          (updateMetricByPrometheusLabels Metric (topTenLabels (pairSets pairs1))
            (Array10.zero Labels.empty) inst shard ns).tracked inst shard ns).ops) := by
  have ha1 := (updateMetricByPrometheusLabels_err_eq_none_iff _ _ _ _ _ _).mp hs1
  have ha2 := (updateMetricByPrometheusLabels_err_eq_none_iff _ _ _ _ _ _).mp hs2
  obtain ⟨_, _, hops1, htr1⟩ := updateMetricByPrometheusLabels_of_accepts _ _ _ _ _ _ ha1
  obtain ⟨_, _, hops2, _⟩ := updateMetricByPrometheusLabels_of_accepts _ _ _ _ _ _ ha2
  obtain ⟨hp1, hd1⟩ := topTenLabels_pairSets pairs1 h1
  obtain ⟨hp2, hd2⟩ := topTenLabels_pairSets pairs2 h2
  have hT1 : (updateMetricByPrometheusLabels Metric (topTenLabels (pairSets pairs1))
      (Array10.zero Labels.empty) inst shard ns).tracked.toList =
      pairs1.map (fun a => withIdentity inst shard ns (metricAndLabel a.1.1 a.1.2)) ++
        List.replicate (10 - pairs1.length) Labels.empty := by
    rw [htr1, hp1, recordLabels_toList _ _ (by simpa using h1), List.map_map, List.length_map]
    rfl
  have hdel : deletedLabels (updateMetricByPrometheusLabels
        (updateMetricByPrometheusLabels Metric (topTenLabels (pairSets pairs1))
          (Array10.zero Labels.empty) inst shard ns).gauge
        (topTenLabels (pairSets pairs2))
        (updateMetricByPrometheusLabels Metric (topTenLabels (pairSets pairs1))
          (Array10.zero Labels.empty) inst shard ns).tracked inst shard ns).ops =
      (pairs1.filter (fun a => decide (a.1 ∉ pairs2.map Prod.fst))).map
        (fun a => withIdentity inst shard ns (metricAndLabel a.1.1 a.1.2)) := by
    rw [hops2, hp2, hd2, hT1, staleLabels_append, staleLabels_replicate_empty, List.append_nil,
      staleLabels_of_pairs, deletedLabels_append, deletedLabels_labelSetOps, List.nil_append]
    have hmm : ∀ ls : List Labels,
        ls.map (fun x => StoreOp.delete (withIdentity inst shard ns x)) =
          (ls.map (withIdentity inst shard ns)).map StoreOp.delete := by
      intro ls; rw [List.map_map]; rfl
    rw [hmm, deletedLabels_map_delete, List.map_map]
    apply List.map_congr_left
    intro a _
    exact withIdentity_idem inst shard ns _ (metricAndLabel_sorted _ _)
  refine ⟨?_, hdel, ?_⟩
  · rw [hops1, hp1, hd1]
    have : staleLabels (identified (withIdentity inst shard ns)
          (pairs1.map (fun a => ⟨metricAndLabel a.1.1 a.1.2, a.2⟩)) ++
        List.replicate (10 - pairs1.length) PrometheusLabelValuePair.zero)
        (Array10.zero Labels.empty).toList = [] :=
      staleLabels_replicate_empty _ 10
    rw [this, List.map_nil, List.append_nil]
  · intro a _ hmem hdelmem
    rw [hdel, List.mem_map] at hdelmem
    obtain ⟨b, hb, hba⟩ := hdelmem
    rw [List.mem_filter] at hb
    have hnot := of_decide_eq_true hb.2
    have hpair := (withIdentity_metricAndLabel_injective inst shard ns _ _ _ _).mp hba
    apply hnot
    have : b.1 = a.1 := by
      rw [← Prod.mk.eta (p := b.1), ← Prod.mk.eta (p := a.1)]; exact hpair
    rw [this]; exact hmem

/-- C16 at a concrete input: the first list holds `(up, job)` and
`(up, env)`, the second `(up, job)` and `(up, zone)`. The second call requests
one `Delete`, for `(up, env)`. -/
theorem labels_retraction_witness :
    deletedLabels (updateMetricByPrometheusLabels
        (updateMetricByPrometheusLabels (storeOf [])
          (topTenLabels (pairSets [(("up", "job"), 3), (("up", "env"), 2)]))
          (Array10.zero Labels.empty) "i" "s" "n").gauge
        (topTenLabels (pairSets [(("up", "job"), 4), (("up", "zone"), 1)]))
        (updateMetricByPrometheusLabels (storeOf [])
          (topTenLabels (pairSets [(("up", "job"), 3), (("up", "env"), 2)]))
          (Array10.zero Labels.empty) "i" "s" "n").tracked "i" "s" "n").ops =
      [withIdentity "i" "s" "n" (metricAndLabel "up" "env")] := by
  have h := labels_retraction (storeOf []) [(("up", "job"), 3), (("up", "env"), 2)]
    [(("up", "job"), 4), (("up", "zone"), 1)] "i" "s" "n" (by decide) (by decide)
    (by decide) (by decide)
  rw [h.2.1]
  decide

/-! ## The two reconcilers side by side -/

/-- C17, at a failing input: two cycles from the empty store and the all-empty
tracked state, with label name `metric`. The first list is `x: 5`; the second
is `a: 1`, an empty slot, then `x: 5`. Both reconcilers make the same requests
in the first cycle and the same get-or-create and set requests in the second,
but `updateMetric` finds `x` after the empty slot and requests no `Delete`,
while `updateMetricByPrometheusLabels`, whose slots after the empty one never
received the identity labels, requests `Delete` for `x`. -/
theorem reconcilers_disagree_after_sentinel :
    updateMetricCycles "i" "s" "n" "metric"
        [topTen [("x", 5)], topTen [("a", 1), ("", 0), ("x", 5)]]
        (storeOf []) (Array10.zero "") =
      [StoreOp.getMetricWith (metricLabels "metric" "i" "s" "n" "x"),
       StoreOp.set (metricLabels "metric" "i" "s" "n" "x") 5,
       StoreOp.getMetricWith (metricLabels "metric" "i" "s" "n" "a"),
       StoreOp.set (metricLabels "metric" "i" "s" "n" "a") 1] ∧
    updateMetricByPrometheusLabelsCycles "i" "s" "n" "metric"
        [topTen [("x", 5)], topTen [("a", 1), ("", 0), ("x", 5)]]
        (storeOf []) (Array10.zero Labels.empty) =
      [StoreOp.getMetricWith (metricLabels "metric" "i" "s" "n" "x"),
       StoreOp.set (metricLabels "metric" "i" "s" "n" "x") 5,
       StoreOp.getMetricWith (metricLabels "metric" "i" "s" "n" "a"),
       StoreOp.set (metricLabels "metric" "i" "s" "n" "a") 1,
       StoreOp.delete (metricLabels "metric" "i" "s" "n" "x")] ∧
    updateMetricCycles "i" "s" "n" "metric"
        [topTen [("x", 5)], topTen [("a", 1), ("", 0), ("x", 5)]]
        (storeOf []) (Array10.zero "") ≠
      updateMetricByPrometheusLabelsCycles "i" "s" "n" "metric"
        [topTen [("x", 5)], topTen [("a", 1), ("", 0), ("x", 5)]]
        (storeOf []) (Array10.zero Labels.empty) := by
  decide

/-! ## What a failing reconcile leaves in the store -/

theorem runLabelSets_append (ident : Labels → Labels) (g : GaugeVec)
    (ps qs : List PrometheusLabelValuePair) :
    runLabelSets ident g (ps ++ qs) = runLabelSets ident (runLabelSets ident g ps) qs := by
  simp [runLabelSets, List.foldl_append]

theorem value?_runLabelSets (ident : Labels → Labels) (g : GaugeVec)
    (ps : List PrometheusLabelValuePair) (l : Labels) :
    (runLabelSets ident g ps).value? l =
      match (ps.filter (fun p => ident p.Labels = l)).getLast? with
      | some p => some (float64 p.Value)
      | none => g.value? l := by
  induction ps using List.reverseRecOn with
  | nil => simp [runLabelSets]
  | append_singleton ps p ih =>
    rw [runLabelSets_append]
    have h1 : runLabelSets ident (runLabelSets ident g ps) [p] =
        (runLabelSets ident g ps).upsert (ident p.Labels) (float64 p.Value) := rfl
    rw [h1, GaugeVec.value?_upsert, List.filter_append]
    by_cases hp : ident p.Labels = l
    · subst hp
      simp [List.filter_cons]
    · have hp2 : ¬ l = ident p.Labels := fun h => hp h.symm
      simp only [hp2, if_false, ih]
      simp [List.filter_cons, hp]

/-- When `updateMetricByPrometheusLabels` returns an error, it is the
get-or-create of one populated slot that failed, after the slots before it
were set. -/
theorem updateMetricByPrometheusLabels_of_err (Metric : GaugeVec)
    (new : Array10 PrometheusLabelValuePair) (tracked : Array10 Labels)
    (inst shard ns : String) (e : Error)
    (h : (updateMetricByPrometheusLabels Metric new tracked inst shard ns).err = some e) :
    ∃ pre p post, new.toList = pre ++ p :: post ∧ (∀ q ∈ pre, q.Labels.len ≠ 0) ∧
      p.Labels.len ≠ 0 ∧
      updateMetricByPrometheusLabels Metric new tracked inst shard ns =
        ⟨⟨runLabelSets (withIdentity inst shard ns) Metric pre,
          labelSetOps (withIdentity inst shard ns) pre ++
            [StoreOp.getMetricWith (withIdentity inst shard ns p.Labels)],
          tracked, some (Error.updatingLabels (withIdentity inst shard ns p.Labels))⟩,
          tracked⟩ := by
  have hne : ¬ ∀ p ∈ populatedLabels new.toList,
      Metric.rejects (withIdentity inst shard ns p.Labels) = false := by
    intro hall
    rw [(updateMetricByPrometheusLabels_err_eq_none_iff _ _ _ _ _ _).mpr hall] at h
    cases h
  have hex : ∃ p ∈ populatedLabels new.toList,
      (fun p : PrometheusLabelValuePair =>
        Metric.rejects (withIdentity inst shard ns p.Labels)) p = true := by
    by_contra hcon
    apply hne
    intro p hp
    by_contra hp2
    exact hcon ⟨p, hp, by simpa using hp2⟩
  obtain ⟨pre, p, post, hl, hpre, hp⟩ := exists_first_true _ _ hex
  have hmem : ∀ q ∈ pre ++ p :: post, q.Labels.len ≠ 0 := by
    intro q hq
    rw [← hl] at hq
    exact populatedLabels_len_ne _ q hq
  have hsplit : new.toList =
      pre ++ p :: (post ++ new.toList.dropWhile (fun p => p.Labels.len ≠ 0)) := by
    have := populatedLabels_append_dropWhile new.toList
    rw [hl, List.append_assoc, List.cons_append] at this
    exact this.symm
  exact ⟨pre, p, _, hsplit, fun q hq => hmem q (List.mem_append_left _ hq),
    hmem p (List.mem_append_right _ (List.mem_cons_self _ _)),
    updateMetricByPrometheusLabels_of_rejects Metric new tracked inst shard ns pre _ p hsplit
      (fun q hq => ⟨hmem q (List.mem_append_left _ hq), hpre q hq⟩)
      (hmem p (List.mem_append_right _ (List.mem_cons_self _ _))) hp⟩

/-- A call of `updateMetricByPrometheusLabels` that returns an error has
requested no `Delete`, has made requests for rewritten label sets of the new
list only, has removed no series, and has left the value of every series
other than those alone. -/
theorem updateMetricByPrometheusLabels_err_keeps (Metric : GaugeVec)
    (new : Array10 PrometheusLabelValuePair) (tracked : Array10 Labels)
    (inst shard ns : String) (e : Error)
    (h : (updateMetricByPrometheusLabels Metric new tracked inst shard ns).err = some e) :
    deletedLabels (updateMetricByPrometheusLabels Metric new tracked inst shard ns).ops = [] ∧
    (∀ op ∈ (updateMetricByPrometheusLabels Metric new tracked inst shard ns).ops,
      ∃ q ∈ new.toList, q.Labels.len ≠ 0 ∧ op.labels = withIdentity inst shard ns q.Labels) ∧
    (∀ l, Metric.has l = true →
      (updateMetricByPrometheusLabels Metric new tracked inst shard ns).gauge.has l = true) ∧
    (∀ l, (∀ q ∈ new.toList, q.Labels.len ≠ 0 → withIdentity inst shard ns q.Labels ≠ l) →
      (updateMetricByPrometheusLabels Metric new tracked inst shard ns).gauge.value? l =
        Metric.value? l) := by
  obtain ⟨pre, p, post, hsplit, hpre, hp, heq⟩ :=
    updateMetricByPrometheusLabels_of_err Metric new tracked inst shard ns e h
  rw [heq]
  simp only
  refine ⟨?_, ?_, ?_, ?_⟩
  · rw [deletedLabels_append, deletedLabels_labelSetOps]
    rfl
  · intro op hop
    rcases List.mem_append.mp hop with hop | hop
    · unfold labelSetOps at hop
      rw [List.mem_flatMap] at hop
      obtain ⟨q, hq, hop⟩ := hop
      refine ⟨q, by rw [hsplit]; exact List.mem_append_left _ hq, hpre q hq, ?_⟩
      simp only [List.mem_cons, List.mem_singleton, List.not_mem_nil, or_false] at hop
      rcases hop with rfl | rfl
      · rfl
      · rfl
    · refine ⟨p, by rw [hsplit]; exact List.mem_append_right _ (List.mem_cons_self _ _), hp, ?_⟩
      rw [List.mem_singleton] at hop
      rw [hop]
      rfl
  · intro l hl
    unfold GaugeVec.has at hl ⊢
    rw [value?_runLabelSets]
    cases hg : (pre.filter (fun q => withIdentity inst shard ns q.Labels = l)).getLast? with
    | none => exact hl
    | some q => rfl
  · intro l hl
    rw [value?_runLabelSets]
    have hnil : pre.filter (fun q => withIdentity inst shard ns q.Labels = l) = [] := by
      rw [List.filter_eq_nil_iff]
      intro q hq
      have := hl q (by rw [hsplit]; exact List.mem_append_left _ hq) (hpre q hq)
      simpa using this
    rw [hnil]
    rfl

/-! ## What a failing expansion step leaves -/

/-- A step of `ExposeSeriesCountByMetricsNamePerLabels` whose body does not parse returns the parse error and
leaves the instance and the store as they were. -/
theorem exposeSeriesCountByMetricsNamePerLabel_of_parse_fails (env : Env)
    (p : PrometheusCardinalityInstance) (x : String) (g : GaugeVec) (body : String)
    (hb : fetchTSDBStatus p env.httpClient (env.encodeQuery (labelFilter x)) = some body)
    (hd : (env.decode body TSDBStatus.zero).2 = true) :
    exposeSeriesCountByMetricsNamePerLabel env p x g =
      ⟨p, g, [], [stepURL env p (labelFilter x)], some Error.cantParseJson⟩ := by
  unfold labelFilter at hb
  unfold exposeSeriesCountByMetricsNamePerLabel
  simp only [hb, jsonUnmarshal, hd, if_true]
  rfl

/-- A step of `ExposeSeriesCountByMetricsNamePerLabels` whose body parses leaves the store its reconcile leaves. -/
theorem exposeSeriesCountByMetricsNamePerLabel_of_parsed (env : Env)
    (p : PrometheusCardinalityInstance) (x : String) (g : GaugeVec) (body : String)
    (hb : fetchTSDBStatus p env.httpClient (env.encodeQuery (labelFilter x)) = some body)
    (hd : (env.decode body TSDBStatus.zero).2 = false) :
    (exposeSeriesCountByMetricsNamePerLabel env p x g).gauge = (reconcilePerLabel env p x g body).gauge ∧
    (exposeSeriesCountByMetricsNamePerLabel env p x g).ops = (reconcilePerLabel env p x g body).ops := by
  unfold labelFilter at hb
  unfold exposeSeriesCountByMetricsNamePerLabel
  simp only [hb, jsonUnmarshal, hd, if_false, Bool.false_eq_true]
  rw [TrackingTable.get_lazily_created]
  exact ⟨rfl, rfl⟩

/-- The populated entries of the list a step of `ExposeSeriesCountByMetricsNamePerLabels` builds carry the name
the step expands under `label`. -/
theorem seriesPerLabelPairs_key (st : TSDBStatus) (x inst shard ns : String)
    (q : PrometheusLabelValuePair) (hq : q ∈ (seriesPerLabelPairs st x).toList)
    (hlen : q.Labels.len ≠ 0) :
    (withIdentity inst shard ns q.Labels).get? "label" = some x := by
  unfold seriesPerLabelPairs Array10.map Array10.toList at hq
  simp only [List.mem_map] at hq
  obtain ⟨pair, _, hpair⟩ := hq
  rw [withIdentity_get?_other _ _ _ _ _ (by decide)]
  by_cases hl : pair.Label ≠ ""
  · rw [if_pos hl] at hpair
    rw [← hpair]
    exact (metricAndLabel_get? _ _).2
  · rw [if_neg hl] at hpair
    rw [← hpair] at hlen
    exact absurd rfl hlen

/-- A failing step of `ExposeSeriesCountByMetricsNamePerLabels` requests no `Delete`, makes requests only for
label sets of the name it expands, removes no series, and leaves the value of
every series of another name alone. -/
theorem exposeSeriesCountByMetricsNamePerLabel_fail_keeps (env : Env)
    (p : PrometheusCardinalityInstance) (x : String) (g : GaugeVec) (e : Error)
    (h : (exposeSeriesCountByMetricsNamePerLabel env p x g).err = some e) :
    deletedLabels (exposeSeriesCountByMetricsNamePerLabel env p x g).ops = [] ∧
    (∀ op ∈ (exposeSeriesCountByMetricsNamePerLabel env p x g).ops, op.labels.get? "label" = some x) ∧
    (∀ l, g.has l = true → (exposeSeriesCountByMetricsNamePerLabel env p x g).gauge.has l = true) ∧
    (∀ l, l.get? "label" ≠ some x →
      (exposeSeriesCountByMetricsNamePerLabel env p x g).gauge.value? l = g.value? l) := by
  cases hf : fetchTSDBStatus p env.httpClient (env.encodeQuery (labelFilter x)) with
  | none =>
    rw [exposeSeriesCountByMetricsNamePerLabel_of_fetch_none env p x g hf]
    exact ⟨rfl, fun op hop => (by cases hop), fun l hl => hl, fun l _ => rfl⟩
  | some body =>
    by_cases hd : (env.decode body TSDBStatus.zero).2 = true
    · rw [exposeSeriesCountByMetricsNamePerLabel_of_parse_fails env p x g body hf hd]
      exact ⟨rfl, fun op hop => (by cases hop), fun l hl => hl, fun l _ => rfl⟩
    · have hd2 : (env.decode body TSDBStatus.zero).2 = false := by simpa using hd
      obtain ⟨hg, ho⟩ := exposeSeriesCountByMetricsNamePerLabel_of_parsed env p x g body hf hd2
      rw [exposeSeriesCountByMetricsNamePerLabel_err, hf] at h
      simp only [hd2, Bool.false_eq_true, if_false] at h
      cases he : (reconcilePerLabel env p x g body).err with
      | none => rw [he] at h; cases h
      | some e2 =>
        obtain ⟨k1, k2, k3, k4⟩ := updateMetricByPrometheusLabels_err_keeps _ _ _ _ _ _ e2 he
        rw [hg, ho]
        refine ⟨k1, ?_, k3, ?_⟩
        · intro op hop
          obtain ⟨q, hq, hlen, hlab⟩ := k2 op hop
          rw [hlab]
          exact seriesPerLabelPairs_key _ x _ _ _ q hq hlen
        · intro l hl
          apply k4
          intro q hq hlen hcon
          apply hl
          rw [← hcon]
          exact seriesPerLabelPairs_key _ x _ _ _ q hq hlen

/-- A step of `ExposeLabelCountByLabelNameNamePerMetricNames` whose body does not parse returns the parse error and
leaves the instance and the store as they were. -/
theorem exposeLabelCountByLabelNameNamePerMetricName_of_parse_fails (env : Env)
    (p : PrometheusCardinalityInstance) (x : String) (g : GaugeVec) (body : String)
    (hb : fetchTSDBStatus p env.httpClient (env.encodeQuery (metricFilter x)) = some body)
    (hd : (env.decode body TSDBStatus.zero).2 = true) :
    exposeLabelCountByLabelNameNamePerMetricName env p x g =
      ⟨p, g, [], [stepURL env p (metricFilter x)], some Error.cantParseJson⟩ := by
  unfold metricFilter at hb
  unfold exposeLabelCountByLabelNameNamePerMetricName
  simp only [hb, jsonUnmarshal, hd, if_true]
  rfl

/-- A step of `ExposeLabelCountByLabelNameNamePerMetricNames` whose body parses leaves the store its reconcile leaves. -/
theorem exposeLabelCountByLabelNameNamePerMetricName_of_parsed (env : Env)
    (p : PrometheusCardinalityInstance) (x : String) (g : GaugeVec) (body : String)
    (hb : fetchTSDBStatus p env.httpClient (env.encodeQuery (metricFilter x)) = some body)
    (hd : (env.decode body TSDBStatus.zero).2 = false) :
    (exposeLabelCountByLabelNameNamePerMetricName env p x g).gauge = (reconcilePerMetric env p x g body).gauge ∧
    (exposeLabelCountByLabelNameNamePerMetricName env p x g).ops = (reconcilePerMetric env p x g body).ops := by
  unfold metricFilter at hb
  unfold exposeLabelCountByLabelNameNamePerMetricName
  simp only [hb, jsonUnmarshal, hd, if_false, Bool.false_eq_true]
  exact ⟨rfl, rfl⟩

/-- The populated entries of the list a step of `ExposeLabelCountByLabelNameNamePerMetricNames` builds carry the name
the step expands under `metric`. -/
theorem labelsPerMetricPairs_key (st : TSDBStatus) (x inst shard ns : String)
    (q : PrometheusLabelValuePair) (hq : q ∈ (labelsPerMetricPairs st x).toList)
    (hlen : q.Labels.len ≠ 0) :
    (withIdentity inst shard ns q.Labels).get? "metric" = some x := by
  unfold labelsPerMetricPairs Array10.map Array10.toList at hq
  simp only [List.mem_map] at hq
  obtain ⟨pair, _, hpair⟩ := hq
  rw [withIdentity_get?_other _ _ _ _ _ (by decide)]
  by_cases hl : pair.Label ≠ ""
  · rw [if_pos hl] at hpair
    rw [← hpair]
    exact (metricAndLabel_get? _ _).1
  · rw [if_neg hl] at hpair
    rw [← hpair] at hlen
    exact absurd rfl hlen

/-- A failing step of `ExposeLabelCountByLabelNameNamePerMetricNames` requests no `Delete`, makes requests only for
label sets of the name it expands, removes no series, and leaves the value of
every series of another name alone. -/
theorem exposeLabelCountByLabelNameNamePerMetricName_fail_keeps (env : Env)
    (p : PrometheusCardinalityInstance) (x : String) (g : GaugeVec) (e : Error)
    (h : (exposeLabelCountByLabelNameNamePerMetricName env p x g).err = some e) :
    deletedLabels (exposeLabelCountByLabelNameNamePerMetricName env p x g).ops = [] ∧
    (∀ op ∈ (exposeLabelCountByLabelNameNamePerMetricName env p x g).ops, op.labels.get? "metric" = some x) ∧
    (∀ l, g.has l = true → (exposeLabelCountByLabelNameNamePerMetricName env p x g).gauge.has l = true) ∧
    (∀ l, l.get? "metric" ≠ some x →
      (exposeLabelCountByLabelNameNamePerMetricName env p x g).gauge.value? l = g.value? l) := by
  cases hf : fetchTSDBStatus p env.httpClient (env.encodeQuery (metricFilter x)) with
  | none =>
    rw [exposeLabelCountByLabelNameNamePerMetricName_of_fetch_none env p x g hf]
    exact ⟨rfl, fun op hop => (by cases hop), fun l hl => hl, fun l _ => rfl⟩
  | some body =>
    by_cases hd : (env.decode body TSDBStatus.zero).2 = true
    · rw [exposeLabelCountByLabelNameNamePerMetricName_of_parse_fails env p x g body hf hd]
      exact ⟨rfl, fun op hop => (by cases hop), fun l hl => hl, fun l _ => rfl⟩
    · have hd2 : (env.decode body TSDBStatus.zero).2 = false := by simpa using hd
      obtain ⟨hg, ho⟩ := exposeLabelCountByLabelNameNamePerMetricName_of_parsed env p x g body hf hd2
      rw [exposeLabelCountByLabelNameNamePerMetricName_err, hf] at h
      simp only [hd2, Bool.false_eq_true, if_false] at h
      cases he : (reconcilePerMetric env p x g body).err with
      | none => rw [he] at h; cases h
      | some e2 =>
        obtain ⟨k1, k2, k3, k4⟩ := updateMetricByPrometheusLabels_err_keeps _ _ _ _ _ _ e2 he
        rw [hg, ho]
        refine ⟨k1, ?_, k3, ?_⟩
        · intro op hop
          obtain ⟨q, hq, hlen, hlab⟩ := k2 op hop
          rw [hlab]
          exact labelsPerMetricPairs_key _ x _ _ _ q hq hlen
        · intro l hl
          apply k4
          intro q hq hlen hcon
          apply hl
          rw [← hcon]
          exact labelsPerMetricPairs_key _ x _ _ _ q hq hlen

/-! ## The expansion operations stop at the first failing step -/

/-- C11: each expansion operation visits the non-empty names of its primary
dimension in the order of the slots. If the visits of the slots `pre` succeed
(leaving `R`) and the step `r` for the next non-empty name fails, the operation
returns the error of `r` and the instance and store `r` leaves; its store
requests are those of `R` followed by those of `r`, and its fetches are one
per non-empty name of `pre`, in order, and one for the failing name, so no
fetch and no store request is made for a later name; the table entries of
every key that is not a visited name are as before the call, and those of
every key other than the failing name are as `R` left them. The failing step
requests no `Delete` and makes requests only for label sets of the failing
name, so every series `R` left in the store is still there after the
operation, and every series of another name has the value `R` left it with.
A step fails when its fetch fails or the body does not parse, and then it
makes no store request and leaves instance and store as they were, or when its
reconcile fails, and then its requests are those of the reconcile, none of
them a `Delete`. -/
theorem expansion_fail_fast (env : Env) :
    (∀ (p : PrometheusCardinalityInstance) (g : GaugeVec) (pre post : List LabelValuePair)
        (v : LabelValuePair) (e : Error) (R r : Expanded),
        p.LatestTSDBStatus.Data.LabelValueCountByLabelName.toList = pre ++ v :: post →
        v.Label ≠ "" →
        R = expandLoop (exposeSeriesCountByMetricsNamePerLabel env) pre p g [] [] →
        R.err = none →
        r = exposeSeriesCountByMetricsNamePerLabel env R.inst v.Label R.gauge →
        r.err = some e →
        (ExposeSeriesCountByMetricsNamePerLabels env p g).err = some e ∧
        (ExposeSeriesCountByMetricsNamePerLabels env p g).inst = r.inst ∧
        (ExposeSeriesCountByMetricsNamePerLabels env p g).gauge = r.gauge ∧
        (ExposeSeriesCountByMetricsNamePerLabels env p g).ops = R.ops ++ r.ops ∧
        (ExposeSeriesCountByMetricsNamePerLabels env p g).fetched =
          (populatedNames pre ++ [v.Label]).map (fun x => stepURL env p (labelFilter x)) ∧
        (∀ k, k ∉ populatedNames pre → k ≠ v.Label →
          tableEntries (ExposeSeriesCountByMetricsNamePerLabels env p g).inst k = tableEntries p k) ∧
        (∀ k, k ≠ v.Label →
          tableEntries (ExposeSeriesCountByMetricsNamePerLabels env p g).inst k = tableEntries R.inst k) ∧
        deletedLabels r.ops = [] ∧
        (∀ op ∈ r.ops, op.labels.get? "label" = some v.Label) ∧
        (∀ l, R.gauge.has l = true → (ExposeSeriesCountByMetricsNamePerLabels env p g).gauge.has l = true) ∧
        (∀ l, l.get? "label" ≠ some v.Label →
          (ExposeSeriesCountByMetricsNamePerLabels env p g).gauge.value? l = R.gauge.value? l)) ∧
    (∀ (p : PrometheusCardinalityInstance) (x : String) (g : GaugeVec),
        (FetchFails env.httpClient p (env.encodeQuery (labelFilter x)) →
          (exposeSeriesCountByMetricsNamePerLabel env p x g).err = some Error.cantParseJson ∧
          (exposeSeriesCountByMetricsNamePerLabel env p x g).inst = p ∧
          (exposeSeriesCountByMetricsNamePerLabel env p x g).gauge = g ∧
          (exposeSeriesCountByMetricsNamePerLabel env p x g).ops = []) ∧
        (∀ body, fetchTSDBStatus p env.httpClient (env.encodeQuery (labelFilter x)) = some body →
          (env.decode body TSDBStatus.zero).2 = true →
          (exposeSeriesCountByMetricsNamePerLabel env p x g).err = some Error.cantParseJson ∧
          (exposeSeriesCountByMetricsNamePerLabel env p x g).inst = p ∧
          (exposeSeriesCountByMetricsNamePerLabel env p x g).gauge = g ∧
          (exposeSeriesCountByMetricsNamePerLabel env p x g).ops = []) ∧
        (∀ body e, fetchTSDBStatus p env.httpClient (env.encodeQuery (labelFilter x)) = some body →
          (env.decode body TSDBStatus.zero).2 = false →
          (reconcilePerLabel env p x g body).err = some e →
          (exposeSeriesCountByMetricsNamePerLabel env p x g).err = some (Error.cantUpdateMetrics e) ∧
          (exposeSeriesCountByMetricsNamePerLabel env p x g).gauge = (reconcilePerLabel env p x g body).gauge ∧
          (exposeSeriesCountByMetricsNamePerLabel env p x g).ops = (reconcilePerLabel env p x g body).ops ∧
          deletedLabels (reconcilePerLabel env p x g body).ops = [])) ∧
    (∀ (p : PrometheusCardinalityInstance) (g : GaugeVec) (pre post : List LabelValuePair)
        (v : LabelValuePair) (e : Error) (R r : Expanded),
        p.LatestTSDBStatus.Data.SeriesCountByMetricName.toList = pre ++ v :: post →
        v.Label ≠ "" →
        R = expandLoop (exposeLabelCountByLabelNameNamePerMetricName env) pre p g [] [] →
        R.err = none →
        r = exposeLabelCountByLabelNameNamePerMetricName env R.inst v.Label R.gauge →
        r.err = some e →
        (ExposeLabelCountByLabelNameNamePerMetricNames env p g).err = some e ∧
        (ExposeLabelCountByLabelNameNamePerMetricNames env p g).inst = r.inst ∧
        (ExposeLabelCountByLabelNameNamePerMetricNames env p g).gauge = r.gauge ∧
        (ExposeLabelCountByLabelNameNamePerMetricNames env p g).ops = R.ops ++ r.ops ∧
        (ExposeLabelCountByLabelNameNamePerMetricNames env p g).fetched =
          (populatedNames pre ++ [v.Label]).map (fun x => stepURL env p (metricFilter x)) ∧
        (∀ k, k ∉ populatedNames pre → k ≠ v.Label →
          tableEntries (ExposeLabelCountByLabelNameNamePerMetricNames env p g).inst k = tableEntries p k) ∧
        (∀ k, k ≠ v.Label →
          tableEntries (ExposeLabelCountByLabelNameNamePerMetricNames env p g).inst k = tableEntries R.inst k) ∧
        deletedLabels r.ops = [] ∧
        (∀ op ∈ r.ops, op.labels.get? "metric" = some v.Label) ∧
        (∀ l, R.gauge.has l = true → (ExposeLabelCountByLabelNameNamePerMetricNames env p g).gauge.has l = true) ∧
        (∀ l, l.get? "metric" ≠ some v.Label →
          (ExposeLabelCountByLabelNameNamePerMetricNames env p g).gauge.value? l = R.gauge.value? l)) ∧
    (∀ (p : PrometheusCardinalityInstance) (x : String) (g : GaugeVec),
        (FetchFails env.httpClient p (env.encodeQuery (metricFilter x)) →
          (exposeLabelCountByLabelNameNamePerMetricName env p x g).err = some Error.cantParseJson ∧
          (exposeLabelCountByLabelNameNamePerMetricName env p x g).inst = p ∧
          (exposeLabelCountByLabelNameNamePerMetricName env p x g).gauge = g ∧
          (exposeLabelCountByLabelNameNamePerMetricName env p x g).ops = []) ∧
        (∀ body, fetchTSDBStatus p env.httpClient (env.encodeQuery (metricFilter x)) = some body →
          (env.decode body TSDBStatus.zero).2 = true →
          (exposeLabelCountByLabelNameNamePerMetricName env p x g).err = some Error.cantParseJson ∧
          (exposeLabelCountByLabelNameNamePerMetricName env p x g).inst = p ∧
          (exposeLabelCountByLabelNameNamePerMetricName env p x g).gauge = g ∧
          (exposeLabelCountByLabelNameNamePerMetricName env p x g).ops = []) ∧
        (∀ body e, fetchTSDBStatus p env.httpClient (env.encodeQuery (metricFilter x)) = some body →
          (env.decode body TSDBStatus.zero).2 = false →
          (reconcilePerMetric env p x g body).err = some e →
          (exposeLabelCountByLabelNameNamePerMetricName env p x g).err = some (Error.cantUpdateMetrics e) ∧
          (exposeLabelCountByLabelNameNamePerMetricName env p x g).gauge = (reconcilePerMetric env p x g body).gauge ∧
          (exposeLabelCountByLabelNameNamePerMetricName env p x g).ops = (reconcilePerMetric env p x g body).ops ∧
          deletedLabels (reconcilePerMetric env p x g body).ops = [])) := by
  refine ⟨?_, ?_, ?_, ?_⟩
  · intro p g pre post v e R r hl hv hR hpre hr hfail
    subst hR
    subst hr
    have hE := expandLoop_fail_at (exposeSeriesCountByMetricsNamePerLabel env) pre post v p g e hv hpre hfail
    have hfr := expandLoop_fetched (exposeSeriesCountByMetricsNamePerLabel env)
      (fun addr x => addr ++ "/api/v1/status/tsdb?" ++ env.encodeQuery (labelFilter x))
      (fun q x g2 => exposeSeriesCountByMetricsNamePerLabel_fetched env q x g2) pre p g
    obtain ⟨k1, k2, k3, k4⟩ := exposeSeriesCountByMetricsNamePerLabel_fail_keeps env _ v.Label _ e hfail
    unfold ExposeSeriesCountByMetricsNamePerLabels
    rw [hl, hE]
    refine ⟨rfl, rfl, rfl, rfl, ?_, ?_, ?_, k1, k2, k3, k4⟩
    · simp only
      rw [hfr.2 hpre, (exposeSeriesCountByMetricsNamePerLabel_fetched env _ v.Label _).1, List.map_append]
      simp only [stepURL, hfr.1, List.map_cons, List.map_nil]
    · intro k hk1 hk2
      simp only
      rw [exposeSeriesCountByMetricsNamePerLabel_frame env _ v.Label _ k hk2]
      exact expandLoop_frame (exposeSeriesCountByMetricsNamePerLabel env) k
        (fun q x g2 hne => exposeSeriesCountByMetricsNamePerLabel_frame env q x g2 k hne) pre p g [] [] hk1
    · intro k hk
      simp only
      exact exposeSeriesCountByMetricsNamePerLabel_frame env _ v.Label _ k hk
  · intro p x g
    have herr := exposeSeriesCountByMetricsNamePerLabel_err env p x g
    refine ⟨?_, ?_, ?_⟩
    · intro h
      rw [exposeSeriesCountByMetricsNamePerLabel_of_fetch_none env p x g
        ((fetchTSDBStatus_eq_none_iff p env.httpClient _).mpr h)]
      exact ⟨rfl, rfl, rfl, rfl⟩
    · intro body hb hd
      rw [exposeSeriesCountByMetricsNamePerLabel_of_parse_fails env p x g body hb hd]
      exact ⟨rfl, rfl, rfl, rfl⟩
    · intro body e hb hd he
      obtain ⟨hg, ho⟩ := exposeSeriesCountByMetricsNamePerLabel_of_parsed env p x g body hb hd
      refine ⟨?_, hg, ho,
        (updateMetricByPrometheusLabels_err_keeps _ _ _ _ _ _ e he).1⟩
      rw [herr, hb]
      simp only [hd, he, Bool.false_eq_true, if_false, Option.map_some']
  · intro p g pre post v e R r hl hv hR hpre hr hfail
    subst hR
    subst hr
    have hE := expandLoop_fail_at (exposeLabelCountByLabelNameNamePerMetricName env) pre post v p g e hv hpre hfail
    have hfr := expandLoop_fetched (exposeLabelCountByLabelNameNamePerMetricName env)
      (fun addr x => addr ++ "/api/v1/status/tsdb?" ++ env.encodeQuery (metricFilter x))
      (fun q x g2 => exposeLabelCountByLabelNameNamePerMetricName_fetched env q x g2) pre p g
    obtain ⟨k1, k2, k3, k4⟩ := exposeLabelCountByLabelNameNamePerMetricName_fail_keeps env _ v.Label _ e hfail
    unfold ExposeLabelCountByLabelNameNamePerMetricNames
    rw [hl, hE]
    refine ⟨rfl, rfl, rfl, rfl, ?_, ?_, ?_, k1, k2, k3, k4⟩
    · simp only
      rw [hfr.2 hpre, (exposeLabelCountByLabelNameNamePerMetricName_fetched env _ v.Label _).1, List.map_append]
      simp only [stepURL, hfr.1, List.map_cons, List.map_nil]
    · intro k hk1 hk2
      simp only
      rw [exposeLabelCountByLabelNameNamePerMetricName_frame env _ v.Label _ k hk2]
      exact expandLoop_frame (exposeLabelCountByLabelNameNamePerMetricName env) k
        (fun q x g2 hne => exposeLabelCountByLabelNameNamePerMetricName_frame env q x g2 k hne) pre p g [] [] hk1
    · intro k hk
      simp only
      exact exposeLabelCountByLabelNameNamePerMetricName_frame env _ v.Label _ k hk
  · intro p x g
    have herr := exposeLabelCountByLabelNameNamePerMetricName_err env p x g
    refine ⟨?_, ?_, ?_⟩
    · intro h
      rw [exposeLabelCountByLabelNameNamePerMetricName_of_fetch_none env p x g
        ((fetchTSDBStatus_eq_none_iff p env.httpClient _).mpr h)]
      exact ⟨rfl, rfl, rfl, rfl⟩
    · intro body hb hd
      rw [exposeLabelCountByLabelNameNamePerMetricName_of_parse_fails env p x g body hb hd]
      exact ⟨rfl, rfl, rfl, rfl⟩
    · intro body e hb hd he
      obtain ⟨hg, ho⟩ := exposeLabelCountByLabelNameNamePerMetricName_of_parsed env p x g body hb hd
      refine ⟨?_, hg, ho,
        (updateMetricByPrometheusLabels_err_keeps _ _ _ _ _ _ e he).1⟩
      rw [herr, hb]
      simp only [hd, he, Bool.false_eq_true, if_false, Option.map_some']

/-- C11 at a concrete input: the labels `job`, `env`, `zone` are expanded and
the fetch for `env` fails. The operation returns the error, fetches for `job`
and `env` only, keeps the entry made for `job` and the series set for `job`,
and the table entries of `zone` are as before. -/
theorem expansion_fail_fast_witness :
    (ExposeSeriesCountByMetricsNamePerLabels (envDownFor "env" (dataOf [("up", 3)] []))
        (freshInstance (dataOf [] [("job", 1), ("env", 2), ("zone", 3)]))
        (storeOf [])).err = some Error.cantParseJson ∧
    (ExposeSeriesCountByMetricsNamePerLabels (envDownFor "env" (dataOf [("up", 3)] []))
        (freshInstance (dataOf [] [("job", 1), ("env", 2), ("zone", 3)]))
        (storeOf [])).fetched =
      ["http://prom/api/v1/status/tsdb?" ++ labelFilter "job",
        "http://prom/api/v1/status/tsdb?" ++ labelFilter "env"] ∧
    tableEntries (ExposeSeriesCountByMetricsNamePerLabels
        (envDownFor "env" (dataOf [("up", 3)] []))
        (freshInstance (dataOf [] [("job", 1), ("env", 2), ("zone", 3)]))
        (storeOf [])).inst "zone" =
      tableEntries (freshInstance (dataOf [] [("job", 1), ("env", 2), ("zone", 3)])) "zone" ∧
    (ExposeSeriesCountByMetricsNamePerLabels (envDownFor "env" (dataOf [("up", 3)] []))
        (freshInstance (dataOf [] [("job", 1), ("env", 2), ("zone", 3)]))
        (storeOf [])).inst.TrackedLabels.SeriesCountByMetricNamePerLabelLabels.get "job" =
      trackedLabelsOf [withIdentity "i" "s" "n" (metricAndLabel "up" "job")] ∧
    (ExposeSeriesCountByMetricsNamePerLabels (envDownFor "env" (dataOf [("up", 3)] []))
        (freshInstance (dataOf [] [("job", 1), ("env", 2), ("zone", 3)]))
        (storeOf [])).gauge.has (withIdentity "i" "s" "n" (metricAndLabel "up" "job")) =
      true := by
  have h := (expansion_fail_fast (envDownFor "env" (dataOf [("up", 3)] []))).1
    (freshInstance (dataOf [] [("job", 1), ("env", 2), ("zone", 3)])) (storeOf [])
    [⟨"job", 1⟩] (⟨"zone", 3⟩ :: List.replicate 7 LabelValuePair.zero) ⟨"env", 2⟩
    Error.cantParseJson _ _ (by decide) (by decide) rfl (by decide) rfl (by decide)
  refine ⟨h.1, ?_, h.2.2.2.2.2.1 "zone" (by decide) (by decide), by decide,
    h.2.2.2.2.2.2.2.2.2.1 _ (by decide)⟩
  rw [h.2.2.2.2.1]
  decide

